import Mathlib

/-!
# Valen-Vue: the EEG ring-buffer pipeline

A shallow embedding of the buffering code of the EEG store
(`source/stores/eegStore.js`, `source/stores/eeg/eegDataProcessor.js`) and of the
index formula the 2D renderer reads the ring buffer with
(`source/stores/eeg/eeg2dRenderer.js`).

Modelling conventions.

* JavaScript numbers that carry samples are exact rationals (`ℚ`); indices, lengths and
  `maxPoints` are natural numbers.  The model is meant for `maxPoints ≥ 1`: for
  `maxPoints = 0` JavaScript computes `NaN` where the model computes with `Nat`.
* The store declares exactly the keys `fp1`, `fpz`, `fp2` in `buffer.circular`,
  `buffer.writeIndex`, `buffer.incoming` and `sensorData.data`, and no modelled code adds
  a key; so these objects are records with three fields (`PerChannel`), and a lookup by a
  channel *name* (a string) goes through `Chan.ofName`, where `none` is JavaScript's
  `undefined` (properties inherited from `Object.prototype` are not modelled).
* A ring-buffer array is a list of `Option ℚ`: `none` is a hole / `undefined`.
  Reading past the end gives `undefined`, writing past the end extends the array.
* `buffer.startTime` (a `performance.now()` stamp nothing in the modelled code reads),
  logging and the mock-mode branches (`isMockMode`) are not modelled: every function is
  the non-mock path.
-/

namespace Valen

/-! ## Data model -/

/-- The keys of the per-channel objects of the store. -/
inductive Chan where
  | fp1
  | fpz
  | fp2
deriving DecidableEq, Repr

/-- Property lookup by channel name: `obj[channel]` is defined only for the three keys. -/
def Chan.ofName (name : String) : Option Chan :=
  if name = "fp1" then some Chan.fp1
  else if name = "fpz" then some Chan.fpz
  else if name = "fp2" then some Chan.fp2
  else none

/-- The channels `initializeCircularBuffers` and `manageCircularBufferMemory` loop over:
`['fp1', 'fpz', 'fp2']`. -/
def Chan.all : List Chan := [Chan.fp1, Chan.fpz, Chan.fp2]

/-- An object with the keys `fp1`, `fpz`, `fp2`. -/
structure PerChannel (α : Type) where
  fp1 : α
  fpz : α
  fp2 : α
deriving DecidableEq, Repr

/-- Reading `obj[ch]`. -/
def PerChannel.get {α : Type} (m : PerChannel α) : Chan → α
  | Chan.fp1 => m.fp1
  | Chan.fpz => m.fpz
  | Chan.fp2 => m.fp2

/-- The assignment `obj[ch] = v`. -/
def PerChannel.set {α : Type} (m : PerChannel α) (ch : Chan) (v : α) : PerChannel α :=
  match ch with
  | Chan.fp1 => { m with fp1 := v }
  | Chan.fpz => { m with fpz := v }
  | Chan.fp2 => { m with fp2 := v }

/-- The object with the same value under every key. -/
def PerChannel.const {α : Type} (v : α) : PerChannel α :=
  { fp1 := v, fpz := v, fp2 := v }

/-- A JavaScript array of samples that may have holes (`none` is `undefined`). -/
abbrev JsArray := List (Option ℚ)

/-- Reading `a[i]` for a natural index. -/
def jsGet (a : JsArray) (i : Nat) : Option ℚ := a.getD i none

/-- Reading `a[i]` for an integer index: a negative index is not an element. -/
def jsGetInt (a : JsArray) (i : Int) : Option ℚ :=
  if i < 0 then none else jsGet a i.toNat

/-- The assignment `a[i] = v`: in range it replaces the slot, past the end it extends
the array, leaving holes below `i`. -/
def arraySet (a : JsArray) (i : Nat) (v : ℚ) : JsArray :=
  if i < a.length then a.set i (some v)
  else a ++ List.replicate (i - a.length) none ++ [some v]

/-- JavaScript's `a % m` on integers: the remainder has the sign of the dividend, and
`% 0` is `NaN` (here `none`). -/
def jsMod (a : Int) (m : Nat) : Option Int :=
  if m = 0 then none else some (a.tmod m)

/-- The field `sensorData` of the store (`data.snr` is kept apart from the series). -/
structure SensorData where
  sensor : String
  channels : List String
  data : PerChannel (List ℚ)
  snr : PerChannel ℚ
deriving DecidableEq, Repr

/-- The field `buffer` of the store. -/
structure Buffer where
  maxPoints : Nat
  displayPoints : Nat
  circular : PerChannel JsArray
  writeIndex : PerChannel Nat
  incoming : PerChannel (List ℚ)
  hasNewData : Bool
deriving DecidableEq, Repr

/-- The part of the EEG store the buffering code works on. -/
structure Store where
  sensorData : SensorData
  buffer : Buffer
  lastMemoryManagementTime : Option Nat
deriving DecidableEq, Repr

/-- The store as `state: () => (...)` creates it: empty arrays, `maxPoints: 500`,
`displayPoints: 125`. -/
def initialStore : Store :=
  { sensorData :=
      { sensor := "", channels := [], data := PerChannel.const [], snr := PerChannel.const 0 }
    buffer :=
      { maxPoints := 500, displayPoints := 125, circular := PerChannel.const [],
        writeIndex := PerChannel.const 0, incoming := PerChannel.const [],
        hasNewData := false }
    lastMemoryManagementTime := none }

/-! ## EegDataProcessor -/

/-- The method `initializeCircularBuffers`: every channel gets
`new Array(buffer.maxPoints).fill(0)` and write index 0; `hasNewData` is cleared. -/
def initializeCircularBuffers (st : Store) : Store :=
  { st with
    buffer :=
      { st.buffer with
        circular := PerChannel.const (List.replicate st.buffer.maxPoints (some 0))
        writeIndex := PerChannel.const 0
        hasNewData := false } }

/-- The inner loop of `processChannels`, lines 98-105: each sample is stored at the
write index, which then advances by one modulo `maxPoints`. -/
def writeLoop (maxPoints : Nat) : JsArray → Nat → List ℚ → JsArray × Nat
  | circ, w, [] => (circ, w)
  | circ, w, x :: xs => writeLoop maxPoints (arraySet circ w x) ((w + 1) % maxPoints) xs

/-- The call `arr.slice(-n)`: the last `n` elements, and the whole array for `n = 0`
(`-0` is `0`). -/
def sliceLast (n : Nat) (xs : List ℚ) : List ℚ :=
  if n = 0 then xs else xs.drop (xs.length - n)

/-- The body of the `if` in `processChannels` for one channel with pending data:
write the samples, mirror them into `sensorData.data`, trim the mirror, clear the
pending queue and raise `hasNewData`. -/
def flushChannel (st : Store) (ch : Chan) : Store :=
  let newData := st.buffer.incoming.get ch
  let written := writeLoop st.buffer.maxPoints (st.buffer.circular.get ch)
    (st.buffer.writeIndex.get ch) newData
  let pushed := st.sensorData.data.get ch ++ newData
  let mirror := if pushed.length > st.buffer.maxPoints
    then sliceLast st.buffer.maxPoints pushed else pushed
  { st with
    sensorData := { st.sensorData with data := st.sensorData.data.set ch mirror }
    buffer :=
      { st.buffer with
        circular := st.buffer.circular.set ch written.1
        writeIndex := st.buffer.writeIndex.set ch written.2
        incoming := st.buffer.incoming.set ch []
        hasNewData := true } }

/-- The `for (const channel of sensorData.channels)` loop of `processChannels`, carrying
the store and `hasProcessedData`. -/
def processChannelsLoop : List String → Store → Bool → Store × Bool
  | [], st, processed => (st, processed)
  | name :: rest, st, processed =>
    if name = "snr" then processChannelsLoop rest st processed
    else
      match Chan.ofName name with
      | none => processChannelsLoop rest st processed
      | some ch =>
        if (st.buffer.incoming.get ch).length > 0 then
          processChannelsLoop rest (flushChannel st ch) true
        else processChannelsLoop rest st processed

/-- The method `processChannels`: the new store and the returned `hasProcessedData`. -/
def processChannels (st : Store) : Store × Bool :=
  processChannelsLoop st.sensorData.channels st false

/-- The expression `Math.max(...xs.map(Math.abs))` for a non-empty `xs` (the code never
evaluates it on an empty queue); absolute values are not negative, so folding from 0
gives their maximum. -/
def channelMax (xs : List ℚ) : ℚ :=
  (xs.map fun x => |x|).foldl max 0

/-- The first loop of `normalizeIncomingData`, carrying `needsNormalization` and
`maxAmplitude`. -/
def scanAmplitude (incoming : PerChannel (List ℚ)) : List String → Bool × ℚ → Bool × ℚ
  | [], acc => acc
  | name :: rest, acc =>
    match Chan.ofName name with
    | none => scanAmplitude incoming rest acc
    | some ch =>
      if (incoming.get ch).length = 0 then scanAmplitude incoming rest acc
      else
        scanAmplitude incoming rest
          (acc.1 || decide (channelMax (incoming.get ch) > 100),
            max acc.2 (channelMax (incoming.get ch)))

/-- The second loop of `normalizeIncomingData`: every listed channel with pending data
has its queue replaced by `map(val => val * scaleFactor)`. -/
def scaleChannels (scaleFactor : ℚ) : List String → PerChannel (List ℚ) → PerChannel (List ℚ)
  | [], incoming => incoming
  | name :: rest, incoming =>
    match Chan.ofName name with
    | none => scaleChannels scaleFactor rest incoming
    | some ch =>
      if (incoming.get ch).length = 0 then scaleChannels scaleFactor rest incoming
      else
        scaleChannels scaleFactor rest
          (incoming.set ch ((incoming.get ch).map fun val => val * scaleFactor))

/-- The method `normalizeIncomingData` (`targetScale = 50`, threshold 100). -/
def normalizeIncomingData (st : Store) : Store :=
  let channels := st.sensorData.channels.filter fun ch => ch ≠ "snr"
  if channels.length = 0 then st
  else
    let scan := scanAmplitude st.buffer.incoming channels (false, 0)
    if scan.1 && decide (scan.2 > 0) then
      { st with
        buffer :=
          { st.buffer with
            incoming := scaleChannels (50 / scan.2) channels st.buffer.incoming } }
    else st

/-- The method `hasData`: `sensorData.data[channel]` is an array and is not empty. -/
def hasData (st : Store) (channel : String) : Bool :=
  match Chan.ofName channel with
  | none => false
  | some ch => decide ((st.sensorData.data.get ch).length > 0)

/-- The method `hasAnyData`. -/
def hasAnyData (st : Store) : Bool :=
  st.sensorData.channels.any fun channel => channel ≠ "snr" && hasData st channel

/-- The object `processIncomingBuffer` returns. -/
structure FlushReport where
  hasIncomingData : Bool
  writeIndices : PerChannel Nat
  hasNewData : Bool
  channels : List String
  hasData : Bool
deriving DecidableEq, Repr

/-- The method `processIncomingBuffer` outside mock mode: normalise, flush, report. -/
def processIncomingBuffer (st : Store) : Store × FlushReport :=
  let flushed := processChannels (normalizeIncomingData st)
  (flushed.1,
    { hasIncomingData := flushed.2
      writeIndices := flushed.1.buffer.writeIndex
      hasNewData := flushed.1.buffer.hasNewData
      channels := flushed.1.sensorData.channels
      hasData := hasAnyData flushed.1 })

/-- The method `getLatestValue`: 0 when `buffer.circular[channel]` is falsy (no such
key; an array, even an empty one, is truthy), otherwise the slot before the write
index. -/
def getLatestValue (st : Store) (channel : String) : Option ℚ :=
  match Chan.ofName channel with
  | none => some 0
  | some ch =>
    match jsMod ((st.buffer.writeIndex.get ch : Int) - 1 + st.buffer.maxPoints)
        st.buffer.maxPoints with
    | none => none
    | some prevIndex => jsGetInt (st.buffer.circular.get ch) prevIndex

/-- The payload field `eeg.data`: `series channel` is `data[channel]` when that value is
an array (`Array.isArray`), and `snr` is `data.snr` when it is truthy. -/
structure EegData where
  series : String → Option (List ℚ)
  snr : Option (PerChannel ℚ)

/-- The payload field `eeg`; an absent field is `none`. -/
structure EegMessage where
  sensor : Option String
  channels : Option (List String)
  data : Option EegData

/-- A payload handed to `updateEEGData`; `eeg` may be missing. -/
structure Payload where
  eeg : Option EegMessage

/-- The `for (const channel of sensorData.channels)` loop of `updateEEGData`.  The
boolean is `false` when `buffer.incoming[channel].push` threw because the channel has no
pending queue; the store is then as the loop left it. -/
def enqueueLoop (d : EegData) : List String → Store → Store × Bool
  | [], st => (st, true)
  | channel :: rest, st =>
    if channel = "snr" then
      match d.snr with
      | some s => enqueueLoop d rest { st with sensorData := { st.sensorData with snr := s } }
      | none => enqueueLoop d rest st
    else
      match d.series channel with
      | none => enqueueLoop d rest st
      | some samples =>
        match Chan.ofName channel with
        | none => (st, false)
        | some ch =>
          enqueueLoop d rest
            { st with
              buffer :=
                { st.buffer with
                  incoming := st.buffer.incoming.set ch (st.buffer.incoming.get ch ++ samples) } }

/-- The method `EegDataProcessor.updateEEGData`: the new store and the returned boolean
(`false` for a falsy payload, a payload without `eeg`, and a caught exception). -/
def updateEEGData (data : Option Payload) (st : Store) : Store × Bool :=
  match data with
  | none => (st, false)
  | some payload =>
    match payload.eeg with
    | none => (st, false)
    | some eeg =>
      let st1 : Store :=
        { st with
          sensorData :=
            { st.sensorData with
              sensor := eeg.sensor.getD ""
              channels := eeg.channels.getD [] } }
      match eeg.data with
      | none => (st1, true)
      | some d => enqueueLoop d st1.sensorData.channels st1

/-! ## Store actions -/

/-- The action `clearData`. -/
def clearData (st : Store) : Store :=
  let st1 : Store :=
    { st with
      sensorData := { st.sensorData with data := PerChannel.const [] }
      buffer := { st.buffer with incoming := PerChannel.const [] } }
  let st2 := initializeCircularBuffers st1
  { st2 with sensorData := { st2.sensorData with snr := PerChannel.const 0 } }

/-- The action `releaseBufferMemory`. -/
def releaseBufferMemory (st : Store) : Store :=
  { st with
    sensorData := { st.sensorData with data := PerChannel.const [] }
    buffer :=
      { st.buffer with
        incoming := PerChannel.const []
        circular := PerChannel.const []
        writeIndex := PerChannel.const 0
        hasNewData := false } }

/-- One pass of the loop of `manageCircularBufferMemory` for a channel.  On lengths,
which are integers, the floating-point test `length > bufferSize * 1.1` is
`10 * length > 11 * bufferSize`. -/
def pruneChannel (b : Buffer) (ch : Chan) : Buffer :=
  let circularBuffer := b.circular.get ch
  let bufferSize := b.maxPoints
  if circularBuffer.length * 10 > bufferSize * 11 then
    let startIdx := circularBuffer.length - bufferSize
    let newBuffer : JsArray :=
      (List.range bufferSize).map fun i => jsGet circularBuffer (startIdx + i)
    { b with
      circular := b.circular.set ch newBuffer
      writeIndex := b.writeIndex.set ch (bufferSize % bufferSize) }
  else b

/-- The action `manageCircularBufferMemory`, with `Date.now()` as the input `now`.  A
stored time of 0 is falsy, like `null`. -/
def manageCircularBufferMemory (now : Nat) (st : Store) : Store :=
  let tooEarly : Bool :=
    match st.lastMemoryManagementTime with
    | none => false
    | some last => decide (last ≠ 0) && decide ((now : Int) - last < 10000)
  if tooEarly then st
  else
    { st with
      lastMemoryManagementTime := some now
      buffer := Chan.all.foldl pruneChannel st.buffer }

/-! ## The window the renderer reads -/

/-- The index `bufferIndex` of `drawEEGVisualization`:
`(writeIndex - numPoints + i + circularData.length) % circularData.length`. -/
def bufferIndex (writeIndex numPoints i length : Nat) : Option Int :=
  jsMod ((writeIndex : Int) - numPoints + i + length) length

/-- The sample `circularData[bufferIndex]` for position `i` of a window of `numPoints`
samples; an index outside the array gives no sample. -/
def windowSample (circ : JsArray) (writeIndex numPoints i : Nat) : Option ℚ :=
  match bufferIndex writeIndex numPoints i circ.length with
  | none => none
  | some idx => jsGetInt circ idx

/-- The window of the `n` most recent samples, oldest first: the samples of the index
formula for every `i` in `[0, n)` (the renderer draws every fifth of them). -/
def window (circ : JsArray) (writeIndex n : Nat) : List (Option ℚ) :=
  (List.range n).map fun i => windowSample circ writeIndex n i

/-- The window of a channel of the store. -/
def channelWindow (st : Store) (ch : Chan) (n : Nat) : List (Option ℚ) :=
  window (st.buffer.circular.get ch) (st.buffer.writeIndex.get ch) n

/-! ## Drivers: sequences of calls -/

/-- A test-style batch: `store.buffer.incoming[ch] = batch` followed by
`processChannels()`. -/
def flushBatch (ch : Chan) (st : Store) (batch : List ℚ) : Store :=
  (processChannels
    { st with buffer := { st.buffer with incoming := st.buffer.incoming.set ch batch } }).1

/-- Several batches flushed one after the other. -/
def flushBatches (ch : Chan) (st : Store) (batches : List (List ℚ)) : Store :=
  batches.foldl (flushBatch ch) st

/-- The calls that act on the buffers. -/
inductive Op where
  | update (data : Option Payload)
  | flush
  | manage (now : Nat)
  | clear

/-- Running one call. -/
def Op.run : Op → Store → Store
  | Op.update data, st => (updateEEGData data st).1
  | Op.flush, st => (processIncomingBuffer st).1
  | Op.manage now, st => manageCircularBufferMemory now st
  | Op.clear, st => clearData st

/-- Running a sequence of calls, first call first. -/
def runOps (ops : List Op) (st : Store) : Store :=
  ops.foldl (fun s op => op.run s) st

/-! ## Views, predicates and the stores of the unit tests -/

/-- The slots of a ring buffer in age order, oldest first: slot `(writeIndex + i) % M`
for `i` in `[0, M)`. -/
def ringView (circ : JsArray) (writeIndex M : Nat) : List (Option ℚ) :=
  (List.range M).map fun i => jsGet circ ((writeIndex + i) % M)

/-- A channel is configured: some name of the list is the name of the channel (which
then is not `'snr'`). -/
def Listed (names : List String) (ch : Chan) : Prop :=
  ∃ name ∈ names, Chan.ofName name = some ch

/-- A store set up the way the unit tests do: the initial store with
`store.buffer.maxPoints = maxPoints` and `store.sensorData.channels = channels`. -/
def testStore (maxPoints : Nat) (channels : List String) : Store :=
  { initialStore with
    sensorData := { initialStore.sensorData with channels := channels }
    buffer := { initialStore.buffer with maxPoints := maxPoints } }

/-- The assignment `store.buffer.incoming = pending` of the unit tests. -/
def withIncoming (st : Store) (pending : PerChannel (List ℚ)) : Store :=
  { st with buffer := { st.buffer with incoming := pending } }

/-- Ring-buffer well-formedness: every channel has `maxPoints` slots and a write index
below `maxPoints`. -/
def WellFormed (st : Store) : Prop :=
  ∀ ch : Chan, (st.buffer.circular.get ch).length = st.buffer.maxPoints ∧
    st.buffer.writeIndex.get ch < st.buffer.maxPoints

/-- The payload of the test `should update EEG data with new payload and return true on
success`. -/
def testPayload : Payload :=
  { eeg := some
      { sensor := none
        channels := some ["fp1", "fpz", "fp2", "snr"]
        data := some
          { series := fun channel =>
              if channel = "fp1" then some [10, 11, 12, 13, 14]
              else if channel = "fpz" then some [-5, -4, -3, -2, -1]
              else if channel = "fp2" then some [50, 60, 70, 80, 90]
              else none
            snr := some { fp1 := 20.5, fpz := 19.8, fp2 := 21.3 } } } }

/-- A payload that configures `fp1` and `fpz` and carries samples for both. -/
def twoChannelPayload : Payload :=
  { eeg := some
      { sensor := none
        channels := some ["fp1", "fpz"]
        data := some
          { series := fun channel =>
              if channel = "fp1" then some [1, 2]
              else if channel = "fpz" then some [4]
              else none
            snr := none } } }

/-- A later payload that configures `fp1` only. -/
def oneChannelPayload : Payload :=
  { eeg := some
      { sensor := none
        channels := some ["fp1"]
        data := some
          { series := fun channel => if channel = "fp1" then some [3] else none
            snr := none } } }

/-- The name of a channel key. -/
def Chan.name : Chan → String
  | Chan.fp1 => "fp1"
  | Chan.fpz => "fpz"
  | Chan.fp2 => "fp2"

/-- The store of the test `should add data to circular buffers via
processIncomingBuffer`: fresh buffers of the default capacity, all channels configured,
a pending queue set by assignment. -/
def pendingStore (pending : PerChannel (List ℚ)) : Store :=
  withIncoming (initializeCircularBuffers (testStore 500 ["fp1", "fpz", "fp2", "snr"])) pending

/-- The value `eeg.data[channel]` of a payload when it is an array; `none` when the
payload has no `data` or the value is not an array. -/
def EegMessage.seriesOf (m : EegMessage) (channel : String) : Option (List ℚ) :=
  m.data.bind fun d => d.series channel

/-- The payload of the test `should update EEG data from external source to circular
buffers`: data for the three channels and `snr`, and no `channels` field. -/
def noChannelsPayload : Payload :=
  { eeg := some
      { sensor := none
        channels := none
        data := some
          { series := fun channel =>
              if channel = "fp1" then some [10, 11, 12]
              else if channel = "fpz" then some [20, 21, 22]
              else if channel = "fp2" then some [30, 31, 32]
              else none
            snr := some { fp1 := 15.5, fpz := 16.2, fp2 := 14.8 } } } }

/-- A payload that lists a channel with no pending queue, with array data for it. -/
def unknownChannelPayload : Payload :=
  { eeg := some
      { sensor := none
        channels := some ["fp1", "o1"]
        data := some
          { series := fun channel =>
              if channel = "fp1" then some [1]
              else if channel = "o1" then some [2]
              else none
            snr := none } } }

/-- A store whose `fp1` array has outgrown a capacity of 3: five entries, write index 2;
maintenance last ran at time 1000. -/
def overgrownStore : Store :=
  { testStore 3 ["fp1"] with
    buffer :=
      { (testStore 3 ["fp1"]).buffer with
        circular := { fp1 := [some 1, some 2, some 3, some 4, some 5], fpz := [], fp2 := [] }
        writeIndex := { fp1 := 2, fpz := 0, fp2 := 0 } }
    lastMemoryManagementTime := some 1000 }

/-! ## The recording session: `EegActions`, the diagnosis store, the music store

Timers (`setTimeout`) are an explicit table: a timer has an identifier, a delay and the
callback it runs; firing a timer is a step of its own (`fireTimer`).  Calls of
`window.bellaBridge.calls.cppBackend` are appended to a log; no modelled function reads
what `cppBackend` returns, so the log is all a backend that answers or fails to answer
leaves.  `bridge` says whether `window.bellaBridge?.calls` is truthy, the test the guards
of `eegActions.js` and `diagnosisStore.js` make; without it the unguarded bridge calls of
the music store throw a `TypeError`.  The program itself always has it: `eegActions.js`
imports `mock.js`, which installs `window.bellaBridge.calls` when it is missing, and
`valen.js` only replaces the object; so the states of the running program are those with
`bridge = true`.  Rendering (`startAnimationLoop`, the renderers' `cleanup`),
`audio.stageStartTime` and the mock-mode branches are not modelled. -/

/-- The `action` field of a message to the sensor backend. -/
inductive SensorAction where
  | start
  | stop
  | stage
  | evaluate
deriving DecidableEq, Repr

/-- A call `cppBackend(type, params)`: `'sensor'` messages (sensor `"ads1299"`) and the
`'device'` messages of the music store. -/
inductive BackendCall where
  | sensor (action : SensorAction) (diagnosis_id : Nat) (diagnosis_stage : Nat)
  | music (operation : String) (filename : Option String)
deriving DecidableEq, Repr

/-- The callback of a scheduled timer: the stage timer set by `playAudioForStage(stage)`,
or the reset of the shutdown flag set by `stopEEGVisualization`. -/
inductive TimerCallback where
  | stageExpired (stage : Nat)
  | graceElapsed
deriving DecidableEq, Repr

/-- An outstanding `setTimeout`. -/
structure Timer where
  id : Nat
  delay : Nat
  callback : TimerCallback
deriving DecidableEq, Repr

/-- The field `eegPlot.audio` of the EEG store. -/
structure Audio where
  enabled : Bool
  currentStage : Nat
  stageFiles : List (Nat × String)
  stageDurations : List (Nat × Nat)
  stageTimerId : Option Nat
deriving DecidableEq, Repr

/-- The fields of `eegPlot` the actions read and write. -/
structure EegPlot where
  active : Bool
  audio : Audio
  shuttingDown : Bool
deriving DecidableEq, Repr

/-- The diagnosis store: `currentDiagnosis` is the `diagnosis_id` of the current
diagnosis (`none` for `null`; an id of 0 is falsy). -/
structure DiagnosisStore where
  currentDiagnosis : Option Nat
  currentDiagnosisStage : Nat
deriving DecidableEq, Repr

/-- The music store; `currentTrack` is the id of the track. -/
structure MusicStore where
  currentTrack : Option String
  isPlaying : Bool
  lastError : Option String
  userInitiatedPlay : Bool
  audioProgress : ℚ
  audioCurrentTime : ℚ
deriving DecidableEq, Repr

/-- The playlist of the music store, as pairs of `id` and `fileName`. -/
def playlist : List (String × String) :=
  [("bp1", "bp1.ogg"), ("bp2", "bp2.ogg"), ("bp3", "bp3.ogg"), ("bp4", "bp4.ogg")]

/-- The stores together with the bridge, the call log and the timer table. -/
structure App where
  store : Store
  eegPlot : EegPlot
  diagnosis : DiagnosisStore
  music : MusicStore
  bridge : Bool
  calls : List BackendCall
  timers : List Timer
  timerCount : Nat
deriving DecidableEq, Repr

/-- The application as the stores create it, with an empty log and no timer. -/
def initialApp (bridge : Bool) : App :=
  { store := initialStore
    eegPlot :=
      { active := false
        audio :=
          { enabled := true
            currentStage := 0
            stageFiles := [(1, "bp1.ogg"), (2, "bp2.ogg"), (3, "bp3.ogg"), (4, "bp4.ogg")]
            stageDurations := [(1, 10000), (2, 10000), (3, 70000), (4, 10000)]
            stageTimerId := none }
        shuttingDown := false }
    diagnosis := { currentDiagnosis := none, currentDiagnosisStage := 1 }
    music :=
      { currentTrack := none, isPlaying := false, lastError := none,
        userInitiatedPlay := false, audioProgress := 0, audioCurrentTime := 0 }
    bridge := bridge
    calls := []
    timers := []
    timerCount := 0 }

/-- A call `cppBackend(...)` reaches the log. -/
def App.send (app : App) (call : BackendCall) : App :=
  { app with calls := app.calls ++ [call] }

/-- The call `setTimeout(callback, delay)`: a new timer with a fresh non-zero
identifier, which is returned. -/
def App.setTimeout (app : App) (delay : Nat) (callback : TimerCallback) : App × Nat :=
  ({ app with
      timers := app.timers ++ [{ id := app.timerCount + 1, delay := delay, callback := callback }]
      timerCount := app.timerCount + 1 },
    app.timerCount + 1)

/-- The call `clearTimeout(id)` (and `clearInterval(id)`): the timer is dropped. -/
def App.clearTimeout (app : App) (id : Nat) : App :=
  { app with timers := app.timers.filter fun t => t.id ≠ id }

/-- The expression `diagnosisStore.currentDiagnosis?.diagnosis_id || 0`. -/
def App.diagnosisId (app : App) : Nat :=
  app.diagnosis.currentDiagnosis.getD 0

/-- The action `updateDiagnosisStage` of the diagnosis store: a stage below 1 is refused;
otherwise the stage is stored and, with a diagnosis id and the bridge, a `'stage'` message
is sent. -/
def DiagnosisStore.updateDiagnosisStage (stage : Nat) (app : App) : App × Bool :=
  if stage < 1 then (app, false)
  else
    let app1 : App := { app with diagnosis := { app.diagnosis with currentDiagnosisStage := stage } }
    if app1.diagnosisId ≠ 0 && app1.bridge then
      (app1.send (BackendCall.sensor SensorAction.stage app1.diagnosisId stage), true)
    else (app1, true)

/-- The action `setCurrentDiagnosis` of the diagnosis store: a missing diagnosis or a
falsy id is refused; otherwise the diagnosis is stored and the stage reset to 1. -/
def DiagnosisStore.setCurrentDiagnosis (diagnosis : Option Nat) (app : App) : App × Bool :=
  match diagnosis with
  | none => (app, false)
  | some id =>
    if id = 0 then (app, false)
    else ({ app with diagnosis := { currentDiagnosis := some id, currentDiagnosisStage := 1 } }, true)

/-- The action `playTrack(trackId, true)` of the music store.  The boolean is `true` when
the call threw: the track was found and the bridge call `window.bellaBridge.calls.cppBackend`
hit a missing bridge, after the store was updated. -/
def MusicStore.playTrack (trackId : String) (app : App) : App × Bool :=
  let app1 : App := { app with music := { app.music with userInitiatedPlay := true } }
  match playlist.find? fun t => t.1 = trackId with
  | none =>
    ({ app1 with music := { app1.music with lastError := some "audio.errors.not_found" } }, false)
  | some track =>
    let app2 : App :=
      { app1 with
        music :=
          { app1.music with currentTrack := some track.1, isPlaying := true, lastError := none } }
    if app2.bridge then (app2.send (BackendCall.music "play" (some track.2)), false)
    else (app2, true)

/-- The action `stopMusic` of the music store; the boolean is `true` when the bridge call
threw. -/
def MusicStore.stopMusic (app : App) : App × Bool :=
  let app1 : App :=
    { app with
      music := { app.music with isPlaying := false, audioProgress := 0, audioCurrentTime := 0 } }
  if app1.bridge then (app1.send (BackendCall.music "stop" none), false)
  else (app1, true)

/-- The statement `if (stageTimerId) { clearTimeout(stageTimerId); stageTimerId = null }`
of `playAudioForStage` and `stopEEGVisualization`. -/
def App.clearStageTimer (app : App) : App :=
  match app.eegPlot.audio.stageTimerId with
  | none => app
  | some id =>
    if id = 0 then app
    else
      let app1 := app.clearTimeout id
      { app1 with
        eegPlot := { app1.eegPlot with audio := { app1.eegPlot.audio with stageTimerId := none } } }

/-- The expression `audioFile.split('.')[0]`. -/
def trackIdOf (audioFile : String) : String :=
  String.mk (audioFile.toList.takeWhile fun c => c ≠ '.')

/-- The method `EegActions.playAudioForStage`.  Inside its `try`, an exception of
`playTrack` skips the rest: the stage is not stored and no timer is set. -/
def EegActions.playAudioForStage (stage : Nat) (app : App) : App :=
  if !app.eegPlot.audio.enabled then app
  else if app.eegPlot.shuttingDown then app
  else
    match app.eegPlot.audio.stageFiles.lookup stage with
    | none => app
    | some audioFile =>
      if audioFile = "" then app
      else
        let app1 := app.clearStageTimer
        let played := MusicStore.playTrack (trackIdOf audioFile) app1
        if played.2 then played.1
        else
          let app2 : App :=
            { played.1 with
              eegPlot :=
                { played.1.eegPlot with
                  audio := { played.1.eegPlot.audio with currentStage := stage } } }
          match app2.eegPlot.audio.stageDurations.lookup stage with
          | none => app2
          | some stageDuration =>
            if stageDuration = 0 then app2
            else
              let scheduled := app2.setTimeout stageDuration (TimerCallback.stageExpired stage)
              { scheduled.1 with
                eegPlot :=
                  { scheduled.1.eegPlot with
                    audio :=
                      { scheduled.1.eegPlot.audio with stageTimerId := some scheduled.2 } } }

/-- The method `EegActions.stopEEGVisualization`. -/
def EegActions.stopEEGVisualization (app : App) : App :=
  if !app.eegPlot.active then app
  else
    let app1 : App :=
      { app with eegPlot := { app.eegPlot with active := false, shuttingDown := true } }
    let app2 := app1.clearStageTimer
    let app3 :=
      if app2.bridge then
        app2.send (BackendCall.sensor SensorAction.stop app2.diagnosisId
          app2.diagnosis.currentDiagnosisStage)
      else app2
    let app4 := (MusicStore.stopMusic app3).1
    (app4.setTimeout 1000 TimerCallback.graceElapsed).1

/-- The method `EegActions.progressToNextStage`. -/
def EegActions.progressToNextStage (app : App) : App :=
  if app.eegPlot.shuttingDown then app
  else
    let nextStage := app.eegPlot.audio.currentStage + 1
    let app1 :=
      if app.eegPlot.audio.currentStage = 3 ∧ nextStage = 4 then
        if app.bridge then app.send (BackendCall.sensor SensorAction.evaluate app.diagnosisId 3)
        else app
      else app
    match app1.eegPlot.audio.stageFiles.lookup nextStage with
    | none => EegActions.stopEEGVisualization app1
    | some audioFile =>
      if audioFile = "" then EegActions.stopEEGVisualization app1
      else
        let app2 :=
          if app1.bridge then
            app1.send (BackendCall.sensor SensorAction.stage app1.diagnosisId nextStage)
          else app1
        let app3 := (DiagnosisStore.updateDiagnosisStage nextStage app2).1
        EegActions.playAudioForStage nextStage app3

/-- The `options` of `startEEGVisualization` and `evaluateEEG`. -/
structure Options where
  diagnosis_id : Option Nat
  diagnosis_stage : Option Nat
deriving DecidableEq, Repr

/-- The method `EegActions.startEEGVisualization`.  After `clearData`, the branch that
calls `initializeVisualization` runs `initializeCircularBuffers` again, which leaves the
cleared store as it is. -/
def EegActions.startEEGVisualization (options : Options) (app : App) : App :=
  if app.eegPlot.active then app
  else
    let app1 : App :=
      { app with
        eegPlot := { app.eegPlot with active := true }
        store := clearData app.store }
    let diagnosis_id :=
      if options.diagnosis_id.getD 0 ≠ 0 then options.diagnosis_id.getD 0 else app1.diagnosisId
    let app2 :=
      if options.diagnosis_stage.getD 0 ≠ 0 then
        (DiagnosisStore.updateDiagnosisStage (options.diagnosis_stage.getD 0) app1).1
      else app1
    let diagnosis_stage := app2.diagnosis.currentDiagnosisStage
    let app3 : App :=
      { app2 with
        eegPlot :=
          { app2.eegPlot with audio := { app2.eegPlot.audio with currentStage := diagnosis_stage } } }
    let app4 :=
      if app3.bridge then
        app3.send (BackendCall.sensor SensorAction.start diagnosis_id diagnosis_stage)
      else app3
    EegActions.playAudioForStage diagnosis_stage app4

/-- The method `EegActions.evaluateEEG`: the message is sent when the bridge is there,
and the result says so. -/
def EegActions.evaluateEEG (options : Options) (app : App) : App × Bool :=
  let diagnosis_id :=
    if options.diagnosis_id.getD 0 ≠ 0 then options.diagnosis_id.getD 0 else app.diagnosisId
  let diagnosis_stage :=
    if options.diagnosis_stage.getD 0 ≠ 0 then options.diagnosis_stage.getD 0
    else app.diagnosis.currentDiagnosisStage
  if app.bridge then
    (app.send (BackendCall.sensor SensorAction.evaluate diagnosis_id diagnosis_stage), true)
  else (app, false)

/-- The method `EegActions.updateEEGData`, with `Date.now()` as the input `now`. -/
def EegActions.updateEEGData (data : Option Payload) (now : Nat) (app : App) : App × Bool :=
  if app.eegPlot.shuttingDown then
    if app.bridge then
      (app.send (BackendCall.sensor SensorAction.stop app.diagnosisId
        app.diagnosis.currentDiagnosisStage), false)
    else (app, false)
  else
    let updated := Valen.updateEEGData data app.store
    let app1 : App := { app with store := manageCircularBufferMemory now updated.1 }
    if updated.2 && !app1.eegPlot.active && !app1.eegPlot.shuttingDown then
      (EegActions.startEEGVisualization { diagnosis_id := none, diagnosis_stage := none } app1,
        updated.2)
    else (app1, updated.2)

/-- The render tick's call of `processIncomingBuffer`. -/
def App.flush (app : App) : App :=
  { app with store := (processIncomingBuffer app.store).1 }

/-- Running the callback of a timer. -/
def TimerCallback.run : TimerCallback → App → App
  | TimerCallback.stageExpired stage, app =>
    if stage = 4 then EegActions.stopEEGVisualization app
    else EegActions.progressToNextStage app
  | TimerCallback.graceElapsed, app =>
    { app with eegPlot := { app.eegPlot with shuttingDown := false } }

/-- The timer with identifier `id` fires: it leaves the table and its callback runs.
Nothing happens when no such timer is outstanding. -/
def fireTimer (id : Nat) (app : App) : App :=
  match app.timers.find? fun t => t.id = id with
  | none => app
  | some t => t.callback.run (app.clearTimeout id)

/-- The calls of the log that are `'evaluate'` messages. -/
def BackendCall.isEvaluate : BackendCall → Bool
  | BackendCall.sensor SensorAction.evaluate _ _ => true
  | _ => false

/-- The calls of the log that are `'stop'` messages to the sensor. -/
def BackendCall.isStop : BackendCall → Bool
  | BackendCall.sensor SensorAction.stop _ _ => true
  | _ => false

/-- The timers of the table that are stage timers. -/
def Timer.isStage (t : Timer) : Bool :=
  match t.callback with
  | TimerCallback.stageExpired _ => true
  | TimerCallback.graceElapsed => false

/-- Identifiers are handed out in order: every timer of the table, and the identifier
kept in `stageTimerId`, is between 1 and the number of timers created so far. -/
def TimersAllocated (app : App) : Prop :=
  (∀ t ∈ app.timers, 0 < t.id ∧ t.id ≤ app.timerCount) ∧
  ∀ id, app.eegPlot.audio.stageTimerId = some id → 0 < id ∧ id ≤ app.timerCount

/-- The log of `after` is the log of `before` followed by calls that all satisfy `P`. -/
def Appends (P : BackendCall → Prop) (before after : App) : Prop :=
  ∃ suffix, after.calls = before.calls ++ suffix ∧ ∀ c ∈ suffix, P c

/-- The number of `'stop'` messages to the sensor in a log. -/
def stopCount (calls : List BackendCall) : Nat :=
  (calls.filter BackendCall.isStop).length

/-- Every outstanding stage timer is the one whose identifier `stageTimerId` holds. -/
def StageTimerRecorded (app : App) : Prop :=
  ∀ t ∈ app.timers, t.isStage = true → app.eegPlot.audio.stageTimerId = some t.id

/-- What the end of a session leaves: relative to the application `before` the stop, in
`after` the session is inactive and shutting down, no stage timer is recorded or
outstanding, one `'stop'` message was sent if the bridge is there, and the grace timer of
1000 ms is outstanding and, when it fires, clears the shutdown flag. -/
def SessionStopped (before after : App) : Prop :=
  after.eegPlot.active = false ∧
  after.eegPlot.shuttingDown = true ∧
  after.eegPlot.audio.stageTimerId = none ∧
  (∀ t ∈ after.timers, t.isStage = false) ∧
  (before.bridge = true → stopCount after.calls = stopCount before.calls + 1) ∧
  ({ id := before.timerCount + 1, delay := 1000, callback := TimerCallback.graceElapsed } : Timer)
    ∈ after.timers ∧
  (fireTimer (before.timerCount + 1) after).eegPlot.shuttingDown = false

/-- A recording in stage 1: the initial application with the bridge, after
`startEEGVisualization()`; the stage-1 timer has identifier 1. -/
def stage1App : App :=
  EegActions.startEEGVisualization { diagnosis_id := none, diagnosis_stage := none }
    (initialApp true)

/-- The recording in stage 3, after the timers of stages 1 and 2 fired; the stage-3 timer
has identifier 3. -/
def stage3App : App :=
  fireTimer 2 (fireTimer 1 stage1App)

/-- The recording in stage 4; the stage-4 timer has identifier 4. -/
def stage4App : App :=
  fireTimer 3 stage3App

/-- The recording stopped in stage 1, inside the grace window: `stopEEGVisualization()` on
the recording in stage 1; the grace timer has identifier 2. -/
def shutdownApp : App :=
  EegActions.stopEEGVisualization stage1App

/-- The calls of the log that are `'stage'` messages. -/
def BackendCall.isStage : BackendCall → Bool
  | BackendCall.sensor SensorAction.stage _ _ => true
  | _ => false

/-- The recording in stage 1 of a selected diagnosis: `setCurrentDiagnosis` with
`diagnosis_id` 7, then `startEEGVisualization()`, on the initial application with the
bridge. -/
def diagnosisStage1App : App :=
  EegActions.startEEGVisualization { diagnosis_id := none, diagnosis_stage := none }
    (DiagnosisStore.setCurrentDiagnosis (some 7) (initialApp true)).1

/-- The calls of the log that are `'start'` messages. -/
def BackendCall.isStart : BackendCall → Bool
  | BackendCall.sensor SensorAction.start _ _ => true
  | _ => false

/-- The application after a whole recording: the default protocol ran through stage 4, the
stage-4 timer stopped the session and the grace timer (identifier 5) fired.  The
session is idle again. -/
def finishedApp : App :=
  fireTimer 5 (fireTimer 4 stage4App)

/-- A store with a capacity of 3 that configures `fp1` and `fpz`, with fresh buffers and
pending samples above the threshold: `fp1 = [200, -100]`, `fpz = [50]`. -/
def loudStore : Store :=
  withIncoming (initializeCircularBuffers (testStore 3 ["fp1", "fpz"]))
    { fp1 := [200, -100], fpz := [50], fp2 := [] }

/-- The value the getter `latestValues` holds under a channel name of the list: the last
element of `sensorData.data[channel]` when that is a non-empty array, and 0 otherwise
(`sensorData.data.snr` is an object, not an array). -/
def latestValue (st : Store) (channel : String) : ℚ :=
  match Chan.ofName channel with
  | none => 0
  | some ch =>
    if (st.sensorData.data.get ch).length > 0 then
      (st.sensorData.data.get ch).getD ((st.sensorData.data.get ch).length - 1) 0
    else 0

/-- The getter `latestValues`: one entry for every name of `sensorData.channels`. -/
def latestValues (st : Store) : List (String × ℚ) :=
  st.sensorData.channels.map fun channel => (channel, latestValue st channel)

/-- The calls that bring samples in: `updateEEGData(data)` and the flush
`processIncomingBuffer()`. -/
inductive Ingest where
  | enqueue (data : Option Payload)
  | flush

/-- Running one such call. -/
def Ingest.run : Ingest → Store → Store
  | Ingest.enqueue data, st => (updateEEGData data st).1
  | Ingest.flush, st => (processIncomingBuffer st).1

/-- Running a sequence of such calls, first call first. -/
def runIngest (steps : List Ingest) (st : Store) : Store :=
  steps.foldl (fun s step => step.run s) st

/-- The samples a call hands to the write loop of a channel: for a flush on a store that
configures the channel, its pending queue after normalisation; nothing otherwise. -/
def Ingest.samples (ch : Chan) : Ingest → Store → List ℚ
  | Ingest.enqueue _, _ => []
  | Ingest.flush, st =>
    if st.sensorData.channels.any fun name => Chan.ofName name == some ch then
      (normalizeIncomingData st).buffer.incoming.get ch
    else []

/-- The samples a sequence of calls writes to the ring buffer of a channel, in order. -/
def writtenStream (ch : Chan) : List Ingest → Store → List ℚ
  | [], _ => []
  | step :: rest, st => step.samples ch st ++ writtenStream ch rest (step.run st)

/-- The ring buffer and the linear mirror of a channel both hold the stream `s`: the
store is well formed with `maxPoints ≥ 1`, `sensorData.data[ch]` is the last `maxPoints`
samples of `s` (all of `s` when shorter), and the ring buffer read in age order is
`maxPoints` zeros followed by `s`, cut to its last `maxPoints` entries. -/
def HoldsStream (st : Store) (ch : Chan) (s : List ℚ) : Prop :=
  0 < st.buffer.maxPoints ∧ WellFormed st ∧
  st.sensorData.data.get ch = s.drop (s.length - st.buffer.maxPoints) ∧
  ringView (st.buffer.circular.get ch) (st.buffer.writeIndex.get ch) st.buffer.maxPoints =
    (List.replicate st.buffer.maxPoints (some 0) ++ s.map some).drop s.length

/-- Two applications with the same timer table, timer count and recorded stage timer. -/
def SameTimers (a b : App) : Prop :=
  b.timers = a.timers ∧ b.timerCount = a.timerCount ∧
  b.eegPlot.audio.stageTimerId = a.eegPlot.audio.stageTimerId

/-- The timer table is well formed: identifiers were handed out in order, every
outstanding stage timer is the one `stageTimerId` records, and no two outstanding timers
share an identifier. -/
def TimerInv (app : App) : Prop :=
  TimersAllocated app ∧ StageTimerRecorded app ∧ (app.timers.map Timer.id).Nodup

/-- The steps of a session: the calls of `startEEGVisualization`, `playAudioForStage`,
`progressToNextStage`, `stopEEGVisualization` and `updateEEGData`, a timer that fires,
and the bridge coming or going. -/
inductive SessionStep where
  | start (options : Options)
  | playAudio (stage : Nat)
  | progress
  | stop
  | update (data : Option Payload) (now : Nat)
  | fire (id : Nat)
  | bridge (available : Bool)

/-- Running one step. -/
def SessionStep.run : SessionStep → App → App
  | SessionStep.start options, app => EegActions.startEEGVisualization options app
  | SessionStep.playAudio stage, app => EegActions.playAudioForStage stage app
  | SessionStep.progress, app => EegActions.progressToNextStage app
  | SessionStep.stop, app => EegActions.stopEEGVisualization app
  | SessionStep.update data now, app => (EegActions.updateEEGData data now app).1
  | SessionStep.fire id, app => fireTimer id app
  | SessionStep.bridge available, app => { app with bridge := available }

/-- Running a sequence of steps, first step first. -/
def runSession (steps : List SessionStep) (app : App) : App :=
  steps.foldl (fun a step => step.run a) app

/-! ## Basic facts: records, arrays, indices -/

@[simp]
theorem PerChannel.get_set_same {α : Type} (m : PerChannel α) (ch : Chan) (v : α) :
    (m.set ch v).get ch = v := by
  cases ch <;> rfl

@[simp]
theorem PerChannel.get_set_other {α : Type} (m : PerChannel α) (ch ch' : Chan) (v : α)
    (h : ch' ≠ ch) : (m.set ch v).get ch' = m.get ch' := by
  cases ch <;> cases ch' <;> first | rfl | exact absurd rfl h

@[simp]
theorem PerChannel.get_const {α : Type} (v : α) (ch : Chan) :
    (PerChannel.const v).get ch = v := by
  cases ch <;> rfl

theorem Chan.ofName_snr : Chan.ofName "snr" = none := by decide

theorem Chan.ofName_ne_snr {name : String} {ch : Chan} (h : Chan.ofName name = some ch) :
    name ≠ "snr" := by
  intro hs
  rw [hs, Chan.ofName_snr] at h
  exact Option.noConfusion h

theorem arraySet_of_lt (a : JsArray) (i : Nat) (v : ℚ) (h : i < a.length) :
    arraySet a i v = a.set i (some v) := by
  simp [arraySet, h]

theorem length_arraySet_of_lt (a : JsArray) (i : Nat) (v : ℚ) (h : i < a.length) :
    (arraySet a i v).length = a.length := by
  simp [arraySet_of_lt a i v h]

theorem jsGet_eq (a : JsArray) (i : Nat) : jsGet a i = (a[i]?).getD none := by
  simp [jsGet, List.getD_eq_getElem?_getD]

theorem jsGet_arraySet_same (a : JsArray) (i : Nat) (v : ℚ) :
    jsGet (arraySet a i v) i = some v := by
  unfold arraySet
  split
  · rename_i h
    simp [jsGet_eq, List.getElem?_set, h]
  · rename_i h
    have hlen : (a ++ List.replicate (i - a.length) none).length = i := by
      simp only [List.length_append, List.length_replicate]
      omega
    rw [jsGet_eq, List.getElem?_append_right (by omega), hlen]
    simp

theorem jsGet_arraySet_other (a : JsArray) (i j : Nat) (v : ℚ) (h : j ≠ i) :
    jsGet (arraySet a i v) j = jsGet a j := by
  unfold arraySet
  split
  · simp [jsGet_eq, List.getElem?_set, Ne.symm h]
  · rename_i hlen
    have hlen' : a.length ≤ i := Nat.le_of_not_lt hlen
    rw [jsGet_eq, jsGet_eq, List.append_assoc]
    by_cases hj : j < a.length
    · rw [List.getElem?_append_left hj]
    · have hj' : a.length ≤ j := Nat.le_of_not_lt hj
      rw [List.getElem?_append_right hj', List.getElem?_eq_none hj']
      by_cases hji : j - a.length < i - a.length
      · rw [List.getElem?_append_left (by simpa using hji)]
        simp [List.getElem?_replicate, hji]
      · have h1 : (List.replicate (i - a.length) (none : Option ℚ)).length ≤ j - a.length := by
          simp only [List.length_replicate]
          omega
        rw [List.getElem?_append_right h1]
        have h2 : j - a.length - (List.replicate (i - a.length) (none : Option ℚ)).length ≠ 0 := by
          simp only [List.length_replicate]
          omega
        obtain ⟨k, hk⟩ := Nat.exists_eq_succ_of_ne_zero h2
        rw [hk]
        simp

/-- The remainder of a number below `2 * M`. -/
theorem mod_of_lt_two_mul {a M : Nat} (h : a < 2 * M) :
    a % M = if a < M then a else a - M := by
  split
  · rename_i h1
    exact Nat.mod_eq_of_lt h1
  · rename_i h1
    rw [Nat.mod_eq_sub_mod (Nat.le_of_not_lt h1)]
    exact Nat.mod_eq_of_lt (by omega)

theorem jsMod_natCast (a M : Nat) (hM : 0 < M) : jsMod (a : Int) M = some ((a % M : Nat) : Int) := by
  have h : M ≠ 0 := Nat.pos_iff_ne_zero.mp hM
  simp only [jsMod, h, if_false]
  rw [Int.ofNat_tmod]

theorem jsGetInt_natCast (a : JsArray) (i : Nat) : jsGetInt a (i : Int) = jsGet a i := by
  simp [jsGetInt]

/-! ## The write loop -/

theorem ringView_length (circ : JsArray) (w M : Nat) : (ringView circ w M).length = M := by
  simp [ringView]

theorem ringView_getElem? (circ : JsArray) (w M i : Nat) :
    (ringView circ w M)[i]? = if i < M then some (jsGet circ ((w + i) % M)) else none := by
  unfold ringView
  rw [List.getElem?_map]
  by_cases h : i < M
  · simp [List.getElem?_range h, h]
  · simp [h, List.getElem?_eq_none (l := List.range M) (by simpa using Nat.le_of_not_lt h)]

/-- One write shifts the age-ordered view by one: the oldest slot leaves, the new sample
enters at the end. -/
theorem ringView_write (circ : JsArray) (w M : Nat) (x : ℚ) (hw : w < M) :
    ringView (arraySet circ w x) ((w + 1) % M) M = (ringView circ w M ++ [some x]).drop 1 := by
  apply List.ext_getElem?
  intro i
  rw [ringView_getElem?, List.getElem?_drop]
  by_cases hi : i < M
  · rw [if_pos hi, Nat.mod_add_mod]
    by_cases hlast : i + 1 < M
    · rw [List.getElem?_append_left (by simpa [ringView_length, Nat.add_comm] using hlast),
        ringView_getElem?, if_pos (by omega)]
      have hne : (w + 1 + i) % M ≠ w := by
        rw [mod_of_lt_two_mul (by omega)]
        split <;> omega
      rw [jsGet_arraySet_other _ _ _ _ hne]
      congr 3
      omega
    · have hi' : i + 1 = M := by omega
      have hidx : (w + 1 + i) % M = w := by
        rw [mod_of_lt_two_mul (by omega)]
        split <;> omega
      rw [hidx, jsGet_arraySet_same,
        List.getElem?_append_right (by simp [ringView_length]; omega)]
      simp [ringView_length, Nat.add_comm, hi']
  · rw [if_neg hi]
    symm
    apply List.getElem?_eq_none
    simp [ringView_length]
    omega

theorem writeLoop_nil (M : Nat) (circ : JsArray) (w : Nat) : writeLoop M circ w [] = (circ, w) :=
  rfl

theorem writeLoop_cons (M : Nat) (circ : JsArray) (w : Nat) (x : ℚ) (xs : List ℚ) :
    writeLoop M circ w (x :: xs) = writeLoop M (arraySet circ w x) ((w + 1) % M) xs :=
  rfl

theorem writeLoop_append (M : Nat) (xs ys : List ℚ) (circ : JsArray) (w : Nat) :
    writeLoop M circ w (xs ++ ys) =
      writeLoop M (writeLoop M circ w xs).1 (writeLoop M circ w xs).2 ys := by
  induction xs generalizing circ w with
  | nil => rfl
  | cons x xs ih => simp only [List.cons_append, writeLoop_cons, ih]

theorem writeLoop_index (M : Nat) (xs : List ℚ) (circ : JsArray) (w : Nat) (hw : w < M) :
    (writeLoop M circ w xs).2 = (w + xs.length) % M := by
  induction xs generalizing circ w with
  | nil => simp [writeLoop_nil, Nat.mod_eq_of_lt hw]
  | cons x xs ih =>
    rw [writeLoop_cons, ih _ _ (Nat.mod_lt _ (by omega)), Nat.mod_add_mod, List.length_cons]
    congr 1
    omega

theorem writeLoop_index_lt (M : Nat) (xs : List ℚ) (circ : JsArray) (w : Nat) (hw : w < M) :
    (writeLoop M circ w xs).2 < M := by
  rw [writeLoop_index M xs circ w hw]
  exact Nat.mod_lt _ (by omega)

theorem writeLoop_length (M : Nat) (xs : List ℚ) (circ : JsArray) (w : Nat) (hw : w < M)
    (hlen : circ.length = M) : (writeLoop M circ w xs).1.length = M := by
  induction xs generalizing circ w with
  | nil => simpa [writeLoop_nil] using hlen
  | cons x xs ih =>
    rw [writeLoop_cons]
    apply ih _ _ (Nat.mod_lt _ (by omega))
    rw [length_arraySet_of_lt _ _ _ (by omega), hlen]

/-- After the write loop the age-ordered view is the old view followed by the samples,
with as many of the oldest entries dropped as samples were written. -/
theorem ringView_writeLoop (M : Nat) (xs : List ℚ) (circ : JsArray) (w : Nat) (hw : w < M) :
    ringView (writeLoop M circ w xs).1 (writeLoop M circ w xs).2 M =
      (ringView circ w M ++ xs.map some).drop xs.length := by
  induction xs generalizing circ w with
  | nil => simp [writeLoop_nil]
  | cons x xs ih =>
    rw [writeLoop_cons, ih _ _ (Nat.mod_lt _ (by omega)), ringView_write _ _ _ _ hw]
    have hne : ringView circ w M ≠ [] := by
      intro h
      have := ringView_length circ w M
      rw [h] at this
      simp at this
      omega
    obtain ⟨r, rs, hr⟩ := List.exists_cons_of_ne_nil hne
    rw [hr]
    simp [List.drop_drop, Nat.add_comm]

/-! ## The channel loop of `processChannels` -/

theorem processChannelsLoop_skip (name : String) (rest : List String) (st : Store)
    (flag : Bool) (h : Chan.ofName name = none) :
    processChannelsLoop (name :: rest) st flag = processChannelsLoop rest st flag := by
  simp only [processChannelsLoop, h]
  split <;> rfl

theorem processChannelsLoop_flush (name : String) (rest : List String) (st : Store)
    (flag : Bool) (ch : Chan) (h : Chan.ofName name = some ch)
    (hne : st.buffer.incoming.get ch ≠ []) :
    processChannelsLoop (name :: rest) st flag =
      processChannelsLoop rest (flushChannel st ch) true := by
  have hpos : (st.buffer.incoming.get ch).length > 0 := List.length_pos.mpr hne
  simp only [processChannelsLoop, h, Chan.ofName_ne_snr h, if_false, hpos, if_true]

theorem processChannelsLoop_empty (name : String) (rest : List String) (st : Store)
    (flag : Bool) (ch : Chan) (h : Chan.ofName name = some ch)
    (he : st.buffer.incoming.get ch = []) :
    processChannelsLoop (name :: rest) st flag = processChannelsLoop rest st flag := by
  simp [processChannelsLoop, h, Chan.ofName_ne_snr h, he]

theorem listed_cons_of_none {name : String} {rest : List String} {ch : Chan}
    (h : Chan.ofName name = none) : Listed (name :: rest) ch ↔ Listed rest ch := by
  simp [Listed, h]

theorem listed_cons_of_ne {name : String} {rest : List String} {ch ch' : Chan}
    (h : Chan.ofName name = some ch') (hne : ch' ≠ ch) :
    Listed (name :: rest) ch ↔ Listed rest ch := by
  simp [Listed, h, hne]

theorem listed_cons_self {name : String} {rest : List String} {ch : Chan}
    (h : Chan.ofName name = some ch) : Listed (name :: rest) ch :=
  ⟨name, List.mem_cons_self _ _, h⟩

/-- What the loop leaves alone: the configuration of the store. -/
theorem processChannelsLoop_frame (names : List String) (st : Store) (flag : Bool) :
    (processChannelsLoop names st flag).1.sensorData.channels = st.sensorData.channels ∧
    (processChannelsLoop names st flag).1.buffer.maxPoints = st.buffer.maxPoints ∧
    (processChannelsLoop names st flag).1.buffer.displayPoints = st.buffer.displayPoints ∧
    (processChannelsLoop names st flag).1.sensorData.sensor = st.sensorData.sensor ∧
    (processChannelsLoop names st flag).1.sensorData.snr = st.sensorData.snr ∧
    (processChannelsLoop names st flag).1.lastMemoryManagementTime =
      st.lastMemoryManagementTime := by
  induction names generalizing st flag with
  | nil => simp [processChannelsLoop]
  | cons name rest ih =>
    cases h : Chan.ofName name with
    | none => rw [processChannelsLoop_skip _ _ _ _ h]; exact ih st flag
    | some ch =>
      by_cases he : st.buffer.incoming.get ch = []
      · rw [processChannelsLoop_empty _ _ _ _ _ h he]; exact ih st flag
      · rw [processChannelsLoop_flush _ _ _ _ _ h he]; exact ih (flushChannel st ch) true

/-- A channel that is not configured is not touched by the loop. -/
theorem processChannelsLoop_unlisted (names : List String) (st : Store) (flag : Bool)
    (ch : Chan) (hn : ¬ Listed names ch) :
    (processChannelsLoop names st flag).1.buffer.circular.get ch = st.buffer.circular.get ch ∧
    (processChannelsLoop names st flag).1.buffer.writeIndex.get ch =
      st.buffer.writeIndex.get ch ∧
    (processChannelsLoop names st flag).1.buffer.incoming.get ch = st.buffer.incoming.get ch ∧
    (processChannelsLoop names st flag).1.sensorData.data.get ch = st.sensorData.data.get ch := by
  induction names generalizing st flag with
  | nil => simp [processChannelsLoop]
  | cons name rest ih =>
    cases h : Chan.ofName name with
    | none =>
      rw [processChannelsLoop_skip _ _ _ _ h]
      exact ih st flag (fun hl => hn ((listed_cons_of_none h).mpr hl))
    | some ch' =>
      have hne : ch' ≠ ch := fun e => hn (e ▸ listed_cons_self h)
      have hrest : ¬ Listed rest ch := fun hl => hn ((listed_cons_of_ne h hne).mpr hl)
      by_cases he : st.buffer.incoming.get ch' = []
      · rw [processChannelsLoop_empty _ _ _ _ _ h he]; exact ih st flag hrest
      · rw [processChannelsLoop_flush _ _ _ _ _ h he]
        have := ih (flushChannel st ch') true hrest
        simpa [flushChannel, PerChannel.get_set_other _ _ _ _ (Ne.symm hne)] using this

/-- A configured channel is flushed exactly once: its pending queue goes through the
write loop and is then empty. -/
theorem processChannelsLoop_listed (names : List String) (st : Store) (flag : Bool)
    (ch : Chan) (hl : Listed names ch) :
    (processChannelsLoop names st flag).1.buffer.circular.get ch =
      (writeLoop st.buffer.maxPoints (st.buffer.circular.get ch)
        (st.buffer.writeIndex.get ch) (st.buffer.incoming.get ch)).1 ∧
    (processChannelsLoop names st flag).1.buffer.writeIndex.get ch =
      (writeLoop st.buffer.maxPoints (st.buffer.circular.get ch)
        (st.buffer.writeIndex.get ch) (st.buffer.incoming.get ch)).2 ∧
    (processChannelsLoop names st flag).1.buffer.incoming.get ch = [] := by
  induction names generalizing st flag with
  | nil =>
    obtain ⟨name, hmem, _⟩ := hl
    exact absurd hmem (List.not_mem_nil _)
  | cons name rest ih =>
    cases h : Chan.ofName name with
    | none =>
      rw [processChannelsLoop_skip _ _ _ _ h]
      exact ih st flag ((listed_cons_of_none h).mp hl)
    | some ch' =>
      by_cases hc : ch' = ch
      · subst hc
        by_cases he : st.buffer.incoming.get ch' = []
        · rw [processChannelsLoop_empty _ _ _ _ _ h he]
          by_cases hr : Listed rest ch'
          · exact ih st flag hr
          · obtain ⟨h1, h2, h3, _⟩ := processChannelsLoop_unlisted rest st flag ch' hr
            rw [h1, h2, h3, he, writeLoop_nil]
            exact ⟨rfl, rfl, rfl⟩
        · rw [processChannelsLoop_flush _ _ _ _ _ h he]
          by_cases hr : Listed rest ch'
          · have := ih (flushChannel st ch') true hr
            simpa [flushChannel, writeLoop_nil] using this
          · have := processChannelsLoop_unlisted rest (flushChannel st ch') true ch' hr
            obtain ⟨h1, h2, h3, _⟩ := this
            rw [h1, h2, h3]
            simp [flushChannel]
      · have hrest : Listed rest ch := (listed_cons_of_ne h hc).mp hl
        by_cases he : st.buffer.incoming.get ch' = []
        · rw [processChannelsLoop_empty _ _ _ _ _ h he]; exact ih st flag hrest
        · rw [processChannelsLoop_flush _ _ _ _ _ h he]
          have := ih (flushChannel st ch') true hrest
          simpa [flushChannel, PerChannel.get_set_other _ _ _ _ (Ne.symm hc)] using this

/-! ## Reading the ring buffer -/

theorem windowSample_eq (circ : JsArray) (w n i M : Nat) (hM : 0 < M) (hlen : circ.length = M)
    (hn : n ≤ M) : windowSample circ w n i = jsGet circ ((w + (M - n + i)) % M) := by
  have hcast : ((w : Int) - n + i + M) = ((w + (M - n + i) : Nat) : Int) := by
    push_cast [Nat.cast_sub hn]
    ring
  unfold windowSample bufferIndex
  rw [hlen, hcast, jsMod_natCast _ _ hM]
  exact jsGetInt_natCast _ _

/-- The window of `n` samples is the tail of length `n` of the age-ordered view. -/
theorem window_eq_drop (circ : JsArray) (w n M : Nat) (hM : 0 < M) (hlen : circ.length = M)
    (hn : n ≤ M) : window circ w n = (ringView circ w M).drop (M - n) := by
  apply List.ext_getElem?
  intro i
  rw [List.getElem?_drop, ringView_getElem?]
  unfold window
  rw [List.getElem?_map]
  by_cases hi : i < n
  · rw [List.getElem?_range hi, if_pos (by omega)]
    simp [windowSample_eq circ w n i M hM hlen hn]
  · rw [List.getElem?_eq_none (l := List.range n) (by simpa using Nat.le_of_not_lt hi),
      if_neg (by omega)]
    rfl

theorem ringView_replicate (M : Nat) (v : Option ℚ) :
    ringView (List.replicate M v) 0 M = List.replicate M v := by
  apply List.ext_getElem?
  intro i
  rw [ringView_getElem?]
  by_cases hi : i < M
  · simp [hi, jsGet_eq, Nat.mod_eq_of_lt hi, List.getElem?_replicate]
  · simp [hi, List.getElem?_replicate]

theorem getLatestValue_eq (st : Store) (name : String) (ch : Chan)
    (hch : Chan.ofName name = some ch) (hM : 0 < st.buffer.maxPoints) :
    getLatestValue st name =
      jsGet (st.buffer.circular.get ch)
        ((st.buffer.writeIndex.get ch + (st.buffer.maxPoints - 1)) % st.buffer.maxPoints) := by
  have hcast : ((st.buffer.writeIndex.get ch : Int) - 1 + st.buffer.maxPoints) =
      ((st.buffer.writeIndex.get ch + (st.buffer.maxPoints - 1) : Nat) : Int) := by
    push_cast [Nat.cast_sub hM]
    ring
  simp only [getLatestValue, hch]
  rw [hcast, jsMod_natCast _ _ hM]
  exact jsGetInt_natCast _ _

/-- The latest value is the last entry of the age-ordered view. -/
theorem getLatestValue_eq_ringView (st : Store) (name : String) (ch : Chan)
    (hch : Chan.ofName name = some ch) (hM : 0 < st.buffer.maxPoints) :
    some (getLatestValue st name) =
      (ringView (st.buffer.circular.get ch) (st.buffer.writeIndex.get ch)
        st.buffer.maxPoints)[st.buffer.maxPoints - 1]? := by
  rw [ringView_getElem?, if_pos (by omega), getLatestValue_eq st name ch hch hM]

/-! ## Batches -/

theorem processChannels_frame (st : Store) :
    (processChannels st).1.sensorData.channels = st.sensorData.channels ∧
    (processChannels st).1.buffer.maxPoints = st.buffer.maxPoints :=
  ⟨(processChannelsLoop_frame _ st false).1, (processChannelsLoop_frame _ st false).2.1⟩

theorem flushBatch_channel (ch : Chan) (st : Store) (batch : List ℚ)
    (hl : Listed st.sensorData.channels ch) :
    (flushBatch ch st batch).buffer.circular.get ch =
      (writeLoop st.buffer.maxPoints (st.buffer.circular.get ch)
        (st.buffer.writeIndex.get ch) batch).1 ∧
    (flushBatch ch st batch).buffer.writeIndex.get ch =
      (writeLoop st.buffer.maxPoints (st.buffer.circular.get ch)
        (st.buffer.writeIndex.get ch) batch).2 ∧
    (flushBatch ch st batch).sensorData.channels = st.sensorData.channels ∧
    (flushBatch ch st batch).buffer.maxPoints = st.buffer.maxPoints := by
  unfold flushBatch processChannels
  refine ⟨?_, ?_, ?_, ?_⟩
  · have := (processChannelsLoop_listed st.sensorData.channels
      { st with buffer := { st.buffer with incoming := st.buffer.incoming.set ch batch } }
      false ch hl).1
    simpa using this
  · have := (processChannelsLoop_listed st.sensorData.channels
      { st with buffer := { st.buffer with incoming := st.buffer.incoming.set ch batch } }
      false ch hl).2.1
    simpa using this
  · exact (processChannelsLoop_frame _ _ false).1
  · exact (processChannelsLoop_frame _ _ false).2.1

/-- Flushing batches one after the other writes their concatenation. -/
theorem flushBatches_channel (ch : Chan) (batches : List (List ℚ)) (st : Store)
    (hl : Listed st.sensorData.channels ch) :
    (flushBatches ch st batches).buffer.circular.get ch =
      (writeLoop st.buffer.maxPoints (st.buffer.circular.get ch)
        (st.buffer.writeIndex.get ch) batches.flatten).1 ∧
    (flushBatches ch st batches).buffer.writeIndex.get ch =
      (writeLoop st.buffer.maxPoints (st.buffer.circular.get ch)
        (st.buffer.writeIndex.get ch) batches.flatten).2 ∧
    (flushBatches ch st batches).buffer.maxPoints = st.buffer.maxPoints := by
  induction batches generalizing st with
  | nil => simp [flushBatches, writeLoop_nil]
  | cons b bs ih =>
    obtain ⟨h1, h2, h3, h4⟩ := flushBatch_channel ch st b hl
    have ih' := ih (flushBatch ch st b) (h3 ▸ hl)
    simp only [flushBatches, List.foldl_cons] at ih' ⊢
    rw [ih'.1, ih'.2.1, ih'.2.2, h1, h2, h4, List.flatten_cons, writeLoop_append]
    exact ⟨rfl, rfl, rfl⟩

/-- The age-ordered view of a channel after batches were flushed into a fresh buffer. -/
theorem flushBatches_fresh (ch : Chan) (batches : List (List ℚ)) (st : Store)
    (hl : Listed st.sensorData.channels ch) (hM : 0 < st.buffer.maxPoints) :
    ((flushBatches ch (initializeCircularBuffers st) batches).buffer.circular.get ch).length =
      st.buffer.maxPoints ∧
    ringView ((flushBatches ch (initializeCircularBuffers st) batches).buffer.circular.get ch)
      ((flushBatches ch (initializeCircularBuffers st) batches).buffer.writeIndex.get ch)
      st.buffer.maxPoints =
      (List.replicate st.buffer.maxPoints (some 0) ++ batches.flatten.map some).drop
        batches.flatten.length := by
  obtain ⟨h1, h2, _⟩ := flushBatches_channel ch batches (initializeCircularBuffers st) hl
  rw [h1, h2]
  simp only [initializeCircularBuffers, PerChannel.get_const]
  refine ⟨writeLoop_length _ _ _ _ hM (by simp), ?_⟩
  rw [ringView_writeLoop _ _ _ _ hM, ringView_replicate]

theorem drop_zero_fill (M n : Nat) (z : Option ℚ) (s : List (Option ℚ)) (hn : n ≤ M)
    (hm : s.length ≤ n) :
    ((List.replicate M z ++ s).drop s.length).drop (M - n) =
      List.replicate (n - s.length) z ++ s := by
  rw [List.drop_drop,
    List.drop_append_of_le_length (by rw [List.length_replicate]; omega), List.drop_replicate]
  congr 2
  omega

/-! ## Ring-buffer claims -/

/-- C1 (wrap-around correctness): for every capacity `C ≥ 1` and every sequence of
`C + k` samples flushed by `processChannels`, in any number of batches, into a configured
channel freshly reset by `initializeCircularBuffers`, the buffer still has `C` slots and
the window of the `C` most recent samples, read with the renderer's index formula, is the
list of the last `C` samples written, oldest first (the first `k` are gone). -/
theorem wraparound_window (st : Store) (ch : Chan) (batches : List (List ℚ)) (k : Nat)
    (hC : 1 ≤ st.buffer.maxPoints) (hl : Listed st.sensorData.channels ch)
    (hlen : batches.flatten.length = st.buffer.maxPoints + k) :
    ((flushBatches ch (initializeCircularBuffers st) batches).buffer.circular.get ch).length =
      st.buffer.maxPoints ∧
    channelWindow (flushBatches ch (initializeCircularBuffers st) batches) ch
      st.buffer.maxPoints = (batches.flatten.drop k).map some := by
  obtain ⟨h1, h2⟩ := flushBatches_fresh ch batches st hl hC
  refine ⟨h1, ?_⟩
  unfold channelWindow
  rw [window_eq_drop _ _ _ _ hC h1 (Nat.le_refl _), h2, hlen, Nat.sub_self, List.drop_zero,
    List.drop_append_eq_append_drop]
  simp [List.map_drop]

/-- The test `should handle circular buffer wrap-around correctly`: capacity 5, batches
`[1,2,3]` then `[4,5,6,7]` give slots `[6,7,3,4,5]`, write index 2 and window
`[3,4,5,6,7]`. -/
theorem wraparound_window_witness :
    (flushBatches Chan.fp1 (initializeCircularBuffers (testStore 5 ["fp1"]))
      [[1, 2, 3], [4, 5, 6, 7]]).buffer.circular.fp1 = [some 6, some 7, some 3, some 4, some 5] ∧
    (flushBatches Chan.fp1 (initializeCircularBuffers (testStore 5 ["fp1"]))
      [[1, 2, 3], [4, 5, 6, 7]]).buffer.writeIndex.fp1 = 2 ∧
    channelWindow (flushBatches Chan.fp1 (initializeCircularBuffers (testStore 5 ["fp1"]))
      [[1, 2, 3], [4, 5, 6, 7]]) Chan.fp1 5 = [some 3, some 4, some 5, some 6, some 7] :=
  ⟨by decide, by decide,
    (wraparound_window (testStore 5 ["fp1"]) Chan.fp1 [[1, 2, 3], [4, 5, 6, 7]] 2
      (by decide) ⟨"fp1", by decide, by decide⟩ (by decide)).2⟩

/-- C2 (zero-fill stability): in a configured channel freshly reset by
`initializeCircularBuffers` with capacity `C ≥ 1`, for every `n ≤ C`, after `m ≤ n`
samples were written the window of `n` samples has exactly `n` values: `n - m` zeros
followed by the samples in write order. -/
theorem zero_fill_window (st : Store) (ch : Chan) (batches : List (List ℚ)) (n : Nat)
    (hC : 1 ≤ st.buffer.maxPoints) (hl : Listed st.sensorData.channels ch)
    (hn : n ≤ st.buffer.maxPoints) (hm : batches.flatten.length ≤ n) :
    (channelWindow (flushBatches ch (initializeCircularBuffers st) batches) ch n).length = n ∧
    channelWindow (flushBatches ch (initializeCircularBuffers st) batches) ch n =
      List.replicate (n - batches.flatten.length) (some 0) ++ batches.flatten.map some := by
  obtain ⟨h1, h2⟩ := flushBatches_fresh ch batches st hl hC
  have hwin : channelWindow (flushBatches ch (initializeCircularBuffers st) batches) ch n =
      List.replicate (n - batches.flatten.length) (some 0) ++ batches.flatten.map some := by
    unfold channelWindow
    rw [window_eq_drop _ _ _ _ hC h1 hn, h2]
    have := drop_zero_fill st.buffer.maxPoints n (some 0) (batches.flatten.map some) hn
      (by rw [List.length_map]; exact hm)
    rw [List.length_map] at this
    exact this
  refine ⟨?_, hwin⟩
  rw [hwin, List.length_append, List.length_replicate, List.length_map]
  omega

/-- A fresh buffer of capacity 500, before any write: the window of 10 samples is ten
zeros. -/
theorem zero_fill_window_witness :
    (channelWindow (initializeCircularBuffers (testStore 500 ["fp1", "fpz", "fp2", "snr"]))
      Chan.fp1 10).length = 10 ∧
    channelWindow (initializeCircularBuffers (testStore 500 ["fp1", "fpz", "fp2", "snr"]))
      Chan.fp1 10 = List.replicate 10 (some 0) :=
  zero_fill_window (testStore 500 ["fp1", "fpz", "fp2", "snr"]) Chan.fp1 [] 10 (by decide)
    ⟨"fp1", by decide, by decide⟩ (by decide) (by decide)

/-- After `processChannels` flushed a non-empty queue, the latest value of the channel is
the last sample of the queue. -/
theorem getLatestValue_processChannels (st : Store) (name : String) (ch : Chan)
    (hname : name ∈ st.sensorData.channels) (hch : Chan.ofName name = some ch)
    (hw : st.buffer.writeIndex.get ch < st.buffer.maxPoints)
    (hne : st.buffer.incoming.get ch ≠ []) :
    getLatestValue (processChannels st).1 name =
      some ((st.buffer.incoming.get ch).getLast hne) := by
  have hM : 0 < st.buffer.maxPoints := by omega
  have hl : Listed st.sensorData.channels ch := ⟨name, hname, hch⟩
  obtain ⟨h1, h2, _⟩ := processChannelsLoop_listed st.sensorData.channels st false ch hl
  have hmax := (processChannels_frame st).2
  have hM' : 0 < (processChannels st).1.buffer.maxPoints := by rw [hmax]; exact hM
  have key := getLatestValue_eq_ringView (processChannels st).1 name ch hch hM'
  have hpos : 0 < (st.buffer.incoming.get ch).length := List.length_pos.mpr hne
  rw [hmax] at key
  unfold processChannels at key
  rw [h1, h2, ringView_writeLoop _ _ _ _ hw, List.getElem?_drop,
    List.getElem?_append_right (by rw [ringView_length]; omega), ringView_length,
    List.getElem?_map] at key
  have hidx : (st.buffer.incoming.get ch).length + (st.buffer.maxPoints - 1) -
      st.buffer.maxPoints = (st.buffer.incoming.get ch).length - 1 := by omega
  rw [hidx, ← List.getLast?_eq_getElem?, List.getLast?_eq_getLast _ hne] at key
  exact Option.some.inj key

/-- C3 (latest-value correctness): when `processChannels` flushes a non-empty pending
queue into a configured channel whose write index is below `maxPoints`,
`getLatestValue` of that channel then returns the last sample of the queue. -/
theorem latest_value_after_flush (st : Store) (name : String) (ch : Chan)
    (hname : name ∈ st.sensorData.channels) (hch : Chan.ofName name = some ch)
    (hw : st.buffer.writeIndex.get ch < st.buffer.maxPoints)
    (hne : st.buffer.incoming.get ch ≠ []) :
    getLatestValue (processChannels st).1 name =
      some ((st.buffer.incoming.get ch).getLast hne) :=
  getLatestValue_processChannels st name ch hname hch hw hne

/-- The test of the spec: writing `[10, 20, 30]` to a freshly reset buffer gives 30. -/
theorem latest_value_after_flush_witness :
    getLatestValue
      (processChannels (withIncoming (initializeCircularBuffers (testStore 500 ["fp1"]))
        { fp1 := [10, 20, 30], fpz := [], fp2 := [] })).1 "fp1" = some 30 :=
  latest_value_after_flush
    (withIncoming (initializeCircularBuffers (testStore 500 ["fp1"]))
      { fp1 := [10, 20, 30], fpz := [], fp2 := [] })
    "fp1" Chan.fp1 (by decide) (by decide) (by decide) (by decide)

/-- On a buffer freshly reset by `initializeCircularBuffers` (capacity at least 1),
`getLatestValue` returns 0 for every channel name. -/
theorem getLatestValue_fresh (st : Store) (name : String) (hC : 1 ≤ st.buffer.maxPoints) :
    getLatestValue (initializeCircularBuffers st) name = some 0 := by
  cases hch : Chan.ofName name with
  | none => simp [getLatestValue, hch]
  | some ch =>
    rw [getLatestValue_eq (initializeCircularBuffers st) name ch hch
      (show 0 < (initializeCircularBuffers st).buffer.maxPoints from hC)]
    simp only [initializeCircularBuffers, PerChannel.get_const, jsGet_eq]
    rw [List.getElem?_replicate, if_pos (Nat.mod_lt _ hC)]
    rfl

/-- C4, the code at the failing input: on the store's initial empty arrays, and on the
empty arrays `releaseBufferMemory` leaves, `getLatestValue` reads slot 499 of an empty
array and returns `undefined`, not 0 (an empty array is truthy, so the guard
`if (!buffer.circular[channel]) return 0` is not taken). -/
theorem getLatestValue_empty_array :
    getLatestValue initialStore "fp1" = none ∧
    getLatestValue (releaseBufferMemory (initializeCircularBuffers initialStore)) "fp1" = none :=
  ⟨by decide, by decide⟩

/-! ## Well-formedness is an invariant -/

theorem enqueueLoop_buffer (d : EegData) (names : List String) (st : Store) :
    (enqueueLoop d names st).1.buffer.circular = st.buffer.circular ∧
    (enqueueLoop d names st).1.buffer.writeIndex = st.buffer.writeIndex ∧
    (enqueueLoop d names st).1.buffer.maxPoints = st.buffer.maxPoints := by
  induction names generalizing st with
  | nil => simp [enqueueLoop]
  | cons name rest ih =>
    unfold enqueueLoop
    split
    · split
      · exact ih _
      · exact ih _
    · split
      · exact ih _
      · split
        · exact ⟨rfl, rfl, rfl⟩
        · exact ih _

theorem updateEEGData_buffer (data : Option Payload) (st : Store) :
    (updateEEGData data st).1.buffer.circular = st.buffer.circular ∧
    (updateEEGData data st).1.buffer.writeIndex = st.buffer.writeIndex ∧
    (updateEEGData data st).1.buffer.maxPoints = st.buffer.maxPoints := by
  unfold updateEEGData
  split
  · exact ⟨rfl, rfl, rfl⟩
  · split
    · exact ⟨rfl, rfl, rfl⟩
    · split
      · exact ⟨rfl, rfl, rfl⟩
      · exact enqueueLoop_buffer _ _ _

theorem normalizeIncomingData_frame (st : Store) :
    (normalizeIncomingData st).sensorData = st.sensorData ∧
    (normalizeIncomingData st).buffer.circular = st.buffer.circular ∧
    (normalizeIncomingData st).buffer.writeIndex = st.buffer.writeIndex ∧
    (normalizeIncomingData st).buffer.maxPoints = st.buffer.maxPoints := by
  unfold normalizeIncomingData
  simp only
  split
  · exact ⟨rfl, rfl, rfl, rfl⟩
  · split
    · exact ⟨rfl, rfl, rfl, rfl⟩
    · exact ⟨rfl, rfl, rfl, rfl⟩

theorem wellFormed_initializeCircularBuffers (st : Store) (hC : 0 < st.buffer.maxPoints) :
    WellFormed (initializeCircularBuffers st) := by
  intro ch
  simp [initializeCircularBuffers, hC]

theorem wellFormed_processChannels (st : Store) (h : WellFormed st) :
    WellFormed (processChannels st).1 := by
  intro ch
  rw [(processChannels_frame st).2]
  unfold processChannels
  by_cases hl : Listed st.sensorData.channels ch
  · obtain ⟨h1, h2, _⟩ := processChannelsLoop_listed st.sensorData.channels st false ch hl
    rw [h1, h2]
    exact ⟨writeLoop_length _ _ _ _ (h ch).2 (h ch).1, writeLoop_index_lt _ _ _ _ (h ch).2⟩
  · obtain ⟨h1, h2, _⟩ := processChannelsLoop_unlisted st.sensorData.channels st false ch hl
    rw [h1, h2]
    exact h ch

theorem wellFormed_processIncomingBuffer (st : Store) (h : WellFormed st) :
    WellFormed (processIncomingBuffer st).1 := by
  have hn : WellFormed (normalizeIncomingData st) := by
    intro ch
    obtain ⟨_, h1, h2, h3⟩ := normalizeIncomingData_frame st
    rw [h1, h2, h3]
    exact h ch
  exact wellFormed_processChannels _ hn

theorem pruneChannel_of_length (b : Buffer) (ch : Chan)
    (h : (b.circular.get ch).length = b.maxPoints) : pruneChannel b ch = b := by
  unfold pruneChannel
  simp only [h]
  rw [if_neg (by omega)]

/-- On a well-formed store the maintenance pass prunes nothing. -/
theorem manageCircularBufferMemory_buffer (now : Nat) (st : Store) (h : WellFormed st) :
    (manageCircularBufferMemory now st).buffer = st.buffer := by
  unfold manageCircularBufferMemory
  simp only
  split
  · rfl
  · simp only [Chan.all, List.foldl_cons, List.foldl_nil]
    rw [pruneChannel_of_length _ _ (h Chan.fp1).1, pruneChannel_of_length _ _ (h Chan.fpz).1,
      pruneChannel_of_length _ _ (h Chan.fp2).1]

theorem wellFormed_run (op : Op) (st : Store) (hC : 0 < st.buffer.maxPoints)
    (h : WellFormed st) :
    (op.run st).buffer.maxPoints = st.buffer.maxPoints ∧ WellFormed (op.run st) := by
  cases op with
  | update data =>
    obtain ⟨h1, h2, h3⟩ := updateEEGData_buffer data st
    refine ⟨h3, fun ch => ?_⟩
    simp only [Op.run]
    rw [h1, h2, h3]
    exact h ch
  | flush =>
    refine ⟨?_, wellFormed_processIncomingBuffer st h⟩
    simp only [Op.run, processIncomingBuffer]
    rw [(processChannels_frame _).2, (normalizeIncomingData_frame st).2.2.2]
  | manage now =>
    have hb := manageCircularBufferMemory_buffer now st h
    refine ⟨by simp only [Op.run]; rw [hb], fun ch => ?_⟩
    simp only [Op.run]
    rw [hb]
    exact h ch
  | clear =>
    exact ⟨rfl, wellFormed_initializeCircularBuffers _ hC⟩

theorem wellFormed_runOps (ops : List Op) (st : Store) (hC : 0 < st.buffer.maxPoints)
    (h : WellFormed st) :
    (runOps ops st).buffer.maxPoints = st.buffer.maxPoints ∧ WellFormed (runOps ops st) := by
  induction ops generalizing st with
  | nil => exact ⟨rfl, h⟩
  | cons op ops ih =>
    obtain ⟨h1, h2⟩ := wellFormed_run op st hC h
    have := ih (op.run st) (h1 ▸ hC) h2
    simp only [runOps, List.foldl_cons] at this ⊢
    exact ⟨this.1.trans h1, this.2⟩

/-- C5 (ring-buffer well-formedness is an invariant): with `maxPoints` a positive
integer, starting from `initializeCircularBuffers`, every sequence of `updateEEGData`,
`processIncomingBuffer`, `manageCircularBufferMemory` and `clearData` calls leaves
`maxPoints` as it was and keeps, for each of `fp1`/`fpz`/`fp2`, the buffer length equal to
`maxPoints` (hence not above `maxPoints * 1.1`) and the write index below `maxPoints`. -/
theorem ring_wellformed_invariant (st : Store) (ops : List Op)
    (hC : 0 < st.buffer.maxPoints) :
    (runOps ops (initializeCircularBuffers st)).buffer.maxPoints = st.buffer.maxPoints ∧
    ∀ ch : Chan,
      ((runOps ops (initializeCircularBuffers st)).buffer.circular.get ch).length =
        st.buffer.maxPoints ∧
      ((runOps ops (initializeCircularBuffers st)).buffer.circular.get ch).length * 10 ≤
        st.buffer.maxPoints * 11 ∧
      (runOps ops (initializeCircularBuffers st)).buffer.writeIndex.get ch <
        st.buffer.maxPoints := by
  obtain ⟨h1, h2⟩ := wellFormed_runOps ops (initializeCircularBuffers st) hC
    (wellFormed_initializeCircularBuffers st hC)
  have h1' : (runOps ops (initializeCircularBuffers st)).buffer.maxPoints =
      st.buffer.maxPoints := h1
  refine ⟨h1', fun ch => ?_⟩
  have := h2 ch
  rw [h1'] at this
  exact ⟨this.1, by omega, this.2⟩

/-- A run of the invariant on a capacity of 5: an enqueue of the test payload, a flush, a
maintenance pass, a second enqueue and flush, and a clear. -/
theorem ring_wellformed_invariant_witness :
    (runOps [Op.update (some testPayload), Op.flush, Op.manage 20000,
        Op.update (some testPayload), Op.flush, Op.clear]
      (initializeCircularBuffers (testStore 5 []))).buffer.maxPoints = 5 ∧
    ∀ ch : Chan,
      ((runOps [Op.update (some testPayload), Op.flush, Op.manage 20000,
          Op.update (some testPayload), Op.flush, Op.clear]
        (initializeCircularBuffers (testStore 5 []))).buffer.circular.get ch).length = 5 ∧
      ((runOps [Op.update (some testPayload), Op.flush, Op.manage 20000,
          Op.update (some testPayload), Op.flush, Op.clear]
        (initializeCircularBuffers (testStore 5 []))).buffer.circular.get ch).length * 10 ≤
        5 * 11 ∧
      (runOps [Op.update (some testPayload), Op.flush, Op.manage 20000,
          Op.update (some testPayload), Op.flush, Op.clear]
        (initializeCircularBuffers (testStore 5 []))).buffer.writeIndex.get ch < 5 :=
  ring_wellformed_invariant (testStore 5 [])
    [Op.update (some testPayload), Op.flush, Op.manage 20000,
      Op.update (some testPayload), Op.flush, Op.clear] (by decide)

/-! ## Positions written by the write loop -/

theorem writeLoop_get_other (M : Nat) (xs : List ℚ) (circ : JsArray) (w : Nat) (hw : w < M)
    (j : Nat) (hj : ∀ i, i < xs.length → j ≠ (w + i) % M) :
    jsGet (writeLoop M circ w xs).1 j = jsGet circ j := by
  induction xs generalizing circ w with
  | nil => rfl
  | cons x xs ih =>
    rw [writeLoop_cons, ih _ _ (Nat.mod_lt _ (by omega))]
    · apply jsGet_arraySet_other
      have := hj 0 (by simp)
      rwa [Nat.add_zero, Nat.mod_eq_of_lt hw] at this
    · intro i hi
      have := hj (i + 1) (by simpa using hi)
      rw [Nat.mod_add_mod]
      rwa [show w + (i + 1) = w + 1 + i by omega] at this

theorem writeLoop_get_written (M : Nat) (xs : List ℚ) (circ : JsArray) (w : Nat) (hw : w < M)
    (hlen : xs.length ≤ M) (i : Nat) (hi : i < xs.length) :
    jsGet (writeLoop M circ w xs).1 ((w + i) % M) = some xs[i] := by
  induction xs generalizing circ w i with
  | nil => exact absurd hi (Nat.not_lt_zero _)
  | cons x xs ih =>
    have hlen' : xs.length + 1 ≤ M := by simpa using hlen
    rw [writeLoop_cons]
    cases i with
    | zero =>
      have h0 : (w + 0) % M = w := Nat.mod_eq_of_lt hw
      rw [h0, writeLoop_get_other _ _ _ _ (Nat.mod_lt _ (by omega)), jsGet_arraySet_same]
      · rfl
      · intro k hk
        rw [Nat.mod_add_mod, mod_of_lt_two_mul (by omega)]
        split <;> omega
    | succ i =>
      have hi' : i < xs.length := by simpa using hi
      have := ih (arraySet circ w x) ((w + 1) % M) (Nat.mod_lt _ (by omega)) (by omega) i hi'
      rw [Nat.mod_add_mod] at this
      rw [show w + (i + 1) = w + 1 + i by omega, this]
      rfl

/-! ## Normalisation below the threshold -/

theorem foldl_max_le (B : ℚ) (l : List ℚ) (init : ℚ) (hinit : init ≤ B)
    (hl : ∀ y ∈ l, y ≤ B) : l.foldl max init ≤ B := by
  induction l generalizing init with
  | nil => simpa using hinit
  | cons y ys ih =>
    rw [List.foldl_cons]
    exact ih _ (max_le hinit (hl y (List.mem_cons_self _ _)))
      (fun z hz => hl z (List.mem_cons_of_mem _ hz))

theorem channelMax_le (B : ℚ) (hB : 0 ≤ B) (xs : List ℚ) (h : ∀ x ∈ xs, |x| ≤ B) :
    channelMax xs ≤ B := by
  unfold channelMax
  apply foldl_max_le B _ 0 hB
  intro y hy
  obtain ⟨x, hx, rfl⟩ := List.mem_map.mp hy
  exact h x hx

theorem listed_of_filter {names : List String} {ch : Chan}
    (h : Listed (names.filter fun c => c ≠ "snr") ch) : Listed names ch := by
  obtain ⟨name, hmem, hch⟩ := h
  exact ⟨name, (List.mem_filter.mp hmem).1, hch⟩

theorem listed_filter_of_listed {names : List String} {ch : Chan}
    (h : Listed names ch) : Listed (names.filter fun c => c ≠ "snr") ch := by
  obtain ⟨name, hmem, hch⟩ := h
  exact ⟨name, List.mem_filter.mpr ⟨hmem, by simpa using Chan.ofName_ne_snr hch⟩, hch⟩

theorem listed_of_cons {name : String} {rest : List String} {ch : Chan}
    (h : Listed rest ch) : Listed (name :: rest) ch := by
  obtain ⟨n, hmem, hch⟩ := h
  exact ⟨n, List.mem_cons_of_mem _ hmem, hch⟩

/-- With every pending sample of every configured channel at most 100 in absolute value,
the scan does not ask for normalisation. -/
theorem scanAmplitude_small (incoming : PerChannel (List ℚ)) (names : List String)
    (acc : Bool × ℚ) (hacc : acc.1 = false)
    (h : ∀ ch, Listed names ch → ∀ x ∈ incoming.get ch, |x| ≤ 100) :
    (scanAmplitude incoming names acc).1 = false := by
  induction names generalizing acc with
  | nil => simpa [scanAmplitude] using hacc
  | cons name rest ih =>
    have hrest : ∀ ch, Listed rest ch → ∀ x ∈ incoming.get ch, |x| ≤ 100 :=
      fun ch hl => h ch (listed_of_cons hl)
    unfold scanAmplitude
    split
    · exact ih acc hacc hrest
    · rename_i ch hch
      split
      · exact ih acc hacc hrest
      · apply ih _ _ hrest
        have hle : channelMax (incoming.get ch) ≤ 100 :=
          channelMax_le 100 (by norm_num) _ (h ch (listed_cons_self hch))
        simp [hacc, not_lt.mpr hle]

theorem normalizeIncomingData_small (st : Store)
    (h : ∀ ch, Listed st.sensorData.channels ch → ∀ x ∈ st.buffer.incoming.get ch, |x| ≤ 100) :
    normalizeIncomingData st = st := by
  unfold normalizeIncomingData
  simp only
  split
  · rfl
  · rw [scanAmplitude_small _ _ _ rfl (fun ch hl => h ch (listed_of_filter hl))]
    rfl

/-! ## The flush -/

theorem processIncomingBuffer_small (st : Store)
    (h : ∀ ch, Listed st.sensorData.channels ch → ∀ x ∈ st.buffer.incoming.get ch, |x| ≤ 100) :
    (processIncomingBuffer st).1 = (processChannels st).1 := by
  simp only [processIncomingBuffer, normalizeIncomingData_small st h]

/-- C6 (flush writes in arrival order): when no pending sample of a configured channel
exceeds 100 in absolute value, then for every configured channel with write index
`w < maxPoints` and `m ≤ maxPoints` pending samples, after `processIncomingBuffer` slot
`(w + i) % maxPoints` holds the `i`-th pending sample for every `i < m`, every other slot
of the channel reads as before, and the write index is `(w + m) % maxPoints`; the new
buffer and index of the channel are the write loop run on the channel's own buffer, index
and queue, whatever the other channels hold. -/
theorem flush_writes_in_arrival_order (st : Store) (ch : Chan)
    (hl : Listed st.sensorData.channels ch)
    (hw : st.buffer.writeIndex.get ch < st.buffer.maxPoints)
    (hm : (st.buffer.incoming.get ch).length ≤ st.buffer.maxPoints)
    (hsmall : ∀ c, Listed st.sensorData.channels c →
      ∀ x ∈ st.buffer.incoming.get c, |x| ≤ 100) :
    (∀ (i : Nat) (hi : i < (st.buffer.incoming.get ch).length),
      jsGet ((processIncomingBuffer st).1.buffer.circular.get ch)
        ((st.buffer.writeIndex.get ch + i) % st.buffer.maxPoints) =
          some (st.buffer.incoming.get ch)[i]) ∧
    (∀ j : Nat,
      (∀ i, i < (st.buffer.incoming.get ch).length →
        j ≠ (st.buffer.writeIndex.get ch + i) % st.buffer.maxPoints) →
      jsGet ((processIncomingBuffer st).1.buffer.circular.get ch) j =
        jsGet (st.buffer.circular.get ch) j) ∧
    (processIncomingBuffer st).1.buffer.writeIndex.get ch =
      (st.buffer.writeIndex.get ch + (st.buffer.incoming.get ch).length) %
        st.buffer.maxPoints ∧
    ((processIncomingBuffer st).1.buffer.circular.get ch,
      (processIncomingBuffer st).1.buffer.writeIndex.get ch) =
      writeLoop st.buffer.maxPoints (st.buffer.circular.get ch)
        (st.buffer.writeIndex.get ch) (st.buffer.incoming.get ch) := by
  obtain ⟨h1, h2, _⟩ := processChannelsLoop_listed st.sensorData.channels st false ch hl
  rw [processIncomingBuffer_small st hsmall]
  unfold processChannels
  rw [h1, h2]
  exact ⟨fun i hi => writeLoop_get_written _ _ _ _ hw hm i hi,
    fun j hj => writeLoop_get_other _ _ _ _ hw j hj,
    writeLoop_index _ _ _ _ hw, rfl⟩

/-- C7 as amended (flush drains the configured channels): after `processIncomingBuffer`
the pending queue of every channel listed in `sensorData.channels` is empty, whatever the
pending queues were before the call. -/
theorem flush_drains_configured (st : Store) (ch : Chan)
    (hl : Listed st.sensorData.channels ch) :
    (processIncomingBuffer st).1.buffer.incoming.get ch = [] := by
  have hl' : Listed (normalizeIncomingData st).sensorData.channels ch := by
    rw [(normalizeIncomingData_frame st).1]
    exact hl
  exact (processChannelsLoop_listed _ (normalizeIncomingData st) false ch hl').2.2

theorem processChannelsLoop_flag_true (names : List String) (st : Store) :
    (processChannelsLoop names st true).2 = true := by
  induction names generalizing st with
  | nil => rfl
  | cons name rest ih =>
    cases h : Chan.ofName name with
    | none => rw [processChannelsLoop_skip _ _ _ _ h]; exact ih st
    | some ch =>
      by_cases he : st.buffer.incoming.get ch = []
      · rw [processChannelsLoop_empty _ _ _ _ _ h he]; exact ih st
      · rw [processChannelsLoop_flush _ _ _ _ _ h he]; exact ih _

/-- The loop reports processed data exactly when a configured channel had pending
samples. -/
theorem processChannelsLoop_flag (names : List String) (st : Store) :
    (processChannelsLoop names st false).2 = true ↔
      ∃ ch, Listed names ch ∧ st.buffer.incoming.get ch ≠ [] := by
  induction names generalizing st with
  | nil =>
    simp only [processChannelsLoop, Bool.false_eq_true, false_iff]
    rintro ⟨ch, ⟨name, hmem, _⟩, _⟩
    exact absurd hmem (List.not_mem_nil _)
  | cons name rest ih =>
    cases h : Chan.ofName name with
    | none =>
      rw [processChannelsLoop_skip _ _ _ _ h, ih st]
      exact exists_congr fun ch => and_congr_left fun _ => (listed_cons_of_none h).symm
    | some ch' =>
      by_cases he : st.buffer.incoming.get ch' = []
      · rw [processChannelsLoop_empty _ _ _ _ _ h he, ih st]
        constructor
        · rintro ⟨ch, hl, hne⟩
          exact ⟨ch, listed_of_cons hl, hne⟩
        · rintro ⟨ch, hl, hne⟩
          have hc : ch' ≠ ch := fun e => hne (e ▸ he)
          exact ⟨ch, (listed_cons_of_ne h hc).mp hl, hne⟩
      · rw [processChannelsLoop_flush _ _ _ _ _ h he]
        simp only [processChannelsLoop_flag_true, true_iff]
        exact ⟨ch', listed_cons_self h, he⟩

theorem scaleChannels_length (f : ℚ) (names : List String) (incoming : PerChannel (List ℚ))
    (ch : Chan) :
    ((scaleChannels f names incoming).get ch).length = (incoming.get ch).length := by
  induction names generalizing incoming with
  | nil => rfl
  | cons name rest ih =>
    unfold scaleChannels
    split
    · exact ih incoming
    · rename_i ch' _
      split
      · exact ih incoming
      · rw [ih]
        by_cases hc : ch = ch'
        · subst hc
          simp
        · rw [PerChannel.get_set_other _ _ _ _ hc]

theorem normalizeIncomingData_length (st : Store) (ch : Chan) :
    ((normalizeIncomingData st).buffer.incoming.get ch).length =
      (st.buffer.incoming.get ch).length := by
  unfold normalizeIncomingData
  simp only
  split
  · rfl
  · split
    · exact scaleChannels_length _ _ _ _
    · rfl

/-- C8 as amended (what the flush report holds): the channel list in the object
`processIncomingBuffer` returns is the whole configured list `sensorData.channels`,
whichever queues were pending; `hasIncomingData` is true exactly when some configured
channel had a non-empty pending queue at the start of the flush. -/
theorem flush_report (st : Store) :
    (processIncomingBuffer st).2.channels = st.sensorData.channels ∧
    ((processIncomingBuffer st).2.hasIncomingData = true ↔
      ∃ ch, Listed st.sensorData.channels ch ∧ st.buffer.incoming.get ch ≠ []) := by
  refine ⟨?_, ?_⟩
  · simp only [processIncomingBuffer]
    rw [(processChannels_frame _).1, (normalizeIncomingData_frame st).1]
  · simp only [processIncomingBuffer, processChannels]
    rw [processChannelsLoop_flag, (normalizeIncomingData_frame st).1]
    refine exists_congr fun ch => and_congr_right fun _ => not_congr ?_
    rw [← List.length_eq_zero, ← List.length_eq_zero, normalizeIncomingData_length]

/-- C9 (normalisation is the identity on small values): if every pending sample of every
configured channel has absolute value below 100, `normalizeIncomingData` leaves the store,
and so every pending queue, unchanged, and the flush writes into the ring buffer of each
configured channel exactly the values that were enqueued. -/
theorem normalization_identity_on_small (st : Store)
    (hsmall : ∀ c, Listed st.sensorData.channels c →
      ∀ x ∈ st.buffer.incoming.get c, |x| < 100) :
    normalizeIncomingData st = st ∧
    ∀ ch, Listed st.sensorData.channels ch →
      ((processIncomingBuffer st).1.buffer.circular.get ch,
        (processIncomingBuffer st).1.buffer.writeIndex.get ch) =
        writeLoop st.buffer.maxPoints (st.buffer.circular.get ch)
          (st.buffer.writeIndex.get ch) (st.buffer.incoming.get ch) := by
  have hle : ∀ c, Listed st.sensorData.channels c →
      ∀ x ∈ st.buffer.incoming.get c, |x| ≤ 100 :=
    fun c hc x hx => le_of_lt (hsmall c hc x hx)
  refine ⟨normalizeIncomingData_small st hle, fun ch hl => ?_⟩
  obtain ⟨h1, h2, _⟩ := processChannelsLoop_listed st.sensorData.channels st false ch hl
  rw [processIncomingBuffer_small st hle]
  unfold processChannels
  rw [h1, h2]

/-! ## The shared scale factor -/

theorem foldl_max_ge_init (l : List ℚ) (init : ℚ) : init ≤ l.foldl max init := by
  induction l generalizing init with
  | nil => exact le_refl _
  | cons y ys ih => exact le_trans (le_max_left _ _) (ih _)

theorem le_foldl_max (l : List ℚ) (init y : ℚ) (hy : y ∈ l) : y ≤ l.foldl max init := by
  induction l generalizing init with
  | nil => exact absurd hy (List.not_mem_nil _)
  | cons z zs ih =>
    rw [List.foldl_cons]
    rcases List.mem_cons.mp hy with rfl | hmem
    · exact le_trans (le_max_right _ _) (foldl_max_ge_init _ _)
    · exact ih _ hmem

theorem foldl_max_mem (l : List ℚ) (init : ℚ) :
    l.foldl max init = init ∨ l.foldl max init ∈ l := by
  induction l generalizing init with
  | nil => exact Or.inl rfl
  | cons z zs ih =>
    rw [List.foldl_cons]
    rcases ih (max init z) with h | h
    · rcases max_choice init z with hm | hm
      · exact Or.inl (by rw [h, hm])
      · exact Or.inr (by rw [h, hm]; exact List.mem_cons_self _ _)
    · exact Or.inr (List.mem_cons_of_mem _ h)

theorem abs_le_channelMax (xs : List ℚ) (x : ℚ) (hx : x ∈ xs) : |x| ≤ channelMax xs :=
  le_foldl_max _ 0 _ (List.mem_map.mpr ⟨x, hx, rfl⟩)

theorem channelMax_nonneg (xs : List ℚ) : 0 ≤ channelMax xs :=
  foldl_max_ge_init _ 0

/-- On a non-empty queue the maximum is the absolute value of one of its samples. -/
theorem channelMax_attained (xs : List ℚ) (hne : xs ≠ []) : ∃ x ∈ xs, |x| = channelMax xs := by
  rcases foldl_max_mem (xs.map fun x => |x|) 0 with h | h
  · obtain ⟨x, rest, rfl⟩ := List.exists_cons_of_ne_nil hne
    refine ⟨x, List.mem_cons_self _ _, ?_⟩
    have h1 : |x| ≤ channelMax (x :: rest) := abs_le_channelMax _ x (List.mem_cons_self _ _)
    have h2 : channelMax (x :: rest) = 0 := h
    rw [h2] at h1 ⊢
    exact le_antisymm h1 (abs_nonneg x)
  · obtain ⟨x, hx, hxe⟩ := List.mem_map.mp h
    exact ⟨x, hx, hxe⟩

theorem scanAmplitude_skip (incoming : PerChannel (List ℚ)) (name : String)
    (rest : List String) (acc : Bool × ℚ) (h : Chan.ofName name = none) :
    scanAmplitude incoming (name :: rest) acc = scanAmplitude incoming rest acc := by
  simp only [scanAmplitude, h]

theorem scanAmplitude_empty (incoming : PerChannel (List ℚ)) (name : String)
    (rest : List String) (acc : Bool × ℚ) (ch : Chan) (h : Chan.ofName name = some ch)
    (he : incoming.get ch = []) :
    scanAmplitude incoming (name :: rest) acc = scanAmplitude incoming rest acc := by
  simp [scanAmplitude, h, he]

theorem scanAmplitude_step (incoming : PerChannel (List ℚ)) (name : String)
    (rest : List String) (acc : Bool × ℚ) (ch : Chan) (h : Chan.ofName name = some ch)
    (hne : incoming.get ch ≠ []) :
    scanAmplitude incoming (name :: rest) acc =
      scanAmplitude incoming rest
        (acc.1 || decide (channelMax (incoming.get ch) > 100),
          max acc.2 (channelMax (incoming.get ch))) := by
  have hlen : (incoming.get ch).length ≠ 0 := fun e => hne (List.length_eq_zero.mp e)
  simp only [scanAmplitude, h, hlen, if_false]

theorem scanAmplitude_flag_mono (incoming : PerChannel (List ℚ)) (names : List String)
    (acc : Bool × ℚ) (hacc : acc.1 = true) : (scanAmplitude incoming names acc).1 = true := by
  induction names generalizing acc with
  | nil => exact hacc
  | cons name rest ih =>
    cases h : Chan.ofName name with
    | none => rw [scanAmplitude_skip _ _ _ _ h]; exact ih acc hacc
    | some ch =>
      by_cases he : incoming.get ch = []
      · rw [scanAmplitude_empty _ _ _ _ _ h he]; exact ih acc hacc
      · rw [scanAmplitude_step _ _ _ _ _ h he]
        exact ih _ (by simp [hacc])

/-- The scan asks for normalisation as soon as a configured channel holds a sample above
100 in absolute value. -/
theorem scanAmplitude_flag_of_big (incoming : PerChannel (List ℚ)) (names : List String)
    (acc : Bool × ℚ)
    (hbig : ∃ c, Listed names c ∧ ∃ x ∈ incoming.get c, 100 < |x|) :
    (scanAmplitude incoming names acc).1 = true := by
  induction names generalizing acc with
  | nil =>
    obtain ⟨c, ⟨name, hmem, _⟩, _⟩ := hbig
    exact absurd hmem (List.not_mem_nil _)
  | cons name rest ih =>
    obtain ⟨c, hl, x, hx, hxbig⟩ := hbig
    cases h : Chan.ofName name with
    | none =>
      rw [scanAmplitude_skip _ _ _ _ h]
      exact ih acc ⟨c, (listed_cons_of_none h).mp hl, x, hx, hxbig⟩
    | some ch =>
      by_cases hc : ch = c
      · subst hc
        have hne : incoming.get ch ≠ [] := List.ne_nil_of_mem hx
        rw [scanAmplitude_step _ _ _ _ _ h hne]
        apply scanAmplitude_flag_mono
        have : 100 < channelMax (incoming.get ch) :=
          lt_of_lt_of_le hxbig (abs_le_channelMax _ x hx)
        simp [this]
      · have hrest : Listed rest c := (listed_cons_of_ne h hc).mp hl
        by_cases he : incoming.get ch = []
        · rw [scanAmplitude_empty _ _ _ _ _ h he]; exact ih acc ⟨c, hrest, x, hx, hxbig⟩
        · rw [scanAmplitude_step _ _ _ _ _ h he]; exact ih _ ⟨c, hrest, x, hx, hxbig⟩

theorem scanAmplitude_ge_acc (incoming : PerChannel (List ℚ)) (names : List String)
    (acc : Bool × ℚ) : acc.2 ≤ (scanAmplitude incoming names acc).2 := by
  induction names generalizing acc with
  | nil => exact le_refl _
  | cons name rest ih =>
    cases h : Chan.ofName name with
    | none => rw [scanAmplitude_skip _ _ _ _ h]; exact ih acc
    | some ch =>
      by_cases he : incoming.get ch = []
      · rw [scanAmplitude_empty _ _ _ _ _ h he]; exact ih acc
      · rw [scanAmplitude_step _ _ _ _ _ h he]
        exact le_trans (le_max_left _ _) (ih _)

/-- The scanned amplitude bounds every pending sample of every configured channel. -/
theorem scanAmplitude_ge (incoming : PerChannel (List ℚ)) (names : List String)
    (acc : Bool × ℚ) (c : Chan) (hl : Listed names c) (x : ℚ) (hx : x ∈ incoming.get c) :
    |x| ≤ (scanAmplitude incoming names acc).2 := by
  induction names generalizing acc with
  | nil =>
    obtain ⟨name, hmem, _⟩ := hl
    exact absurd hmem (List.not_mem_nil _)
  | cons name rest ih =>
    cases h : Chan.ofName name with
    | none =>
      rw [scanAmplitude_skip _ _ _ _ h]
      exact ih acc ((listed_cons_of_none h).mp hl)
    | some ch =>
      by_cases hc : ch = c
      · subst hc
        have hne : incoming.get ch ≠ [] := List.ne_nil_of_mem hx
        rw [scanAmplitude_step _ _ _ _ _ h hne]
        exact le_trans (le_trans (abs_le_channelMax _ x hx) (le_max_right _ _))
          (scanAmplitude_ge_acc _ _ _)
      · have hrest : Listed rest c := (listed_cons_of_ne h hc).mp hl
        by_cases he : incoming.get ch = []
        · rw [scanAmplitude_empty _ _ _ _ _ h he]; exact ih acc hrest
        · rw [scanAmplitude_step _ _ _ _ _ h he]; exact ih _ hrest

/-- The scanned amplitude is the starting value or the absolute value of a pending sample
of a configured channel. -/
theorem scanAmplitude_attained (incoming : PerChannel (List ℚ)) (names : List String)
    (acc : Bool × ℚ) :
    (scanAmplitude incoming names acc).2 = acc.2 ∨
      ∃ c, Listed names c ∧ ∃ x ∈ incoming.get c, |x| = (scanAmplitude incoming names acc).2 := by
  induction names generalizing acc with
  | nil => exact Or.inl rfl
  | cons name rest ih =>
    have lift : ∀ r : ℚ, (∃ c, Listed rest c ∧ ∃ x ∈ incoming.get c, |x| = r) →
        ∃ c, Listed (name :: rest) c ∧ ∃ x ∈ incoming.get c, |x| = r :=
      fun r ⟨c, hl, hx⟩ => ⟨c, listed_of_cons hl, hx⟩
    cases h : Chan.ofName name with
    | none =>
      rw [scanAmplitude_skip _ _ _ _ h]
      exact (ih acc).imp id (lift _)
    | some ch =>
      by_cases he : incoming.get ch = []
      · rw [scanAmplitude_empty _ _ _ _ _ h he]
        exact (ih acc).imp id (lift _)
      · rw [scanAmplitude_step _ _ _ _ _ h he]
        rcases ih (acc.1 || decide (channelMax (incoming.get ch) > 100),
          max acc.2 (channelMax (incoming.get ch))) with hr | hr
        · rcases max_choice acc.2 (channelMax (incoming.get ch)) with hm | hm
          · exact Or.inl (by rw [hr]; exact hm)
          · obtain ⟨x, hx, hxe⟩ := channelMax_attained _ he
            refine Or.inr ⟨ch, listed_cons_self h, x, hx, ?_⟩
            rw [hr, hxe]
            exact hm.symm
        · exact Or.inr (lift _ hr)

theorem Chan.ofName_eq_some (name : String) (ch : Chan) :
    Chan.ofName name = some ch ↔ name = ch.name := by
  unfold Chan.ofName
  cases ch <;> simp only [Chan.name] <;> split_ifs <;> simp_all

theorem Chan.ofName_inj {n1 n2 : String} {ch : Chan} (h1 : Chan.ofName n1 = some ch)
    (h2 : Chan.ofName n2 = some ch) : n1 = n2 := by
  rw [Chan.ofName_eq_some] at h1 h2
  rw [h1, h2]

theorem scaleChannels_skip (f : ℚ) (name : String) (rest : List String)
    (incoming : PerChannel (List ℚ)) (h : Chan.ofName name = none) :
    scaleChannels f (name :: rest) incoming = scaleChannels f rest incoming := by
  simp only [scaleChannels, h]

theorem scaleChannels_empty (f : ℚ) (name : String) (rest : List String)
    (incoming : PerChannel (List ℚ)) (ch : Chan) (h : Chan.ofName name = some ch)
    (he : incoming.get ch = []) :
    scaleChannels f (name :: rest) incoming = scaleChannels f rest incoming := by
  simp [scaleChannels, h, he]

theorem scaleChannels_step (f : ℚ) (name : String) (rest : List String)
    (incoming : PerChannel (List ℚ)) (ch : Chan) (h : Chan.ofName name = some ch)
    (hne : incoming.get ch ≠ []) :
    scaleChannels f (name :: rest) incoming =
      scaleChannels f rest
        (incoming.set ch ((incoming.get ch).map fun val => val * f)) := by
  have hlen : (incoming.get ch).length ≠ 0 := fun e => hne (List.length_eq_zero.mp e)
  simp only [scaleChannels, h, hlen, if_false]

theorem scaleChannels_unlisted (f : ℚ) (names : List String) (incoming : PerChannel (List ℚ))
    (ch : Chan) (hn : ¬ Listed names ch) :
    (scaleChannels f names incoming).get ch = incoming.get ch := by
  induction names generalizing incoming with
  | nil => rfl
  | cons name rest ih =>
    cases h : Chan.ofName name with
    | none =>
      rw [scaleChannels_skip _ _ _ _ h]
      exact ih incoming (fun hl => hn ((listed_cons_of_none h).mpr hl))
    | some ch' =>
      have hne : ch' ≠ ch := fun e => hn (e ▸ listed_cons_self h)
      have hrest : ¬ Listed rest ch := fun hl => hn ((listed_cons_of_ne h hne).mpr hl)
      by_cases he : incoming.get ch' = []
      · rw [scaleChannels_empty _ _ _ _ _ h he]; exact ih incoming hrest
      · rw [scaleChannels_step _ _ _ _ _ h he, ih _ hrest,
          PerChannel.get_set_other _ _ _ _ (Ne.symm hne)]

/-- With no name repeated in the list, the queue of a configured channel is scaled
once. -/
theorem scaleChannels_listed (f : ℚ) (names : List String) (incoming : PerChannel (List ℚ))
    (ch : Chan) (hnodup : names.Nodup) (hl : Listed names ch) :
    (scaleChannels f names incoming).get ch = (incoming.get ch).map fun val => val * f := by
  induction names generalizing incoming with
  | nil =>
    obtain ⟨name, hmem, _⟩ := hl
    exact absurd hmem (List.not_mem_nil _)
  | cons name rest ih =>
    obtain ⟨hnotin, hrestnd⟩ := List.nodup_cons.mp hnodup
    cases h : Chan.ofName name with
    | none =>
      rw [scaleChannels_skip _ _ _ _ h]
      exact ih incoming hrestnd ((listed_cons_of_none h).mp hl)
    | some ch' =>
      by_cases hc : ch' = ch
      · subst hc
        have hrest : ¬ Listed rest ch' := by
          rintro ⟨n, hmem, hn⟩
          exact hnotin (Chan.ofName_inj h hn ▸ hmem)
        by_cases he : incoming.get ch' = []
        · rw [scaleChannels_empty _ _ _ _ _ h he, scaleChannels_unlisted _ _ _ _ hrest, he]
          rfl
        · rw [scaleChannels_step _ _ _ _ _ h he, scaleChannels_unlisted _ _ _ _ hrest,
            PerChannel.get_set_same]
      · have hrest : Listed rest ch := (listed_cons_of_ne h hc).mp hl
        by_cases he : incoming.get ch' = []
        · rw [scaleChannels_empty _ _ _ _ _ h he]; exact ih incoming hrestnd hrest
        · rw [scaleChannels_step _ _ _ _ _ h he, ih _ hrestnd hrest,
            PerChannel.get_set_other _ _ _ _ (Ne.symm hc)]

/-- The amplitude the scan finds is the maximum absolute pending value. -/
theorem scanAmplitude_eq_max (incoming : PerChannel (List ℚ)) (names : List String) (M : ℚ)
    (hM : 0 ≤ M)
    (hub : ∀ c, Listed names c → ∀ x ∈ incoming.get c, |x| ≤ M)
    (hatt : ∃ c, Listed names c ∧ ∃ x ∈ incoming.get c, |x| = M) :
    (scanAmplitude incoming names (false, 0)).2 = M := by
  apply le_antisymm
  · rcases scanAmplitude_attained incoming names (false, 0) with h | ⟨c, hl, x, hx, hxe⟩
    · rw [h]; exact hM
    · rw [← hxe]; exact hub c hl x hx
  · obtain ⟨c, hl, x, hx, hxe⟩ := hatt
    rw [← hxe]
    exact scanAmplitude_ge incoming names (false, 0) c hl x hx

/-- C10 (normalisation with one shared factor): let the configured channel list name no
channel twice.  If some pending sample of some configured channel has absolute value above
100 and `M` is the maximum absolute pending value across the configured channels, then
`normalizeIncomingData` turns every pending sample `x` of every configured channel into
`x * 50 / M`, and these are the values the flush writes into the ring buffer of the
channel. -/
theorem normalization_shared_factor (st : Store) (M : ℚ)
    (hnodup : st.sensorData.channels.Nodup)
    (hbig : ∃ c, Listed st.sensorData.channels c ∧ ∃ x ∈ st.buffer.incoming.get c, 100 < |x|)
    (hub : ∀ c, Listed st.sensorData.channels c → ∀ x ∈ st.buffer.incoming.get c, |x| ≤ M)
    (hatt : ∃ c, Listed st.sensorData.channels c ∧ ∃ x ∈ st.buffer.incoming.get c, |x| = M)
    (ch : Chan) (hl : Listed st.sensorData.channels ch) :
    (normalizeIncomingData st).buffer.incoming.get ch =
      (st.buffer.incoming.get ch).map (fun x => x * 50 / M) ∧
    ((processIncomingBuffer st).1.buffer.circular.get ch,
      (processIncomingBuffer st).1.buffer.writeIndex.get ch) =
      writeLoop st.buffer.maxPoints (st.buffer.circular.get ch) (st.buffer.writeIndex.get ch)
        ((st.buffer.incoming.get ch).map (fun x => x * 50 / M)) := by
  have hMbig : 100 < M := by
    obtain ⟨c, hc, x, hx, hxbig⟩ := hbig
    exact lt_of_lt_of_le hxbig (hub c hc x hx)
  have hMpos : 0 < M := lt_trans (by norm_num) hMbig
  have hfilter : ∀ c, Listed (st.sensorData.channels.filter fun n => n ≠ "snr") c ↔
      Listed st.sensorData.channels c :=
    fun c => ⟨listed_of_filter, listed_filter_of_listed⟩
  have hscan2 : (scanAmplitude st.buffer.incoming
      (st.sensorData.channels.filter fun n => n ≠ "snr") (false, 0)).2 = M := by
    apply scanAmplitude_eq_max _ _ M (le_of_lt hMpos)
    · exact fun c hc => hub c ((hfilter c).mp hc)
    · obtain ⟨c, hc, hx⟩ := hatt
      exact ⟨c, (hfilter c).mpr hc, hx⟩
  have hscan1 : (scanAmplitude st.buffer.incoming
      (st.sensorData.channels.filter fun n => n ≠ "snr") (false, 0)).1 = true := by
    apply scanAmplitude_flag_of_big
    obtain ⟨c, hc, hx⟩ := hbig
    exact ⟨c, (hfilter c).mpr hc, hx⟩
  have hne : (st.sensorData.channels.filter fun n => n ≠ "snr").length ≠ 0 := by
    obtain ⟨name, hmem, _⟩ := (hfilter ch).mpr hl
    exact fun e => List.not_mem_nil _ (List.length_eq_zero.mp e ▸ hmem)
  have hnorm : (normalizeIncomingData st).buffer.incoming.get ch =
      (st.buffer.incoming.get ch).map (fun x => x * 50 / M) := by
    unfold normalizeIncomingData
    simp only [hne, if_false, hscan1, hscan2, hMpos, decide_True, Bool.and_self, if_true]
    rw [scaleChannels_listed _ _ _ _ (hnodup.filter _) ((hfilter ch).mpr hl)]
    apply List.map_congr_left
    intro x _
    exact (mul_div_assoc x 50 M).symm
  refine ⟨hnorm, ?_⟩
  obtain ⟨hs, hc, hw, hmax⟩ := normalizeIncomingData_frame st
  have hl' : Listed (normalizeIncomingData st).sensorData.channels ch := by rw [hs]; exact hl
  obtain ⟨h1, h2, _⟩ := processChannelsLoop_listed _ (normalizeIncomingData st) false ch hl'
  simp only [processIncomingBuffer, processChannels]
  rw [h1, h2, hmax, hc, hw, hnorm]

/-! ## Instances of the flush claims -/

/-- The test `should add data to circular buffers via processIncomingBuffer`:
`fp1 = [1,2,3]`, `fpz = [4,5,6]`, `fp2 = [7,8,9]` on fresh buffers give slots 0..2 and
write index 3 for each channel. -/
theorem flush_writes_in_arrival_order_witness :
    (processIncomingBuffer (pendingStore
      { fp1 := [1, 2, 3], fpz := [4, 5, 6], fp2 := [7, 8, 9] })).1.buffer.writeIndex =
      { fp1 := 3, fpz := 3, fp2 := 3 } ∧
    jsGet ((processIncomingBuffer (pendingStore
      { fp1 := [1, 2, 3], fpz := [4, 5, 6], fp2 := [7, 8, 9] })).1.buffer.circular.get
      Chan.fp1) 0 = some 1 ∧
    jsGet ((processIncomingBuffer (pendingStore
      { fp1 := [1, 2, 3], fpz := [4, 5, 6], fp2 := [7, 8, 9] })).1.buffer.circular.get
      Chan.fp1) 1 = some 2 ∧
    jsGet ((processIncomingBuffer (pendingStore
      { fp1 := [1, 2, 3], fpz := [4, 5, 6], fp2 := [7, 8, 9] })).1.buffer.circular.get
      Chan.fp1) 2 = some 3 ∧
    jsGet ((processIncomingBuffer (pendingStore
      { fp1 := [1, 2, 3], fpz := [4, 5, 6], fp2 := [7, 8, 9] })).1.buffer.circular.get
      Chan.fpz) 0 = some 4 ∧
    jsGet ((processIncomingBuffer (pendingStore
      { fp1 := [1, 2, 3], fpz := [4, 5, 6], fp2 := [7, 8, 9] })).1.buffer.circular.get
      Chan.fp2) 2 = some 9 := by
  have hsmall : ∀ c,
      Listed (pendingStore
        { fp1 := [1, 2, 3], fpz := [4, 5, 6], fp2 := [7, 8, 9] }).sensorData.channels c →
      ∀ x ∈ (pendingStore
        { fp1 := [1, 2, 3], fpz := [4, 5, 6], fp2 := [7, 8, 9] }).buffer.incoming.get c,
        |x| ≤ 100 := by
    intro c _ x hx
    cases c <;> simp [pendingStore, withIncoming, PerChannel.get] at hx <;>
      rcases hx with rfl | rfl | rfl <;> norm_num
  have h1 := flush_writes_in_arrival_order
    (pendingStore { fp1 := [1, 2, 3], fpz := [4, 5, 6], fp2 := [7, 8, 9] }) Chan.fp1
    ⟨"fp1", by decide, by decide⟩ (by decide) (by decide) hsmall
  have h2 := flush_writes_in_arrival_order
    (pendingStore { fp1 := [1, 2, 3], fpz := [4, 5, 6], fp2 := [7, 8, 9] }) Chan.fpz
    ⟨"fpz", by decide, by decide⟩ (by decide) (by decide) hsmall
  have h3 := flush_writes_in_arrival_order
    (pendingStore { fp1 := [1, 2, 3], fpz := [4, 5, 6], fp2 := [7, 8, 9] }) Chan.fp2
    ⟨"fp2", by decide, by decide⟩ (by decide) (by decide) hsmall
  exact ⟨by decide, h1.1 0 (by decide), h1.1 1 (by decide), h1.1 2 (by decide),
    h2.1 0 (by decide), h3.1 2 (by decide)⟩

/-- C7, a counterexample to the claim as stated: two enqueues, the first for `fp1` and
`fpz`, the second configuring `fp1` only, leave `fpz` with a pending sample; the flush that
follows goes through the configured list `['fp1']` and returns with the queue of `fpz`
still holding `[4]`. -/
theorem flush_leaves_unconfigured_queue :
    (runOps [Op.update (some twoChannelPayload), Op.update (some oneChannelPayload)]
      (initializeCircularBuffers initialStore)).sensorData.channels = ["fp1"] ∧
    (runOps [Op.update (some twoChannelPayload), Op.update (some oneChannelPayload)]
      (initializeCircularBuffers initialStore)).buffer.incoming =
      { fp1 := [1, 2, 3], fpz := [4], fp2 := [] } ∧
    (processIncomingBuffer
      (runOps [Op.update (some twoChannelPayload), Op.update (some oneChannelPayload)]
        (initializeCircularBuffers initialStore))).1.buffer.incoming =
      { fp1 := [], fpz := [4], fp2 := [] } :=
  ⟨by decide, by decide, by decide⟩

/-- The flush of the test: the three configured queues are empty afterwards. -/
theorem flush_drains_configured_witness :
    (processIncomingBuffer (pendingStore
      { fp1 := [1, 2, 3], fpz := [4, 5, 6], fp2 := [7, 8, 9] })).1.buffer.incoming.get
      Chan.fpz = [] :=
  flush_drains_configured
    (pendingStore { fp1 := [1, 2, 3], fpz := [4, 5, 6], fp2 := [7, 8, 9] }) Chan.fpz
    ⟨"fpz", by decide, by decide⟩

/-- C8, a counterexample to the claim as stated: with only `fp1` pending the report lists
all four configured names, `'snr'` included, and with nothing pending it lists them
too. -/
theorem flush_report_lists_every_configured_name :
    (processIncomingBuffer
      (pendingStore { fp1 := [1, 2, 3], fpz := [], fp2 := [] })).2.channels =
      ["fp1", "fpz", "fp2", "snr"] ∧
    (processIncomingBuffer
      (pendingStore { fp1 := [], fpz := [], fp2 := [] })).2.channels =
      ["fp1", "fpz", "fp2", "snr"] ∧
    (processIncomingBuffer
      (pendingStore { fp1 := [], fpz := [], fp2 := [] })).2.hasIncomingData = false :=
  ⟨by decide, by decide, by decide⟩

/-- The samples of the unit-test payload are below 100: normalisation changes nothing. -/
theorem normalization_identity_on_small_witness :
    normalizeIncomingData (pendingStore
      { fp1 := [10, 11, 12, 13, 14], fpz := [-5, -4, -3, -2, -1],
        fp2 := [50, 60, 70, 80, 90] }) =
      pendingStore
        { fp1 := [10, 11, 12, 13, 14], fpz := [-5, -4, -3, -2, -1],
          fp2 := [50, 60, 70, 80, 90] } :=
  (normalization_identity_on_small
    (pendingStore
      { fp1 := [10, 11, 12, 13, 14], fpz := [-5, -4, -3, -2, -1],
        fp2 := [50, 60, 70, 80, 90] })
    (by
      intro c _ x hx
      cases c <;> simp [pendingStore, withIncoming, PerChannel.get] at hx <;>
        rcases hx with rfl | rfl | rfl | rfl | rfl <;> norm_num [abs_lt])).1

theorem getLast_of_eq_singleton (l : List ℚ) (h : l ≠ []) (v : ℚ) (e : l = [v]) :
    l.getLast h = v := by
  subst e
  rfl

/-- The example of the spec: pending `fp1 = [150]`, `fpz = [10]` gives the factor
`50 / 150`; the queues become `[50]` and `[10/3]`, and after the flush the latest values
are 50 and 10/3. -/
theorem normalization_shared_factor_witness :
    (normalizeIncomingData
      (pendingStore { fp1 := [150], fpz := [10], fp2 := [] })).buffer.incoming.get Chan.fp1 =
      [50] ∧
    (normalizeIncomingData
      (pendingStore { fp1 := [150], fpz := [10], fp2 := [] })).buffer.incoming.get Chan.fpz =
      [10 / 3] ∧
    getLatestValue
      (processIncomingBuffer (pendingStore { fp1 := [150], fpz := [10], fp2 := [] })).1 "fp1" =
      some 50 ∧
    getLatestValue
      (processIncomingBuffer (pendingStore { fp1 := [150], fpz := [10], fp2 := [] })).1 "fpz" =
      some (10 / 3) := by
  have hbig : ∃ c, Listed (pendingStore { fp1 := [150], fpz := [10], fp2 := [] }).sensorData.channels c ∧
      ∃ x ∈ (pendingStore { fp1 := [150], fpz := [10], fp2 := [] }).buffer.incoming.get c,
        100 < |x| :=
    ⟨Chan.fp1, ⟨"fp1", by decide, by decide⟩, 150, by decide, by norm_num⟩
  have hub : ∀ c, Listed (pendingStore { fp1 := [150], fpz := [10], fp2 := [] }).sensorData.channels c →
      ∀ x ∈ (pendingStore { fp1 := [150], fpz := [10], fp2 := [] }).buffer.incoming.get c,
        |x| ≤ 150 := by
    intro c _ x hx
    cases c <;> simp [pendingStore, withIncoming, PerChannel.get] at hx <;> subst hx <;>
      norm_num
  have hatt : ∃ c, Listed (pendingStore { fp1 := [150], fpz := [10], fp2 := [] }).sensorData.channels c ∧
      ∃ x ∈ (pendingStore { fp1 := [150], fpz := [10], fp2 := [] }).buffer.incoming.get c,
        |x| = 150 :=
    ⟨Chan.fp1, ⟨"fp1", by decide, by decide⟩, 150, by decide, by norm_num⟩
  have hfp1 := (normalization_shared_factor
    (pendingStore { fp1 := [150], fpz := [10], fp2 := [] }) 150 (by decide) hbig hub hatt
    Chan.fp1 ⟨"fp1", by decide, by decide⟩).1
  have hfpz := (normalization_shared_factor
    (pendingStore { fp1 := [150], fpz := [10], fp2 := [] }) 150 (by decide) hbig hub hatt
    Chan.fpz ⟨"fpz", by decide, by decide⟩).1
  have e1 : (normalizeIncomingData
      (pendingStore { fp1 := [150], fpz := [10], fp2 := [] })).buffer.incoming.get Chan.fp1 =
      [50] := by
    rw [hfp1]
    norm_num [pendingStore, withIncoming, PerChannel.get]
  have e2 : (normalizeIncomingData
      (pendingStore { fp1 := [150], fpz := [10], fp2 := [] })).buffer.incoming.get Chan.fpz =
      [10 / 3] := by
    rw [hfpz]
    norm_num [pendingStore, withIncoming, PerChannel.get]
  obtain ⟨hs, _, hw, hmax⟩ :=
    normalizeIncomingData_frame (pendingStore { fp1 := [150], fpz := [10], fp2 := [] })
  refine ⟨e1, e2, ?_, ?_⟩
  · have hne : (normalizeIncomingData
        (pendingStore { fp1 := [150], fpz := [10], fp2 := [] })).buffer.incoming.get Chan.fp1 ≠
        [] := by rw [e1]; exact List.cons_ne_nil _ _
    have := getLatestValue_processChannels
      (normalizeIncomingData (pendingStore { fp1 := [150], fpz := [10], fp2 := [] }))
      "fp1" Chan.fp1 (by rw [hs]; decide) (by decide) (by rw [hw, hmax]; decide) hne
    rw [getLast_of_eq_singleton _ hne 50 e1] at this
    exact this
  · have hne : (normalizeIncomingData
        (pendingStore { fp1 := [150], fpz := [10], fp2 := [] })).buffer.incoming.get Chan.fpz ≠
        [] := by rw [e2]; exact List.cons_ne_nil _ _
    have := getLatestValue_processChannels
      (normalizeIncomingData (pendingStore { fp1 := [150], fpz := [10], fp2 := [] }))
      "fpz" Chan.fpz (by rw [hs]; decide) (by decide) (by rw [hw, hmax]; decide) hne
    rw [getLast_of_eq_singleton _ hne (10 / 3) e2] at this
    exact this

/-- A remark on the side condition of C10: a name that the configured list holds twice
has its queue scaled once per occurrence (`150 * (50/150) * (50/150) = 50/3`). -/
theorem normalizeIncomingData_repeated_name :
    (normalizeIncomingData
      (withIncoming (testStore 500 ["fp1", "fp1"])
        { fp1 := [150], fpz := [], fp2 := [] })).buffer.incoming.fp1 = [50 / 3] := by
  have h1 : Chan.ofName "fp1" = some Chan.fp1 := by decide
  simp [normalizeIncomingData, scanAmplitude, scaleChannels, channelMax, withIncoming,
    testStore, initialStore, h1, PerChannel.get, PerChannel.set]
  norm_num

/-! ## Enqueue -/

theorem enqueueLoop_snr (d : EegData) (rest : List String) (st : Store) :
    enqueueLoop d ("snr" :: rest) st =
      enqueueLoop d rest
        (match d.snr with
          | some s => { st with sensorData := { st.sensorData with snr := s } }
          | none => st) := by
  cases h : d.snr <;> simp [enqueueLoop, h]

theorem enqueueLoop_notArray (d : EegData) (name : String) (rest : List String) (st : Store)
    (hn : name ≠ "snr") (h : d.series name = none) :
    enqueueLoop d (name :: rest) st = enqueueLoop d rest st := by
  simp [enqueueLoop, hn, h]

theorem enqueueLoop_throw (d : EegData) (name : String) (rest : List String) (st : Store)
    (hn : name ≠ "snr") (samples : List ℚ) (h : d.series name = some samples)
    (hch : Chan.ofName name = none) :
    enqueueLoop d (name :: rest) st = (st, false) := by
  simp [enqueueLoop, hn, h, hch]

theorem enqueueLoop_push (d : EegData) (name : String) (rest : List String) (st : Store)
    (samples : List ℚ) (h : d.series name = some samples) (ch : Chan)
    (hch : Chan.ofName name = some ch) :
    enqueueLoop d (name :: rest) st =
      enqueueLoop d rest
        { st with
          buffer :=
            { st.buffer with
              incoming := st.buffer.incoming.set ch (st.buffer.incoming.get ch ++ samples) } } := by
  simp [enqueueLoop, Chan.ofName_ne_snr hch, h, hch]

theorem enqueueLoop_snr_incoming (d : EegData) (st : Store) :
    (match d.snr with
      | some s => { st with sensorData := { st.sensorData with snr := s } }
      | none => st).buffer = st.buffer := by
  cases d.snr <;> rfl

/-- Channels that the list does not name keep their pending queue, whatever happens. -/
theorem enqueueLoop_unlisted (d : EegData) (names : List String) (st : Store) (ch : Chan)
    (hn : ¬ Listed names ch) :
    (enqueueLoop d names st).1.buffer.incoming.get ch = st.buffer.incoming.get ch := by
  induction names generalizing st with
  | nil => rfl
  | cons name rest ih =>
    by_cases hs : name = "snr"
    · subst hs
      rw [enqueueLoop_snr, ih _ (fun hl => hn (listed_of_cons hl)), enqueueLoop_snr_incoming]
    · cases hser : d.series name with
      | none =>
        rw [enqueueLoop_notArray _ _ _ _ hs hser]
        exact ih st (fun hl => hn (listed_of_cons hl))
      | some samples =>
        cases hch : Chan.ofName name with
        | none => rw [enqueueLoop_throw _ _ _ _ hs samples hser hch]
        | some ch' =>
          have hne : ch' ≠ ch := fun e => hn (e ▸ listed_cons_self hch)
          rw [enqueueLoop_push _ _ _ _ samples hser ch' hch,
            ih _ (fun hl => hn (listed_of_cons hl))]
          exact PerChannel.get_set_other _ _ _ _ (Ne.symm hne)

/-- With known channels only, none named twice, the loop completes and every named
channel gets its samples appended once. -/
theorem enqueueLoop_known (d : EegData) (names : List String) (st : Store)
    (hknown : ∀ name ∈ names, name = "snr" ∨ ∃ ch, Chan.ofName name = some ch)
    (hnodup : names.Nodup) :
    (enqueueLoop d names st).2 = true ∧
    ∀ ch, Listed names ch →
      (enqueueLoop d names st).1.buffer.incoming.get ch =
        st.buffer.incoming.get ch ++ (d.series ch.name).getD [] := by
  induction names generalizing st with
  | nil =>
    refine ⟨rfl, fun ch hl => ?_⟩
    obtain ⟨name, hmem, _⟩ := hl
    exact absurd hmem (List.not_mem_nil _)
  | cons name rest ih =>
    obtain ⟨hnotin, hrestnd⟩ := List.nodup_cons.mp hnodup
    have hknown' : ∀ n ∈ rest, n = "snr" ∨ ∃ ch, Chan.ofName n = some ch :=
      fun n hmem => hknown n (List.mem_cons_of_mem _ hmem)
    by_cases hs : name = "snr"
    · subst hs
      rw [enqueueLoop_snr]
      obtain ⟨h1, h2⟩ := ih (match d.snr with
        | some s => { st with sensorData := { st.sensorData with snr := s } }
        | none => st) hknown' hrestnd
      refine ⟨h1, fun ch hl => ?_⟩
      rw [h2 ch ((listed_cons_of_none Chan.ofName_snr).mp hl), enqueueLoop_snr_incoming]
    · obtain ⟨ch', hch⟩ := (hknown name (List.mem_cons_self _ _)).resolve_left hs
      have hname : name = ch'.name := (Chan.ofName_eq_some name ch').mp hch
      have hrest' : ¬ Listed rest ch' := by
        rintro ⟨n, hmem, hn⟩
        exact hnotin (Chan.ofName_inj hch hn ▸ hmem)
      cases hser : d.series name with
      | none =>
        rw [enqueueLoop_notArray _ _ _ _ hs hser]
        obtain ⟨h1, h2⟩ := ih st hknown' hrestnd
        refine ⟨h1, fun ch hl => ?_⟩
        by_cases hc : ch' = ch
        · subst hc
          rw [enqueueLoop_unlisted _ _ _ _ hrest', ← hname, hser]
          simp
        · exact h2 ch ((listed_cons_of_ne hch hc).mp hl)
      | some samples =>
        rw [enqueueLoop_push _ _ _ _ samples hser ch' hch]
        obtain ⟨h1, h2⟩ := ih { st with
          buffer :=
            { st.buffer with
              incoming := st.buffer.incoming.set ch'
                (st.buffer.incoming.get ch' ++ samples) } } hknown' hrestnd
        refine ⟨h1, fun ch hl => ?_⟩
        by_cases hc : ch' = ch
        · subst hc
          rw [enqueueLoop_unlisted _ _ _ _ hrest', ← hname, hser]
          simp
        · rw [h2 ch ((listed_cons_of_ne hch hc).mp hl)]
          simp [PerChannel.get_set_other _ _ _ _ (Ne.symm hc)]

theorem updateEEGData_data (st : Store) (m : EegMessage) (d : EegData)
    (hdata : m.data = some d) :
    updateEEGData (some { eeg := some m }) st =
      enqueueLoop d (m.channels.getD [])
        { st with
          sensorData :=
            { st.sensorData with
              sensor := m.sensor.getD "", channels := m.channels.getD [] } } := by
  cases m with
  | mk sensor channels data =>
    simp only at hdata
    subst hdata
    rfl

theorem updateEEGData_noData (st : Store) (m : EegMessage) (hdata : m.data = none) :
    updateEEGData (some { eeg := some m }) st =
      ({ st with
          sensorData :=
            { st.sensorData with
              sensor := m.sensor.getD "", channels := m.channels.getD [] } }, true) := by
  cases m with
  | mk sensor channels data =>
    simp only at hdata
    subst hdata
    rfl

/-- C11 (enqueue appends per channel): for a payload whose `eeg.channels` lists known
channels (`fp1`, `fpz`, `fp2`, `snr`), none of them twice, `updateEEGData` returns true;
for every listed channel whose payload value is an array the new pending queue is the old
queue followed by the payload samples in order, and a listed channel whose payload value
is not an array keeps its queue, the other channels being enqueued all the same. -/
theorem enqueue_appends_per_channel (st : Store) (m : EegMessage) (names : List String)
    (hchannels : m.channels = some names)
    (hknown : ∀ name ∈ names, name = "snr" ∨ (Chan.ofName name).isSome = true)
    (hnodup : names.Nodup) :
    (updateEEGData (some { eeg := some m }) st).2 = true ∧
    (∀ name ∈ names, ∀ (ch : Chan) (samples : List ℚ),
      Chan.ofName name = some ch → m.seriesOf name = some samples →
      (updateEEGData (some { eeg := some m }) st).1.buffer.incoming.get ch =
        st.buffer.incoming.get ch ++ samples) ∧
    (∀ name ∈ names, ∀ ch : Chan,
      Chan.ofName name = some ch → m.seriesOf name = none →
      (updateEEGData (some { eeg := some m }) st).1.buffer.incoming.get ch =
        st.buffer.incoming.get ch) := by
  have hknown' : ∀ name ∈ names, name = "snr" ∨ ∃ ch, Chan.ofName name = some ch :=
    fun name hmem => (hknown name hmem).imp id Option.isSome_iff_exists.mp
  cases hdata : m.data with
  | none =>
    rw [updateEEGData_noData st m hdata]
    refine ⟨rfl, fun _ _ _ samples _ h => ?_, fun _ _ _ _ _ => rfl⟩
    simp [EegMessage.seriesOf, hdata] at h
  | some d =>
    rw [updateEEGData_data st m d hdata, hchannels]
    obtain ⟨h1, h2⟩ := enqueueLoop_known d names
      { st with
        sensorData :=
          { st.sensorData with sensor := m.sensor.getD "", channels := names } }
      hknown' hnodup
    have hser : ∀ name, m.seriesOf name = d.series name := by
      intro name
      simp [EegMessage.seriesOf, hdata]
    refine ⟨h1, fun name hmem ch samples hch hs => ?_, fun name hmem ch hch hs => ?_⟩
    · rw [hser] at hs
      have := h2 ch ⟨name, hmem, hch⟩
      rw [← (Chan.ofName_eq_some name ch).mp hch, hs] at this
      exact this
    · rw [hser] at hs
      have := h2 ch ⟨name, hmem, hch⟩
      rw [← (Chan.ofName_eq_some name ch).mp hch, hs] at this
      simpa using this

/-- The test `should update EEG data with new payload and return true on success`:
`fp1 = [10..14]`, `fpz = [-5..-1]`, `fp2 = [50..90]` on empty queues. -/
theorem enqueue_appends_per_channel_witness :
    (updateEEGData (some testPayload) initialStore).2 = true ∧
    (updateEEGData (some testPayload) initialStore).1.buffer.incoming.get Chan.fpz =
      [] ++ [-5, -4, -3, -2, -1] ∧
    (updateEEGData (some testPayload) initialStore).1.buffer.incoming =
      { fp1 := [10, 11, 12, 13, 14], fpz := [-5, -4, -3, -2, -1],
        fp2 := [50, 60, 70, 80, 90] } :=
  ⟨(enqueue_appends_per_channel initialStore
      { sensor := none
        channels := some ["fp1", "fpz", "fp2", "snr"]
        data := some
          { series := fun channel =>
              if channel = "fp1" then some [10, 11, 12, 13, 14]
              else if channel = "fpz" then some [-5, -4, -3, -2, -1]
              else if channel = "fp2" then some [50, 60, 70, 80, 90]
              else none
            snr := some { fp1 := 20.5, fpz := 19.8, fp2 := 21.3 } } }
      ["fp1", "fpz", "fp2", "snr"] rfl (by decide) (by decide)).1,
    (enqueue_appends_per_channel initialStore
      { sensor := none
        channels := some ["fp1", "fpz", "fp2", "snr"]
        data := some
          { series := fun channel =>
              if channel = "fp1" then some [10, 11, 12, 13, 14]
              else if channel = "fpz" then some [-5, -4, -3, -2, -1]
              else if channel = "fp2" then some [50, 60, 70, 80, 90]
              else none
            snr := some { fp1 := 20.5, fpz := 19.8, fp2 := 21.3 } } }
      ["fp1", "fpz", "fp2", "snr"] rfl (by decide) (by decide)).2.1
      "fpz" (by decide) Chan.fpz [-5, -4, -3, -2, -1] (by decide) (by decide),
    by decide⟩

/-- C12, the code at the failing input: with the channel list configured and the payload
of the unit test, which has data and no `channels` field, `updateEEGData` returns true,
replaces the configured list by the empty list, enqueues nothing, and the flush that
follows writes nothing (slot 0 of `fp1` still holds 0, the write index is still 0). -/
theorem updateEEGData_without_channel_list :
    (updateEEGData (some noChannelsPayload)
      (pendingStore { fp1 := [], fpz := [], fp2 := [] })).2 = true ∧
    (updateEEGData (some noChannelsPayload)
      (pendingStore { fp1 := [], fpz := [], fp2 := [] })).1.sensorData.channels = [] ∧
    (updateEEGData (some noChannelsPayload)
      (pendingStore { fp1 := [], fpz := [], fp2 := [] })).1.buffer.incoming =
      { fp1 := [], fpz := [], fp2 := [] } ∧
    jsGet ((processIncomingBuffer (updateEEGData (some noChannelsPayload)
      (pendingStore { fp1 := [], fpz := [], fp2 := [] })).1).1.buffer.circular.get Chan.fp1) 0 =
      some 0 ∧
    (processIncomingBuffer (updateEEGData (some noChannelsPayload)
      (pendingStore { fp1 := [], fpz := [], fp2 := [] })).1).1.buffer.writeIndex =
      { fp1 := 0, fpz := 0, fp2 := 0 } :=
  ⟨by decide, by decide, by decide, by decide, by decide⟩

/-- A listed channel without a pending queue that carries array data makes `push` throw:
the loop ends with `false`. -/
theorem enqueueLoop_unknown (d : EegData) (names : List String) (st : Store)
    (h : ∃ name ∈ names, name ≠ "snr" ∧ Chan.ofName name = none ∧
      (d.series name).isSome = true) :
    (enqueueLoop d names st).2 = false := by
  induction names generalizing st with
  | nil =>
    obtain ⟨name, hmem, _⟩ := h
    exact absurd hmem (List.not_mem_nil _)
  | cons n rest ih =>
    obtain ⟨name, hmem, hne, hch, hser⟩ := h
    by_cases hs : n = "snr"
    · subst hs
      rw [enqueueLoop_snr]
      rcases List.mem_cons.mp hmem with e | hrest
      · exact absurd e hne
      · exact ih _ ⟨name, hrest, hne, hch, hser⟩
    · cases hsn : d.series n with
      | none =>
        rw [enqueueLoop_notArray _ _ _ _ hs hsn]
        rcases List.mem_cons.mp hmem with e | hrest
        · rw [e, hsn] at hser
          exact absurd hser (by simp)
        · exact ih _ ⟨name, hrest, hne, hch, hser⟩
      | some samples =>
        cases hcn : Chan.ofName n with
        | none => rw [enqueueLoop_throw _ _ _ _ hs samples hsn hcn]
        | some ch =>
          rw [enqueueLoop_push _ _ _ _ samples hsn ch hcn]
          rcases List.mem_cons.mp hmem with e | hrest
          · rw [e, hcn] at hch
            exact Option.noConfusion hch
          · exact ih _ ⟨name, hrest, hne, hch, hser⟩

/-- C13 (unknown channel is recovered locally): `updateEEGData` is a total function that
returns a boolean for every payload (an exception inside is caught); it returns false for
a missing payload, for a payload without `eeg`, and for a payload that lists a channel
with no pending queue and array data for it. -/
theorem updateEEGData_recovers_locally (st : Store) :
    (updateEEGData none st).2 = false ∧
    (updateEEGData (some { eeg := none }) st).2 = false ∧
    ∀ (m : EegMessage) (names : List String) (name : String) (samples : List ℚ),
      m.channels = some names → name ∈ names → name ≠ "snr" → Chan.ofName name = none →
      m.seriesOf name = some samples →
      (updateEEGData (some { eeg := some m }) st).2 = false := by
  refine ⟨rfl, rfl, fun m names name samples hchannels hmem hne hch hser => ?_⟩
  cases hdata : m.data with
  | none => simp [EegMessage.seriesOf, hdata] at hser
  | some d =>
    rw [updateEEGData_data st m d hdata, hchannels]
    apply enqueueLoop_unknown
    refine ⟨name, hmem, hne, hch, ?_⟩
    have : d.series name = some samples := by
      simpa [EegMessage.seriesOf, hdata] using hser
    rw [this]
    rfl

/-- A payload that lists `fp1` and the unknown channel `o1`, with array data for both:
the call returns false. -/
theorem updateEEGData_recovers_locally_witness :
    (updateEEGData none initialStore).2 = false ∧
    (updateEEGData (some { eeg := none }) initialStore).2 = false ∧
    (updateEEGData (some unknownChannelPayload) initialStore).2 = false :=
  ⟨(updateEEGData_recovers_locally initialStore).1,
    (updateEEGData_recovers_locally initialStore).2.1,
    (updateEEGData_recovers_locally initialStore).2.2
      { sensor := none
        channels := some ["fp1", "o1"]
        data := some
          { series := fun channel =>
              if channel = "fp1" then some [1]
              else if channel = "o1" then some [2]
              else none
            snr := none } }
      ["fp1", "o1"] "o1" [2] rfl (by decide) (by decide) (by decide) (by decide)⟩

/-! ## The SNR aggregate -/

/-- The loop reads and writes the buffers only: stores with the same buffers end with the
same buffers and the same outcome. -/
theorem enqueueLoop_congr_buffer (d : EegData) (names : List String) (st1 st2 : Store)
    (h : st1.buffer = st2.buffer) :
    (enqueueLoop d names st1).1.buffer = (enqueueLoop d names st2).1.buffer ∧
    (enqueueLoop d names st1).2 = (enqueueLoop d names st2).2 := by
  induction names generalizing st1 st2 with
  | nil => exact ⟨h, rfl⟩
  | cons name rest ih =>
    by_cases hs : name = "snr"
    · subst hs
      rw [enqueueLoop_snr, enqueueLoop_snr]
      apply ih
      rw [enqueueLoop_snr_incoming, enqueueLoop_snr_incoming, h]
    · cases hser : d.series name with
      | none =>
        rw [enqueueLoop_notArray _ _ _ _ hs hser, enqueueLoop_notArray _ _ _ _ hs hser]
        exact ih _ _ h
      | some samples =>
        cases hch : Chan.ofName name with
        | none =>
          rw [enqueueLoop_throw _ _ _ _ hs samples hser hch,
            enqueueLoop_throw _ _ _ _ hs samples hser hch]
          exact ⟨h, rfl⟩
        | some ch =>
          rw [enqueueLoop_push _ _ _ _ samples hser ch hch,
            enqueueLoop_push _ _ _ _ samples hser ch hch]
          apply ih
          simp only [h]

/-- Taking `'snr'` out of the channel list changes neither the buffers the loop ends with
nor its outcome. -/
theorem enqueueLoop_filter_snr (d : EegData) (names : List String) (st : Store) :
    (enqueueLoop d names st).1.buffer =
      (enqueueLoop d (names.filter fun c => c ≠ "snr") st).1.buffer ∧
    (enqueueLoop d names st).2 =
      (enqueueLoop d (names.filter fun c => c ≠ "snr") st).2 := by
  induction names generalizing st with
  | nil => exact ⟨rfl, rfl⟩
  | cons name rest ih =>
    by_cases hs : name = "snr"
    · subst hs
      rw [enqueueLoop_snr]
      have hf : (("snr" :: rest).filter fun c => c ≠ "snr") =
          rest.filter fun c => c ≠ "snr" := by simp
      rw [hf]
      obtain ⟨c1, c2⟩ := enqueueLoop_congr_buffer d (rest.filter fun c => c ≠ "snr")
        (match d.snr with
          | some s => { st with sensorData := { st.sensorData with snr := s } }
          | none => st) st (enqueueLoop_snr_incoming d st)
      obtain ⟨i1, i2⟩ := ih (match d.snr with
          | some s => { st with sensorData := { st.sensorData with snr := s } }
          | none => st)
      exact ⟨i1.trans c1, i2.trans c2⟩
    · have hf : ((name :: rest).filter fun c => c ≠ "snr") =
          name :: rest.filter fun c => c ≠ "snr" := by simp [hs]
      rw [hf]
      cases hser : d.series name with
      | none =>
        rw [enqueueLoop_notArray _ _ _ _ hs hser, enqueueLoop_notArray _ _ _ _ hs hser]
        exact ih st
      | some samples =>
        cases hch : Chan.ofName name with
        | none =>
          rw [enqueueLoop_throw _ _ _ _ hs samples hser hch,
            enqueueLoop_throw _ _ _ _ hs samples hser hch]
          exact ⟨rfl, rfl⟩
        | some ch =>
          rw [enqueueLoop_push _ _ _ _ samples hser ch hch,
            enqueueLoop_push _ _ _ _ samples hser ch hch]
          exact ih _

/-- When the loop completes, `sensorData.data.snr` is the payload's object if `'snr'` is
listed, and the old value otherwise. -/
theorem enqueueLoop_snr_value (d : EegData) (s : PerChannel ℚ) (hsnr : d.snr = some s)
    (names : List String) (st : Store) (hok : (enqueueLoop d names st).2 = true) :
    ("snr" ∈ names → (enqueueLoop d names st).1.sensorData.snr = s) ∧
    ("snr" ∉ names → (enqueueLoop d names st).1.sensorData.snr = st.sensorData.snr) := by
  induction names generalizing st with
  | nil => exact ⟨fun h => absurd h (List.not_mem_nil _), fun _ => rfl⟩
  | cons name rest ih =>
    by_cases hs : name = "snr"
    · subst hs
      rw [enqueueLoop_snr, hsnr] at hok ⊢
      obtain ⟨i1, i2⟩ := ih _ hok
      refine ⟨fun _ => ?_, fun h => absurd (List.mem_cons_self _ _) h⟩
      by_cases hr : "snr" ∈ rest
      · exact i1 hr
      · exact i2 hr
    · have hmem : "snr" ∈ name :: rest ↔ "snr" ∈ rest := by
        simp [List.mem_cons, Ne.symm hs]
      cases hser : d.series name with
      | none =>
        rw [enqueueLoop_notArray _ _ _ _ hs hser] at hok ⊢
        rw [hmem]
        exact ih st hok
      | some samples =>
        cases hch : Chan.ofName name with
        | none =>
          rw [enqueueLoop_throw _ _ _ _ hs samples hser hch] at hok
          exact absurd hok (by simp)
        | some ch =>
          rw [enqueueLoop_push _ _ _ _ samples hser ch hch] at hok ⊢
          rw [hmem]
          exact ih _ hok

/-- Taking one `'snr'` out of the channel list, wherever it stands, does not change what
the loop of `processChannels` does. -/
theorem processChannelsLoop_remove_snr (before after : List String) (st : Store)
    (flag : Bool) :
    processChannelsLoop (before ++ "snr" :: after) st flag =
      processChannelsLoop (before ++ after) st flag := by
  induction before generalizing st flag with
  | nil => exact processChannelsLoop_skip _ _ _ _ Chan.ofName_snr
  | cons name rest ih =>
    simp only [List.cons_append]
    cases h : Chan.ofName name with
    | none =>
      rw [processChannelsLoop_skip _ _ _ _ h, processChannelsLoop_skip _ _ _ _ h]
      exact ih st flag
    | some ch =>
      by_cases he : st.buffer.incoming.get ch = []
      · rw [processChannelsLoop_empty _ _ _ _ _ h he, processChannelsLoop_empty _ _ _ _ _ h he]
        exact ih st flag
      · rw [processChannelsLoop_flush _ _ _ _ _ h he, processChannelsLoop_flush _ _ _ _ _ h he]
        exact ih _ true

/-- C14 (the SNR aggregate bypasses the ring buffer): for a payload that lists `'snr'`
and carries an `eeg.data.snr` object, a call of `updateEEGData` that returns true leaves
`sensorData.data.snr` equal to that object, changes no ring buffer and no write index, and
leaves the pending queues as the same payload without `'snr'` in its channel list would;
and in a flush the entry `'snr'` of the channel list is passed over: the loop of
`processChannels` does the same with and without it. -/
theorem snr_bypasses_ring_buffer (st : Store) (m : EegMessage) (names : List String)
    (d : EegData) (s : PerChannel ℚ)
    (hchannels : m.channels = some names) (hdata : m.data = some d)
    (hsnr : d.snr = some s) (hmem : "snr" ∈ names)
    (hok : (updateEEGData (some { eeg := some m }) st).2 = true) :
    (updateEEGData (some { eeg := some m }) st).1.sensorData.snr = s ∧
    (updateEEGData (some { eeg := some m }) st).1.buffer.circular = st.buffer.circular ∧
    (updateEEGData (some { eeg := some m }) st).1.buffer.writeIndex = st.buffer.writeIndex ∧
    (updateEEGData (some { eeg := some m }) st).1.buffer.incoming =
      (updateEEGData
        (some { eeg := some { m with channels := some (names.filter fun c => c ≠ "snr") } })
        st).1.buffer.incoming ∧
    ∀ (before after : List String) (st2 : Store) (flag : Bool),
      processChannelsLoop (before ++ "snr" :: after) st2 flag =
        processChannelsLoop (before ++ after) st2 flag := by
  obtain ⟨b1, b2, _⟩ := updateEEGData_buffer (some { eeg := some m }) st
  refine ⟨?_, b1, b2, ?_, processChannelsLoop_remove_snr⟩
  · rw [updateEEGData_data st m d hdata, hchannels] at hok ⊢
    exact (enqueueLoop_snr_value d s hsnr names _ hok).1 hmem
  · rw [updateEEGData_data st m d hdata,
      updateEEGData_data st { m with channels := some (names.filter fun c => c ≠ "snr") } d
        hdata, hchannels]
    have h1 := (enqueueLoop_filter_snr d names
      { st with
        sensorData :=
          { st.sensorData with sensor := m.sensor.getD "", channels := names } }).1
    have h2 := (enqueueLoop_congr_buffer d (names.filter fun c => c ≠ "snr")
      { st with
        sensorData :=
          { st.sensorData with sensor := m.sensor.getD "", channels := names } }
      { st with
        sensorData :=
          { st.sensorData with
            sensor := m.sensor.getD ""
            channels := names.filter fun c => c ≠ "snr" } } rfl).1
    exact congrArg Buffer.incoming (h1.trans h2)

/-- The payload of the unit test: `snr` becomes `{fp1: 20.5, fpz: 19.8, fp2: 21.3}` and
the ring buffers and write indexes are those of the store before the call. -/
theorem snr_bypasses_ring_buffer_witness :
    (updateEEGData (some testPayload) initialStore).1.sensorData.snr =
      { fp1 := 20.5, fpz := 19.8, fp2 := 21.3 } ∧
    (updateEEGData (some testPayload) initialStore).1.buffer.circular =
      initialStore.buffer.circular ∧
    (updateEEGData (some testPayload) initialStore).1.buffer.writeIndex =
      initialStore.buffer.writeIndex :=
  ⟨(snr_bypasses_ring_buffer initialStore
      { sensor := none
        channels := some ["fp1", "fpz", "fp2", "snr"]
        data := some
          { series := fun channel =>
              if channel = "fp1" then some [10, 11, 12, 13, 14]
              else if channel = "fpz" then some [-5, -4, -3, -2, -1]
              else if channel = "fp2" then some [50, 60, 70, 80, 90]
              else none
            snr := some { fp1 := 20.5, fpz := 19.8, fp2 := 21.3 } } }
      ["fp1", "fpz", "fp2", "snr"]
      { series := fun channel =>
          if channel = "fp1" then some [10, 11, 12, 13, 14]
          else if channel = "fpz" then some [-5, -4, -3, -2, -1]
          else if channel = "fp2" then some [50, 60, 70, 80, 90]
          else none
        snr := some { fp1 := 20.5, fpz := 19.8, fp2 := 21.3 } }
      { fp1 := 20.5, fpz := 19.8, fp2 := 21.3 } rfl rfl rfl (by decide) (by decide)).1,
    by decide, by decide⟩

/-! ## Maintenance -/

theorem pruneChannel_maxPoints (b : Buffer) (ch : Chan) :
    (pruneChannel b ch).maxPoints = b.maxPoints := by
  unfold pruneChannel
  simp only
  split <;> rfl

theorem pruneChannel_other (b : Buffer) (ch ch' : Chan) (h : ch' ≠ ch) :
    (pruneChannel b ch).circular.get ch' = b.circular.get ch' ∧
    (pruneChannel b ch).writeIndex.get ch' = b.writeIndex.get ch' := by
  unfold pruneChannel
  simp only
  split
  · exact ⟨PerChannel.get_set_other _ _ _ _ h, PerChannel.get_set_other _ _ _ _ h⟩
  · exact ⟨rfl, rfl⟩

theorem pruneChannel_of_bounded (b : Buffer) (ch : Chan)
    (h : (b.circular.get ch).length * 10 ≤ b.maxPoints * 11) : pruneChannel b ch = b := by
  unfold pruneChannel
  simp only
  rw [if_neg (by omega)]

/-- The copy loop of the pruning takes the last `bufferSize` entries, in order. -/
theorem range_map_jsGet_eq_drop (a : JsArray) (M : Nat) (h : M ≤ a.length) :
    ((List.range M).map fun i => jsGet a (a.length - M + i)) = a.drop (a.length - M) := by
  apply List.ext_getElem?
  intro i
  rw [List.getElem?_map, List.getElem?_drop]
  by_cases hi : i < M
  · rw [List.getElem?_range hi]
    have hlt : a.length - M + i < a.length := by omega
    simp [jsGet_eq, List.getElem?_eq_getElem hlt]
  · rw [List.getElem?_eq_none (l := List.range M) (by simpa using Nat.le_of_not_lt hi),
      List.getElem?_eq_none (by omega)]
    rfl

theorem pruneChannel_of_overgrown (b : Buffer) (ch : Chan)
    (h : (b.circular.get ch).length * 10 > b.maxPoints * 11) :
    (pruneChannel b ch).circular.get ch =
      (b.circular.get ch).drop ((b.circular.get ch).length - b.maxPoints) ∧
    (pruneChannel b ch).writeIndex.get ch = 0 := by
  unfold pruneChannel
  simp only
  rw [if_pos h]
  simp only [PerChannel.get_set_same, Nat.mod_self]
  exact ⟨range_map_jsGet_eq_drop _ _ (by omega), trivial⟩

/-- After a pruning pass over a channel its array is within the 10 % margin. -/
theorem pruneChannel_bounded (b : Buffer) (ch : Chan) :
    ((pruneChannel b ch).circular.get ch).length * 10 ≤ (pruneChannel b ch).maxPoints * 11 := by
  rw [pruneChannel_maxPoints]
  by_cases h : (b.circular.get ch).length * 10 > b.maxPoints * 11
  · rw [(pruneChannel_of_overgrown b ch h).1, List.length_drop]
    omega
  · rw [pruneChannel_of_bounded b ch (by omega)]
    omega

/-- What the pruning loop over `fp1`, `fpz`, `fp2` does to one channel: the pass for the
channel itself, on the buffer as it was. -/
theorem foldl_pruneChannel_get (b : Buffer) (ch : Chan) :
    (Chan.all.foldl pruneChannel b).circular.get ch = (pruneChannel b ch).circular.get ch ∧
    (Chan.all.foldl pruneChannel b).writeIndex.get ch = (pruneChannel b ch).writeIndex.get ch ∧
    (Chan.all.foldl pruneChannel b).maxPoints = b.maxPoints := by
  have key : ∀ (b1 b2 : Buffer) (c : Chan), b1.maxPoints = b2.maxPoints →
      b1.circular.get c = b2.circular.get c → b1.writeIndex.get c = b2.writeIndex.get c →
      (pruneChannel b1 c).circular.get c = (pruneChannel b2 c).circular.get c ∧
      (pruneChannel b1 c).writeIndex.get c = (pruneChannel b2 c).writeIndex.get c := by
    intro b1 b2 c hm hc hw
    unfold pruneChannel
    simp only [hm, hc]
    split
    · simp
    · exact ⟨hc, hw⟩
  simp only [Chan.all, List.foldl_cons, List.foldl_nil, pruneChannel_maxPoints]
  refine ⟨?_, ?_, trivial⟩
  · cases ch
    · rw [(pruneChannel_other _ Chan.fp2 Chan.fp1 (by decide)).1,
        (pruneChannel_other _ Chan.fpz Chan.fp1 (by decide)).1]
    · rw [(pruneChannel_other _ Chan.fp2 Chan.fpz (by decide)).1]
      exact (key _ _ Chan.fpz (pruneChannel_maxPoints _ _)
        (pruneChannel_other _ Chan.fp1 Chan.fpz (by decide)).1
        (pruneChannel_other _ Chan.fp1 Chan.fpz (by decide)).2).1
    · exact (key _ _ Chan.fp2
        (by rw [pruneChannel_maxPoints, pruneChannel_maxPoints])
        (by rw [(pruneChannel_other _ Chan.fpz Chan.fp2 (by decide)).1,
          (pruneChannel_other _ Chan.fp1 Chan.fp2 (by decide)).1])
        (by rw [(pruneChannel_other _ Chan.fpz Chan.fp2 (by decide)).2,
          (pruneChannel_other _ Chan.fp1 Chan.fp2 (by decide)).2])).1
  · cases ch
    · rw [(pruneChannel_other _ Chan.fp2 Chan.fp1 (by decide)).2,
        (pruneChannel_other _ Chan.fpz Chan.fp1 (by decide)).2]
    · rw [(pruneChannel_other _ Chan.fp2 Chan.fpz (by decide)).2]
      exact (key _ _ Chan.fpz (pruneChannel_maxPoints _ _)
        (pruneChannel_other _ Chan.fp1 Chan.fpz (by decide)).1
        (pruneChannel_other _ Chan.fp1 Chan.fpz (by decide)).2).2
    · exact (key _ _ Chan.fp2
        (by rw [pruneChannel_maxPoints, pruneChannel_maxPoints])
        (by rw [(pruneChannel_other _ Chan.fpz Chan.fp2 (by decide)).1,
          (pruneChannel_other _ Chan.fp1 Chan.fp2 (by decide)).1])
        (by rw [(pruneChannel_other _ Chan.fpz Chan.fp2 (by decide)).2,
          (pruneChannel_other _ Chan.fp1 Chan.fp2 (by decide)).2])).2

/-- A second pruning loop right after the first changes nothing. -/
theorem foldl_pruneChannel_idem (b : Buffer) :
    Chan.all.foldl pruneChannel (Chan.all.foldl pruneChannel b) =
      Chan.all.foldl pruneChannel b := by
  have hb : ∀ ch, ((Chan.all.foldl pruneChannel b).circular.get ch).length * 10 ≤
      (Chan.all.foldl pruneChannel b).maxPoints * 11 := by
    intro ch
    obtain ⟨h1, _, h3⟩ := foldl_pruneChannel_get b ch
    rw [h1, h3, ← pruneChannel_maxPoints b ch]
    exact pruneChannel_bounded b ch
  generalize Chan.all.foldl pruneChannel b = b' at hb
  simp only [Chan.all, List.foldl_cons, List.foldl_nil]
  rw [pruneChannel_of_bounded b' Chan.fp1 (hb Chan.fp1),
    pruneChannel_of_bounded b' Chan.fpz (hb Chan.fpz),
    pruneChannel_of_bounded b' Chan.fp2 (hb Chan.fp2)]

theorem manageCircularBufferMemory_gated (st : Store) (t0 now : Nat)
    (hlast : st.lastMemoryManagementTime = some t0) (ht0 : 0 < t0)
    (hgate : (now : Int) - t0 < 10000) : manageCircularBufferMemory now st = st := by
  have h0 : t0 ≠ 0 := by omega
  simp [manageCircularBufferMemory, hlast, h0, hgate]

theorem manageCircularBufferMemory_run (st : Store) (now : Nat)
    (hdue : ∀ t0, st.lastMemoryManagementTime = some t0 → t0 = 0 ∨ 10000 ≤ (now : Int) - t0) :
    manageCircularBufferMemory now st =
      { st with
        lastMemoryManagementTime := some now
        buffer := Chan.all.foldl pruneChannel st.buffer } := by
  unfold manageCircularBufferMemory
  cases hlast : st.lastMemoryManagementTime with
  | none => simp
  | some t0 =>
    rcases hdue t0 hlast with h | h
    · simp [h]
    · have : ¬ ((now : Int) - t0 < 10000) := by omega
      simp [this]

theorem manageCircularBufferMemory_idem (now : Nat) (st : Store) :
    manageCircularBufferMemory now (manageCircularBufferMemory now st) =
      manageCircularBufferMemory now st := by
  by_cases hdue : ∀ t0, st.lastMemoryManagementTime = some t0 →
      t0 = 0 ∨ 10000 ≤ (now : Int) - t0
  · rw [manageCircularBufferMemory_run st now hdue]
    by_cases hnow : now = 0
    · rw [manageCircularBufferMemory_run _ now (by
        intro t0 ht0
        simp only [Option.some.injEq] at ht0
        left
        omega)]
      simp only [foldl_pruneChannel_idem]
    · exact manageCircularBufferMemory_gated _ now now rfl (by omega) (by omega)
  · have htoo : ∃ t0, st.lastMemoryManagementTime = some t0 ∧ t0 ≠ 0 ∧
        (now : Int) - t0 < 10000 := by
      by_contra hcon
      apply hdue
      intro t0 ht0
      by_cases h0 : t0 = 0
      · exact Or.inl h0
      · right
        by_contra hlt
        exact hcon ⟨t0, ht0, h0, by omega⟩
    obtain ⟨t0, hlast, h0, hlt⟩ := htoo
    rw [manageCircularBufferMemory_gated st t0 now hlast (by omega) hlt,
      manageCircularBufferMemory_gated st t0 now hlast (by omega) hlt]

/-- C15 (maintenance is gated and idempotent): with the clock as an input, if
`manageCircularBufferMemory` last ran at a time `t0 > 0` and is called at `now` with
`now - t0 < 10000`, the store is unchanged; and calling it twice at the same instant gives
the same store as calling it once. -/
theorem maintenance_gated_and_idempotent :
    (∀ (st : Store) (t0 now : Nat), st.lastMemoryManagementTime = some t0 → 0 < t0 →
      (now : Int) - t0 < 10000 → manageCircularBufferMemory now st = st) ∧
    (∀ (st : Store) (now : Nat),
      manageCircularBufferMemory now (manageCircularBufferMemory now st) =
        manageCircularBufferMemory now st) :=
  ⟨manageCircularBufferMemory_gated, fun st now => manageCircularBufferMemory_idem now st⟩

/-- A call 9999 ms after the last run leaves even an overgrown store as it is. -/
theorem maintenance_gated_and_idempotent_witness :
    manageCircularBufferMemory 10999 overgrownStore = overgrownStore ∧
    manageCircularBufferMemory 11000 (manageCircularBufferMemory 11000 overgrownStore) =
      manageCircularBufferMemory 11000 overgrownStore :=
  ⟨maintenance_gated_and_idempotent.1 overgrownStore 1000 10999 rfl (by decide) (by decide),
    maintenance_gated_and_idempotent.2 overgrownStore 11000⟩

theorem Chan.ofName_name (ch : Chan) : Chan.ofName ch.name = some ch :=
  (Chan.ofName_eq_some ch.name ch).mpr rfl

/-- C16 (maintenance truncation): when `manageCircularBufferMemory` runs (the gate is
open) with `maxPoints ≥ 1`, a channel whose array has length `L > maxPoints * 1.1` ends
with exactly the last `maxPoints` entries of the old array in the same order and write
index 0, so that `getLatestValue` returns the final entry of the old array; a channel with
`L ≤ maxPoints * 1.1` keeps its buffer and write index. -/
theorem maintenance_truncation (st : Store) (now : Nat) (ch : Chan)
    (hM : 0 < st.buffer.maxPoints)
    (hdue : ∀ t0, st.lastMemoryManagementTime = some t0 → t0 = 0 ∨ 10000 ≤ (now : Int) - t0) :
    ((st.buffer.circular.get ch).length * 10 > st.buffer.maxPoints * 11 →
      (manageCircularBufferMemory now st).buffer.circular.get ch =
        (st.buffer.circular.get ch).drop
          ((st.buffer.circular.get ch).length - st.buffer.maxPoints) ∧
      ((manageCircularBufferMemory now st).buffer.circular.get ch).length =
        st.buffer.maxPoints ∧
      (manageCircularBufferMemory now st).buffer.writeIndex.get ch = 0 ∧
      (st.buffer.circular.get ch).getLast? =
        some (getLatestValue (manageCircularBufferMemory now st) ch.name)) ∧
    ((st.buffer.circular.get ch).length * 10 ≤ st.buffer.maxPoints * 11 →
      (manageCircularBufferMemory now st).buffer.circular.get ch = st.buffer.circular.get ch ∧
      (manageCircularBufferMemory now st).buffer.writeIndex.get ch =
        st.buffer.writeIndex.get ch) := by
  obtain ⟨f1, f2, f3⟩ := foldl_pruneChannel_get st.buffer ch
  have hrun := manageCircularBufferMemory_run st now hdue
  have hc : (manageCircularBufferMemory now st).buffer.circular.get ch =
      (pruneChannel st.buffer ch).circular.get ch := by rw [hrun]; exact f1
  have hw : (manageCircularBufferMemory now st).buffer.writeIndex.get ch =
      (pruneChannel st.buffer ch).writeIndex.get ch := by rw [hrun]; exact f2
  have hm : (manageCircularBufferMemory now st).buffer.maxPoints = st.buffer.maxPoints := by
    rw [hrun]; exact f3
  constructor
  · intro hbig
    obtain ⟨p1, p2⟩ := pruneChannel_of_overgrown st.buffer ch hbig
    have hlen : ((st.buffer.circular.get ch).drop
        ((st.buffer.circular.get ch).length - st.buffer.maxPoints)).length =
        st.buffer.maxPoints := by
      rw [List.length_drop]
      omega
    refine ⟨by rw [hc, p1], by rw [hc, p1, hlen], by rw [hw, p2], ?_⟩
    rw [getLatestValue_eq _ ch.name ch (Chan.ofName_name ch) (by rw [hm]; exact hM), hm, hc,
      hw, p1, p2, Nat.zero_add, Nat.mod_eq_of_lt (by omega), jsGet_eq, List.getElem?_drop,
      List.getLast?_eq_getElem?]
    have hidx : (st.buffer.circular.get ch).length - st.buffer.maxPoints +
        (st.buffer.maxPoints - 1) = (st.buffer.circular.get ch).length - 1 := by omega
    have hlt : (st.buffer.circular.get ch).length - 1 < (st.buffer.circular.get ch).length := by
      omega
    rw [hidx, List.getElem?_eq_getElem hlt]
    rfl
  · intro hsmall
    rw [hc, hw, pruneChannel_of_bounded st.buffer ch hsmall]
    exact ⟨rfl, rfl⟩

/-- Capacity 3 and an `fp1` array `[1,2,3,4,5]`: after maintenance the buffer is
`[3,4,5]`, the write index 0 and the latest value 5; the empty `fpz` array is kept. -/
theorem maintenance_truncation_witness :
    (manageCircularBufferMemory 20000 overgrownStore).buffer.circular.get Chan.fp1 =
      [some 3, some 4, some 5] ∧
    (manageCircularBufferMemory 20000 overgrownStore).buffer.writeIndex.get Chan.fp1 = 0 ∧
    some (some 5) = some (getLatestValue (manageCircularBufferMemory 20000 overgrownStore) "fp1") ∧
    (manageCircularBufferMemory 20000 overgrownStore).buffer.circular.get Chan.fpz = [] :=
  ⟨((maintenance_truncation overgrownStore 20000 Chan.fp1 (by decide)
      (by intro t0 h; right; cases h; decide)).1 (by decide)).1,
    ((maintenance_truncation overgrownStore 20000 Chan.fp1 (by decide)
      (by intro t0 h; right; cases h; decide)).1 (by decide)).2.2.1,
    ((maintenance_truncation overgrownStore 20000 Chan.fp1 (by decide)
      (by intro t0 h; right; cases h; decide)).1 (by decide)).2.2.2,
    ((maintenance_truncation overgrownStore 20000 Chan.fpz (by decide)
      (by intro t0 h; right; cases h; decide)).2 (by decide)).1⟩

/-! ## The call log of the session actions -/

theorem Appends.refl (P : BackendCall → Prop) (app : App) : Appends P app app :=
  ⟨[], by simp, fun c hc => absurd hc (List.not_mem_nil _)⟩

theorem Appends.of_calls_eq (P : BackendCall → Prop) {app app' : App}
    (h : app'.calls = app.calls) : Appends P app app' :=
  ⟨[], by simp [h], fun c hc => absurd hc (List.not_mem_nil _)⟩

theorem Appends.trans {P : BackendCall → Prop} {a b c : App} (h1 : Appends P a b)
    (h2 : Appends P b c) : Appends P a c := by
  obtain ⟨s1, e1, p1⟩ := h1
  obtain ⟨s2, e2, p2⟩ := h2
  refine ⟨s1 ++ s2, by rw [e2, e1, List.append_assoc], fun x hx => ?_⟩
  rcases List.mem_append.mp hx with h | h
  · exact p1 x h
  · exact p2 x h

theorem Appends.send {P : BackendCall → Prop} (app : App) (call : BackendCall) (h : P call) :
    Appends P app (app.send call) :=
  ⟨[call], rfl, fun c hc => by rw [List.mem_singleton.mp hc]; exact h⟩

theorem Appends.send_calls {P : BackendCall → Prop} {a b : App} (call : BackendCall)
    (h : P call) (hb : b.calls = a.calls) : Appends P a (b.send call) :=
  ⟨[call], by simp [App.send, hb], fun c hc => by rw [List.mem_singleton.mp hc]; exact h⟩

theorem clearStageTimer_calls (app : App) : app.clearStageTimer.calls = app.calls := by
  unfold App.clearStageTimer
  split
  · rfl
  · split <;> rfl

theorem playTrack_appends (P : BackendCall → Prop) (hP : ∀ op f, P (BackendCall.music op f))
    (trackId : String) (app : App) : Appends P app (MusicStore.playTrack trackId app).1 := by
  unfold MusicStore.playTrack
  simp only
  split
  · exact Appends.of_calls_eq P rfl
  · split
    · exact Appends.send _ _ (hP _ _)
    · exact Appends.of_calls_eq P rfl

theorem stopMusic_calls (app : App) :
    (MusicStore.stopMusic app).1.calls =
      app.calls ++ (if app.bridge then [BackendCall.music "stop" none] else []) := by
  unfold MusicStore.stopMusic
  simp only
  split <;> simp_all [App.send]

theorem updateDiagnosisStage_appends (P : BackendCall → Prop)
    (hP : ∀ id stage, P (BackendCall.sensor SensorAction.stage id stage))
    (stage : Nat) (app : App) :
    Appends P app (DiagnosisStore.updateDiagnosisStage stage app).1 := by
  unfold DiagnosisStore.updateDiagnosisStage
  split
  · exact Appends.refl P app
  · simp only
    split
    · exact Appends.send _ _ (hP _ _)
    · exact Appends.of_calls_eq P rfl

theorem playAudioForStage_appends (P : BackendCall → Prop)
    (hP : ∀ op f, P (BackendCall.music op f)) (stage : Nat) (app : App) :
    Appends P app (EegActions.playAudioForStage stage app) := by
  have hplay : ∀ id, Appends P app (MusicStore.playTrack id app.clearStageTimer).1 := by
    intro id
    exact Appends.trans (Appends.of_calls_eq P (clearStageTimer_calls app))
      (playTrack_appends P hP id _)
  unfold EegActions.playAudioForStage
  split
  · exact Appends.refl P app
  · split
    · exact Appends.refl P app
    · split
      · exact Appends.refl P app
      · rename_i audioFile _
        split
        · exact Appends.refl P app
        · simp only
          split
          · exact hplay _
          · split
            · exact Appends.trans (hplay (trackIdOf audioFile)) (Appends.of_calls_eq P rfl)
            · split
              · exact Appends.trans (hplay (trackIdOf audioFile)) (Appends.of_calls_eq P rfl)
              · exact Appends.trans (hplay (trackIdOf audioFile)) (Appends.of_calls_eq P rfl)

/-- What a stop of an active session appends to the log: with the bridge, one `'stop'`
message to the sensor and the music store's stop; without it, nothing. -/
theorem stopEEGVisualization_calls (app : App) (hactive : app.eegPlot.active = true) :
    (EegActions.stopEEGVisualization app).calls =
      app.calls ++
        (if app.bridge then
          [BackendCall.sensor SensorAction.stop app.diagnosisId
              app.diagnosis.currentDiagnosisStage,
            BackendCall.music "stop" none]
        else []) := by
  have hb : ∀ a : App, a.clearStageTimer.bridge = a.bridge := by
    intro a
    unfold App.clearStageTimer
    split
    · rfl
    · split <;> rfl
  have hd : ∀ a : App, a.clearStageTimer.diagnosis = a.diagnosis := by
    intro a
    unfold App.clearStageTimer
    split
    · rfl
    · split <;> rfl
  unfold EegActions.stopEEGVisualization
  simp only [hactive, Bool.not_true, Bool.false_eq_true, if_false, App.setTimeout,
    stopMusic_calls]
  cases hbr : app.bridge
  · simp [hb, hbr, clearStageTimer_calls]
  · simp [hb, hd, hbr, clearStageTimer_calls, App.send, App.diagnosisId]

theorem stopEEGVisualization_inactive (app : App) (h : app.eegPlot.active = false) :
    EegActions.stopEEGVisualization app = app := by
  simp [EegActions.stopEEGVisualization, h]

theorem stopEEGVisualization_appends (P : BackendCall → Prop)
    (hP1 : ∀ op f, P (BackendCall.music op f))
    (hP2 : ∀ id stage, P (BackendCall.sensor SensorAction.stop id stage)) (app : App) :
    Appends P app (EegActions.stopEEGVisualization app) := by
  cases hactive : app.eegPlot.active
  · rw [stopEEGVisualization_inactive app hactive]
    exact Appends.refl P app
  · refine ⟨_, stopEEGVisualization_calls app hactive, fun c hc => ?_⟩
    split at hc
    · simp only [List.mem_cons, List.mem_singleton, List.not_mem_nil, or_false] at hc
      rcases hc with rfl | rfl
      · exact hP2 _ _
      · exact hP1 _ _
    · exact absurd hc (List.not_mem_nil _)

/-- The part of `startEEGVisualization` after the stage option was handled: the stage is
copied, `'start'` is sent and the audio of the stage is played. -/
theorem start_tail_appends (P : BackendCall → Prop)
    (hP1 : ∀ op f, P (BackendCall.music op f))
    (hP3 : ∀ id stage, P (BackendCall.sensor SensorAction.start id stage))
    (app2 : App) (diagnosis_id : Nat) :
    Appends P app2
      (EegActions.playAudioForStage app2.diagnosis.currentDiagnosisStage
        (if app2.bridge then
          App.send
            { app2 with
              eegPlot :=
                { app2.eegPlot with
                  audio :=
                    { app2.eegPlot.audio with
                      currentStage := app2.diagnosis.currentDiagnosisStage } } }
            (BackendCall.sensor SensorAction.start diagnosis_id
              app2.diagnosis.currentDiagnosisStage)
        else
          { app2 with
            eegPlot :=
              { app2.eegPlot with
                audio :=
                  { app2.eegPlot.audio with
                    currentStage := app2.diagnosis.currentDiagnosisStage } } })) := by
  refine Appends.trans ?_ (playAudioForStage_appends P hP1 _ _)
  split
  · exact Appends.send_calls _ (hP3 _ _) rfl
  · exact Appends.of_calls_eq P rfl

theorem startEEGVisualization_appends (P : BackendCall → Prop)
    (hP1 : ∀ op f, P (BackendCall.music op f))
    (hP2 : ∀ id stage, P (BackendCall.sensor SensorAction.stage id stage))
    (hP3 : ∀ id stage, P (BackendCall.sensor SensorAction.start id stage))
    (options : Options) (app : App) :
    Appends P app (EegActions.startEEGVisualization options app) := by
  have h1 : Appends P app
      (if options.diagnosis_stage.getD 0 ≠ 0 then
        (DiagnosisStore.updateDiagnosisStage (options.diagnosis_stage.getD 0)
          { app with
            eegPlot := { app.eegPlot with active := true }
            store := clearData app.store }).1
      else
        { app with
          eegPlot := { app.eegPlot with active := true }
          store := clearData app.store }) := by
    split
    · exact Appends.trans
        (Appends.of_calls_eq P
          (show ({ app with
            eegPlot := { app.eegPlot with active := true }
            store := clearData app.store } : App).calls = app.calls from rfl))
        (updateDiagnosisStage_appends P hP2 _ _)
    · exact Appends.of_calls_eq P rfl
  unfold EegActions.startEEGVisualization
  split
  · exact Appends.refl P app
  · exact Appends.trans h1 (start_tail_appends P hP1 hP3 _ _)

theorem actions_updateEEGData_appends (P : BackendCall → Prop)
    (hP1 : ∀ op f, P (BackendCall.music op f))
    (hP2 : ∀ id stage, P (BackendCall.sensor SensorAction.stage id stage))
    (hP3 : ∀ id stage, P (BackendCall.sensor SensorAction.start id stage))
    (hP4 : ∀ id stage, P (BackendCall.sensor SensorAction.stop id stage))
    (data : Option Payload) (now : Nat) (app : App) :
    Appends P app (EegActions.updateEEGData data now app).1 := by
  unfold EegActions.updateEEGData
  split
  · split
    · exact Appends.send _ _ (hP4 _ _)
    · exact Appends.refl P app
  · simp only
    split
    · exact Appends.trans (Appends.of_calls_eq P rfl)
        (startEEGVisualization_appends P hP1 hP2 hP3 _ _)
    · exact Appends.of_calls_eq P rfl

/-- The part of `progressToNextStage` after the evaluation branch appends `'stage'`,
`'stop'` and music calls only. -/
theorem progress_tail_appends (P : BackendCall → Prop)
    (hP1 : ∀ op f, P (BackendCall.music op f))
    (hP2 : ∀ id stage, P (BackendCall.sensor SensorAction.stage id stage))
    (hP4 : ∀ id stage, P (BackendCall.sensor SensorAction.stop id stage))
    (nextStage : Nat) (app1 : App) :
    Appends P app1
      (match app1.eegPlot.audio.stageFiles.lookup nextStage with
        | none => EegActions.stopEEGVisualization app1
        | some audioFile =>
          if audioFile = "" then EegActions.stopEEGVisualization app1
          else
            EegActions.playAudioForStage nextStage
              (DiagnosisStore.updateDiagnosisStage nextStage
                (if app1.bridge then
                  app1.send (BackendCall.sensor SensorAction.stage app1.diagnosisId nextStage)
                else app1)).1) := by
  split
  · exact stopEEGVisualization_appends P hP1 hP4 app1
  · split
    · exact stopEEGVisualization_appends P hP1 hP4 app1
    · refine Appends.trans (Appends.trans ?_ (updateDiagnosisStage_appends P hP2 _ _))
        (playAudioForStage_appends P hP1 _ _)
      split
      · exact Appends.send _ _ (hP2 _ _)
      · exact Appends.refl P app1

theorem progressToNextStage_not_three (P : BackendCall → Prop)
    (hP1 : ∀ op f, P (BackendCall.music op f))
    (hP2 : ∀ id stage, P (BackendCall.sensor SensorAction.stage id stage))
    (hP4 : ∀ id stage, P (BackendCall.sensor SensorAction.stop id stage))
    (app : App) (h : app.eegPlot.audio.currentStage ≠ 3) :
    Appends P app (EegActions.progressToNextStage app) := by
  unfold EegActions.progressToNextStage
  split
  · exact Appends.refl P app
  · simp only [h, false_and, if_false]
    exact progress_tail_appends P hP1 hP2 hP4 _ app

theorem progressToNextStage_three (P : BackendCall → Prop)
    (hP1 : ∀ op f, P (BackendCall.music op f))
    (hP2 : ∀ id stage, P (BackendCall.sensor SensorAction.stage id stage))
    (hP4 : ∀ id stage, P (BackendCall.sensor SensorAction.stop id stage))
    (app : App) (hbridge : app.bridge = true) (hdown : app.eegPlot.shuttingDown = false)
    (h : app.eegPlot.audio.currentStage = 3) :
    Appends P (app.send (BackendCall.sensor SensorAction.evaluate app.diagnosisId 3))
      (EegActions.progressToNextStage app) := by
  unfold EegActions.progressToNextStage
  simp only [hdown, Bool.false_eq_true, if_false, h, hbridge, if_true, and_self]
  exact progress_tail_appends P hP1 hP2 hP4 _ _

/-- With the stage file of stage 4 defined, the step from stage 3 sends the `'stage'`
message for stage 4. -/
theorem progressToNextStage_three_stage (app : App) (hbridge : app.bridge = true)
    (hdown : app.eegPlot.shuttingDown = false) (h : app.eegPlot.audio.currentStage = 3)
    (audioFile : String) (hfile : app.eegPlot.audio.stageFiles.lookup 4 = some audioFile)
    (hne : audioFile ≠ "") :
    ∃ suffix, (EegActions.progressToNextStage app).calls =
      app.calls ++ [BackendCall.sensor SensorAction.evaluate app.diagnosisId 3,
        BackendCall.sensor SensorAction.stage app.diagnosisId 4] ++ suffix := by
  have hfile' : (app.send (BackendCall.sensor SensorAction.evaluate app.diagnosisId
      3)).eegPlot.audio.stageFiles.lookup 4 = some audioFile := hfile
  have hb' : (app.send (BackendCall.sensor SensorAction.evaluate app.diagnosisId
      3)).bridge = true := hbridge
  unfold EegActions.progressToNextStage
  simp only [hdown, Bool.false_eq_true, if_false, h, hbridge, if_true, and_self, hfile', hne,
    hb']
  obtain ⟨s1, e1, _⟩ := updateDiagnosisStage_appends (fun _ => True) (fun _ _ => trivial) 4
    ((app.send (BackendCall.sensor SensorAction.evaluate app.diagnosisId 3)).send
      (BackendCall.sensor SensorAction.stage
        (app.send (BackendCall.sensor SensorAction.evaluate app.diagnosisId 3)).diagnosisId 4))
  obtain ⟨s2, e2, _⟩ := playAudioForStage_appends (fun _ => True) (fun _ _ => trivial) 4
    (DiagnosisStore.updateDiagnosisStage 4
      ((app.send (BackendCall.sensor SensorAction.evaluate app.diagnosisId 3)).send
        (BackendCall.sensor SensorAction.stage
          (app.send (BackendCall.sensor SensorAction.evaluate app.diagnosisId
            3)).diagnosisId 4))).1
  refine ⟨s1 ++ s2, ?_⟩
  rw [e2, e1]
  simp [App.send, App.diagnosisId]

/-! ## Stopping a session -/

theorem clearStageTimer_fields (app : App) :
    app.clearStageTimer.store = app.store ∧
    app.clearStageTimer.eegPlot.active = app.eegPlot.active ∧
    app.clearStageTimer.eegPlot.shuttingDown = app.eegPlot.shuttingDown ∧
    app.clearStageTimer.eegPlot.audio.currentStage = app.eegPlot.audio.currentStage ∧
    app.clearStageTimer.eegPlot.audio.enabled = app.eegPlot.audio.enabled ∧
    app.clearStageTimer.eegPlot.audio.stageFiles = app.eegPlot.audio.stageFiles ∧
    app.clearStageTimer.eegPlot.audio.stageDurations = app.eegPlot.audio.stageDurations ∧
    app.clearStageTimer.diagnosis = app.diagnosis ∧
    app.clearStageTimer.music = app.music ∧
    app.clearStageTimer.bridge = app.bridge ∧
    app.clearStageTimer.timerCount = app.timerCount := by
  unfold App.clearStageTimer
  split
  · simp
  · split <;> simp [App.clearTimeout]

/-- With a recorded identifier that is not 0, the statement drops the recorded timer from
the table and forgets the identifier. -/
theorem clearStageTimer_timer (app : App)
    (h0 : app.eegPlot.audio.stageTimerId ≠ some 0) :
    app.clearStageTimer.eegPlot.audio.stageTimerId = none ∧
    app.clearStageTimer.timers =
      app.timers.filter fun t => decide (some t.id ≠ app.eegPlot.audio.stageTimerId) := by
  unfold App.clearStageTimer
  cases h : app.eegPlot.audio.stageTimerId with
  | none => simp [h]
  | some id =>
    have hid : id ≠ 0 := fun e => h0 (by rw [h, e])
    simp [hid, App.clearTimeout]

theorem stopMusic_fields (app : App) :
    (MusicStore.stopMusic app).1.store = app.store ∧
    (MusicStore.stopMusic app).1.eegPlot = app.eegPlot ∧
    (MusicStore.stopMusic app).1.diagnosis = app.diagnosis ∧
    (MusicStore.stopMusic app).1.bridge = app.bridge ∧
    (MusicStore.stopMusic app).1.timers = app.timers ∧
    (MusicStore.stopMusic app).1.timerCount = app.timerCount := by
  unfold MusicStore.stopMusic
  simp only
  split <;> simp [App.send]

theorem stopEEGVisualization_eq (app : App) (hactive : app.eegPlot.active = true) :
    EegActions.stopEEGVisualization app =
      (App.setTimeout
        (MusicStore.stopMusic
          (if (App.clearStageTimer
              { app with
                eegPlot := { app.eegPlot with active := false, shuttingDown := true } }).bridge
          then
            App.send
              (App.clearStageTimer
                { app with
                  eegPlot := { app.eegPlot with active := false, shuttingDown := true } })
              (BackendCall.sensor SensorAction.stop
                (App.clearStageTimer
                  { app with
                    eegPlot :=
                      { app.eegPlot with active := false, shuttingDown := true } }).diagnosisId
                (App.clearStageTimer
                  { app with
                    eegPlot :=
                      { app.eegPlot with
                        active := false
                        shuttingDown := true } }).diagnosis.currentDiagnosisStage)
          else
            App.clearStageTimer
              { app with
                eegPlot := { app.eegPlot with active := false, shuttingDown := true } })).1
        1000 TimerCallback.graceElapsed).1 := by
  unfold EegActions.stopEEGVisualization
  rw [if_neg (by simp [hactive])]

/-- The state a stop of an active session ends in. -/
theorem stopEEGVisualization_fields (app : App) (hactive : app.eegPlot.active = true)
    (h0 : app.eegPlot.audio.stageTimerId ≠ some 0) :
    (EegActions.stopEEGVisualization app).eegPlot.active = false ∧
    (EegActions.stopEEGVisualization app).eegPlot.shuttingDown = true ∧
    (EegActions.stopEEGVisualization app).eegPlot.audio.stageTimerId = none ∧
    (EegActions.stopEEGVisualization app).timers =
      (app.timers.filter fun t => decide (some t.id ≠ app.eegPlot.audio.stageTimerId)) ++
        [{ id := app.timerCount + 1, delay := 1000, callback := TimerCallback.graceElapsed }] ∧
    (EegActions.stopEEGVisualization app).timerCount = app.timerCount + 1 ∧
    (EegActions.stopEEGVisualization app).bridge = app.bridge := by
  have hc := clearStageTimer_fields
    { app with eegPlot := { app.eegPlot with active := false, shuttingDown := true } }
  have ht := clearStageTimer_timer
    { app with eegPlot := { app.eegPlot with active := false, shuttingDown := true } } h0
  rw [stopEEGVisualization_eq app hactive]
  generalize App.clearStageTimer
    { app with eegPlot := { app.eegPlot with active := false, shuttingDown := true } } = A
    at hc ht ⊢
  obtain ⟨_, c2, c3, _, _, _, _, _, _, c10, c11⟩ := hc
  obtain ⟨t1, t2⟩ := ht
  simp only at c2 c3 c10 c11 t2
  obtain ⟨_, m2, _, m4, m5, m6⟩ := stopMusic_fields
    (if A.bridge then
      A.send (BackendCall.sensor SensorAction.stop A.diagnosisId
        A.diagnosis.currentDiagnosisStage)
    else A)
  simp only [App.setTimeout, m2, m4, m5, m6]
  split <;> simp_all [App.send]


theorem stopCount_append (l1 l2 : List BackendCall) :
    stopCount (l1 ++ l2) = stopCount l1 + stopCount l2 := by
  simp [stopCount, List.filter_append]

/-- A stop of an active session, on a well-formed timer table, ends the session. -/
theorem stopEEGVisualization_sessionStopped (app : App)
    (hactive : app.eegPlot.active = true) (halloc : TimersAllocated app)
    (hone : StageTimerRecorded app) :
    SessionStopped app (EegActions.stopEEGVisualization app) := by
  have h0 : app.eegPlot.audio.stageTimerId ≠ some 0 := by
    intro h
    have := (halloc.2 0 h).1
    omega
  obtain ⟨f1, f2, f3, f4, f5, f6⟩ := stopEEGVisualization_fields app hactive h0
  have hfind : (EegActions.stopEEGVisualization app).timers.find?
      (fun t => t.id = app.timerCount + 1) =
      some { id := app.timerCount + 1, delay := 1000, callback := TimerCallback.graceElapsed } := by
    rw [f4, List.find?_append]
    have hnone : (app.timers.filter fun t =>
        decide (some t.id ≠ app.eegPlot.audio.stageTimerId)).find?
        (fun t => t.id = app.timerCount + 1) = none := by
      rw [List.find?_eq_none]
      intro t ht
      have := (halloc.1 t (List.mem_filter.mp ht).1).2
      simp only [decide_eq_true_eq]
      omega
    rw [hnone]
    simp
  refine ⟨f1, f2, f3, ?_, ?_, ?_, ?_⟩
  · intro t ht
    rw [f4] at ht
    rcases List.mem_append.mp ht with h | h
    · obtain ⟨hmem, hne⟩ := List.mem_filter.mp h
      cases hs : t.isStage with
      | false => rfl
      | true =>
        have := hone t hmem hs
        simp [this] at hne
    · rw [List.mem_singleton.mp h]
      rfl
  · intro hb
    rw [stopEEGVisualization_calls app hactive, hb, if_pos rfl, stopCount_append]
    rfl
  · rw [f4]
    simp
  · unfold fireTimer
    rw [hfind]
    rfl

theorem sessionStopped_of_send (app after : App) (call : BackendCall)
    (hcall : call.isStop = false) (h : SessionStopped (app.send call) after) :
    SessionStopped app after := by
  obtain ⟨h1, h2, h3, h4, h5, h6, h7⟩ := h
  refine ⟨h1, h2, h3, h4, fun hb => ?_, h6, h7⟩
  have := h5 hb
  rw [this]
  simp [App.send, stopCount, List.filter_append, hcall]

theorem fireTimer_eq (id : Nat) (app : App) (t : Timer)
    (h : app.timers.find? (fun t => t.id = id) = some t) :
    fireTimer id app = t.callback.run (app.clearTimeout id) := by
  unfold fireTimer
  rw [h]

theorem timersAllocated_clearTimeout (app : App) (id : Nat) (h : TimersAllocated app) :
    TimersAllocated (app.clearTimeout id) :=
  ⟨fun t ht => h.1 t (List.mem_filter.mp ht).1, h.2⟩

theorem stageTimerRecorded_clearTimeout (app : App) (id : Nat) (h : StageTimerRecorded app) :
    StageTimerRecorded (app.clearTimeout id) :=
  fun t ht hs => h t (List.mem_filter.mp ht).1 hs

/-- With no stage file for the next stage, `progressToNextStage` outside a shutdown is the
stop of the session, after the evaluation message when the stage was 3. -/
theorem progressToNextStage_no_file (app : App) (hdown : app.eegPlot.shuttingDown = false)
    (hfile : app.eegPlot.audio.stageFiles.lookup (app.eegPlot.audio.currentStage + 1) = none ∨
      app.eegPlot.audio.stageFiles.lookup (app.eegPlot.audio.currentStage + 1) = some "") :
    EegActions.progressToNextStage app = EegActions.stopEEGVisualization app ∨
    EegActions.progressToNextStage app =
      EegActions.stopEEGVisualization
        (app.send (BackendCall.sensor SensorAction.evaluate app.diagnosisId 3)) := by
  have key : ∀ app1 : App, app1.eegPlot.audio.stageFiles = app.eegPlot.audio.stageFiles →
      (match app1.eegPlot.audio.stageFiles.lookup (app.eegPlot.audio.currentStage + 1) with
        | none => EegActions.stopEEGVisualization app1
        | some audioFile =>
          if audioFile = "" then EegActions.stopEEGVisualization app1
          else
            EegActions.playAudioForStage (app.eegPlot.audio.currentStage + 1)
              (DiagnosisStore.updateDiagnosisStage (app.eegPlot.audio.currentStage + 1)
                (if app1.bridge then
                  app1.send (BackendCall.sensor SensorAction.stage app1.diagnosisId
                    (app.eegPlot.audio.currentStage + 1))
                else app1)).1) = EegActions.stopEEGVisualization app1 := by
    intro app1 h1
    rw [h1]
    rcases hfile with h | h <;> simp [h]
  unfold EegActions.progressToNextStage
  rw [if_neg (by simp [hdown])]
  by_cases h3 : app.eegPlot.audio.currentStage = 3 ∧ app.eegPlot.audio.currentStage + 1 = 4
  · cases hb : app.bridge
    · left
      simp only [h3, and_self, if_true, hb, Bool.false_eq_true, if_false]
      have := key app rfl
      simp only [h3.1, hb, Bool.false_eq_true, if_false] at this
      exact this
    · right
      simp only [h3, and_self, if_true, hb]
      have := key (app.send (BackendCall.sensor SensorAction.evaluate app.diagnosisId 3)) rfl
      simp only [h3.1] at this
      exact this
  · left
    simp only [h3, if_false]
    exact key app rfl

/-- C19 (the final stage ends the session): for an active session on a well-formed timer
table, when the stage-4 timer fires, or when `progressToNextStage` is called outside a
shutdown with no stage file defined for `currentStage + 1`, the session is stopped:
`active` is false, `shuttingDown` is true, `stageTimerId` is null and no stage timer is
outstanding, exactly one `'stop'` message is added to the log when the bridge is
available, and the grace timer of 1000 ms is set whose firing puts `shuttingDown` back to
false. -/
theorem final_stage_ends_session (app : App) (hactive : app.eegPlot.active = true)
    (halloc : TimersAllocated app) (hone : StageTimerRecorded app) :
    (∀ id delay : Nat,
      app.timers.find? (fun t => t.id = id) =
        some { id := id, delay := delay, callback := TimerCallback.stageExpired 4 } →
      SessionStopped app (fireTimer id app)) ∧
    (app.eegPlot.shuttingDown = false →
      (app.eegPlot.audio.stageFiles.lookup (app.eegPlot.audio.currentStage + 1) = none ∨
        app.eegPlot.audio.stageFiles.lookup (app.eegPlot.audio.currentStage + 1) = some "") →
      SessionStopped app (EegActions.progressToNextStage app)) := by
  constructor
  · intro id delay hfind
    rw [fireTimer_eq id app _ hfind]
    exact stopEEGVisualization_sessionStopped (app.clearTimeout id) hactive
      (timersAllocated_clearTimeout app id halloc) (stageTimerRecorded_clearTimeout app id hone)
  · intro hdown hfile
    rcases progressToNextStage_no_file app hdown hfile with h | h
    · rw [h]
      exact stopEEGVisualization_sessionStopped app hactive halloc hone
    · rw [h]
      exact sessionStopped_of_send app _
        (BackendCall.sensor SensorAction.evaluate app.diagnosisId 3) rfl
        (stopEEGVisualization_sessionStopped
          (app.send (BackendCall.sensor SensorAction.evaluate app.diagnosisId 3))
          hactive halloc hone)

/-- The run of the default protocol: when the stage-4 timer (identifier 4) fires, the
session is stopped, and the log ends with the one `'stop'` message and the music stop. -/
theorem final_stage_ends_session_witness :
    SessionStopped stage4App (fireTimer 4 stage4App) ∧
    (fireTimer 4 stage4App).calls =
      stage4App.calls ++
        [BackendCall.sensor SensorAction.stop 0 4, BackendCall.music "stop" none] ∧
    (fireTimer 4 stage4App).timers =
      [{ id := 5, delay := 1000, callback := TimerCallback.graceElapsed }] :=
  ⟨(final_stage_ends_session stage4App (by decide)
      ⟨by decide, by
        intro id h
        have e : stage4App.eegPlot.audio.stageTimerId = some 4 := by decide
        rw [e] at h
        cases h
        decide⟩
      (by
        intro t ht hs
        have e : stage4App.timers =
            [{ id := 4, delay := 10000, callback := TimerCallback.stageExpired 4 }] := by
          decide
        rw [e] at ht
        rw [List.mem_singleton.mp ht]
        decide)).1 4 10000 (by decide),
    by decide, by decide⟩

theorem stopEEGVisualization_active_after (app : App) :
    (EegActions.stopEEGVisualization app).eegPlot.active = false := by
  cases hactive : app.eegPlot.active
  · rw [stopEEGVisualization_inactive app hactive]
    exact hactive
  · have hc := clearStageTimer_fields
      { app with eegPlot := { app.eegPlot with active := false, shuttingDown := true } }
    rw [stopEEGVisualization_eq app hactive]
    generalize App.clearStageTimer
      { app with eegPlot := { app.eegPlot with active := false, shuttingDown := true } } = A
      at hc ⊢
    obtain ⟨_, c2, _⟩ := hc
    simp only at c2
    obtain ⟨_, m2, _⟩ := stopMusic_fields
      (if A.bridge then
        A.send (BackendCall.sensor SensorAction.stop A.diagnosisId
          A.diagnosis.currentDiagnosisStage)
      else A)
    simp only [App.setTimeout, m2]
    split <;> simp_all [App.send]

theorem stopEEGVisualization_idem (app : App) :
    EegActions.stopEEGVisualization (EegActions.stopEEGVisualization app) =
      EegActions.stopEEGVisualization app :=
  stopEEGVisualization_inactive _ (stopEEGVisualization_active_after app)

/-- C20 (idempotent stop): `stopEEGVisualization` called when `eegPlot.active` is false
changes nothing, the call log included; so two consecutive stops equal one, on an active
session with the bridge they add exactly one `'stop'` message to the log, and the first
stop already leaves `stageTimerId` null and the recorded stage timer out of the timer
table. -/
theorem stop_idempotent :
    (∀ app : App, app.eegPlot.active = false → EegActions.stopEEGVisualization app = app) ∧
    (∀ app : App,
      EegActions.stopEEGVisualization (EegActions.stopEEGVisualization app) =
        EegActions.stopEEGVisualization app) ∧
    (∀ app : App, app.eegPlot.active = true → app.bridge = true →
      stopCount (EegActions.stopEEGVisualization (EegActions.stopEEGVisualization app)).calls =
        stopCount app.calls + 1) ∧
    (∀ (app : App) (id : Nat), app.eegPlot.active = true → TimersAllocated app →
      app.eegPlot.audio.stageTimerId = some id →
      (EegActions.stopEEGVisualization app).eegPlot.audio.stageTimerId = none ∧
      ∀ t ∈ (EegActions.stopEEGVisualization app).timers, t.id ≠ id) := by
  refine ⟨stopEEGVisualization_inactive, stopEEGVisualization_idem, ?_, ?_⟩
  · intro app hactive hb
    rw [stopEEGVisualization_idem, stopEEGVisualization_calls app hactive, hb, if_pos rfl,
      stopCount_append]
    rfl
  · intro app id hactive halloc hid
    have hpos := halloc.2 id hid
    have h0 : app.eegPlot.audio.stageTimerId ≠ some 0 := by
      rw [hid]
      intro h
      cases h
      omega
    obtain ⟨_, _, f3, f4, _, _⟩ := stopEEGVisualization_fields app hactive h0
    refine ⟨f3, fun t ht => ?_⟩
    rw [f4, hid] at ht
    rcases List.mem_append.mp ht with h | h
    · have := (List.mem_filter.mp h).2
      simpa using this
    · rw [List.mem_singleton.mp h]
      simp only
      omega

/-- Two stops of the recording in stage 1: one `'stop'` message, the stage timer
(identifier 1) gone after the first. -/
theorem stop_idempotent_witness :
    stopCount (EegActions.stopEEGVisualization
      (EegActions.stopEEGVisualization stage1App)).calls = stopCount stage1App.calls + 1 ∧
    (EegActions.stopEEGVisualization stage1App).eegPlot.audio.stageTimerId = none ∧
    (∀ t ∈ (EegActions.stopEEGVisualization stage1App).timers, t.id ≠ 1) ∧
    EegActions.stopEEGVisualization (EegActions.stopEEGVisualization stage1App) =
      EegActions.stopEEGVisualization stage1App :=
  ⟨stop_idempotent.2.2.1 stage1App (by decide) (by decide),
    (stop_idempotent.2.2.2 stage1App 1 (by decide)
      ⟨by decide, by
        intro id h
        have e : stage1App.eegPlot.audio.stageTimerId = some 1 := by decide
        rw [e] at h
        cases h
        decide⟩ (by decide)).1,
    (stop_idempotent.2.2.2 stage1App 1 (by decide)
      ⟨by decide, by
        intro id h
        have e : stage1App.eegPlot.audio.stageTimerId = some 1 := by decide
        rw [e] at h
        cases h
        decide⟩ (by decide)).2,
    stop_idempotent.2.1 stage1App⟩

/-! ## The automatic evaluation -/

/-- C18 (the automatic evaluation fires exactly once): with the bridge available and
outside a shutdown, `progressToNextStage` called with `audio.currentStage = 3` appends to
the call log one `'evaluate'` message with `diagnosis_stage = 3`, first of all it appends,
and nothing else it appends is an `'evaluate'` message; with the stage file of stage 4
defined, the `'stage'` message for stage 4 comes right after it.  `progressToNextStage`
from any other stage, every `EegActions.updateEEGData` call and every flush append no
`'evaluate'` message. -/
theorem auto_evaluation_fires_once :
    (∀ app : App, app.bridge = true → app.eegPlot.shuttingDown = false →
      app.eegPlot.audio.currentStage = 3 →
      ∃ suffix, (EegActions.progressToNextStage app).calls =
          app.calls ++ BackendCall.sensor SensorAction.evaluate app.diagnosisId 3 :: suffix ∧
        (∀ c ∈ suffix, c.isEvaluate = false) ∧
        ∀ audioFile, app.eegPlot.audio.stageFiles.lookup 4 = some audioFile →
          audioFile ≠ "" →
          ∃ rest, suffix = BackendCall.sensor SensorAction.stage app.diagnosisId 4 :: rest) ∧
    (∀ app : App, app.eegPlot.audio.currentStage ≠ 3 →
      ∃ suffix, (EegActions.progressToNextStage app).calls = app.calls ++ suffix ∧
        ∀ c ∈ suffix, c.isEvaluate = false) ∧
    (∀ (data : Option Payload) (now : Nat) (app : App),
      ∃ suffix, (EegActions.updateEEGData data now app).1.calls = app.calls ++ suffix ∧
        ∀ c ∈ suffix, c.isEvaluate = false) ∧
    (∀ app : App, app.flush.calls = app.calls) := by
  refine ⟨?_, ?_, ?_, fun _ => rfl⟩
  · intro app hb hdown h3
    obtain ⟨suffix, e, p⟩ := progressToNextStage_three (fun c => c.isEvaluate = false)
      (fun _ _ => rfl) (fun _ _ => rfl) (fun _ _ => rfl) app hb hdown h3
    have e' : (EegActions.progressToNextStage app).calls =
        app.calls ++ BackendCall.sensor SensorAction.evaluate app.diagnosisId 3 :: suffix := by
      rw [e]
      simp [App.send]
    refine ⟨suffix, e', p, fun audioFile hfile hne => ?_⟩
    obtain ⟨rest, er⟩ := progressToNextStage_three_stage app hb hdown h3 audioFile hfile hne
    refine ⟨rest, ?_⟩
    rw [e'] at er
    have := List.append_cancel_left (by simpa using er :
      app.calls ++ BackendCall.sensor SensorAction.evaluate app.diagnosisId 3 :: suffix =
        app.calls ++ BackendCall.sensor SensorAction.evaluate app.diagnosisId 3 ::
          BackendCall.sensor SensorAction.stage app.diagnosisId 4 :: rest)
    exact List.tail_eq_of_cons_eq this
  · intro app h3
    exact progressToNextStage_not_three (fun c => c.isEvaluate = false)
      (fun _ _ => rfl) (fun _ _ => rfl) (fun _ _ => rfl) app h3
  · intro data now app
    exact actions_updateEEGData_appends (fun c => c.isEvaluate = false)
      (fun _ _ => rfl) (fun _ _ => rfl) (fun _ _ => rfl) (fun _ _ => rfl) data now app

/-- The default protocol: when the stage-3 timer fires, the log grows by the `'evaluate'`
message for stage 3, the `'stage'` message for stage 4 and the play of `bp4.ogg`. -/
theorem auto_evaluation_fires_once_witness :
    (∃ suffix, (EegActions.progressToNextStage stage3App).calls =
        stage3App.calls ++ BackendCall.sensor SensorAction.evaluate stage3App.diagnosisId 3 ::
          suffix ∧
      (∀ c ∈ suffix, c.isEvaluate = false) ∧
      ∀ audioFile, stage3App.eegPlot.audio.stageFiles.lookup 4 = some audioFile →
        audioFile ≠ "" →
        ∃ rest, suffix = BackendCall.sensor SensorAction.stage stage3App.diagnosisId 4 :: rest) ∧
    (fireTimer 3 stage3App).calls =
      stage3App.calls ++
        [BackendCall.sensor SensorAction.evaluate 0 3, BackendCall.sensor SensorAction.stage 0 4,
          BackendCall.music "play" (some "bp4.ogg")] :=
  ⟨auto_evaluation_fires_once.1 stage3App (by decide) (by decide) (by decide), by decide⟩

/-! ## The stage timer without the bridge -/

/-- A remark on a state the running program does not reach (`mock.js` installs the bridge
object at load): were `window.bellaBridge.calls` missing when the timer of stage 1 fires,
`playTrack` would throw inside the `try` of `playAudioForStage`, `audio.currentStage`
would stay 1 while the diagnosis stage becomes 2, and no timer would be scheduled; and
`startEEGVisualization` without the object schedules no timer either.  The guards
`window.bellaBridge?.calls` are what this state is about. -/
theorem stage_timer_without_bridge :
    ({ stage1App with bridge := false } : App).eegPlot.audio.currentStage = 1 ∧
    ({ stage1App with bridge := false } : App).timers =
      [{ id := 1, delay := 10000, callback := TimerCallback.stageExpired 1 }] ∧
    (fireTimer 1 { stage1App with bridge := false }).eegPlot.audio.currentStage = 1 ∧
    (fireTimer 1 { stage1App with bridge := false }).diagnosis.currentDiagnosisStage = 2 ∧
    (fireTimer 1 { stage1App with bridge := false }).timers = [] ∧
    (fireTimer 1 { stage1App with bridge := false }).eegPlot.audio.stageTimerId = none ∧
    (fireTimer 1 { stage1App with bridge := false }).eegPlot.active = true ∧
    (EegActions.startEEGVisualization { diagnosis_id := none, diagnosis_stage := none }
      (initialApp false)).timers = [] :=
  ⟨by decide, by decide, by decide, by decide, by decide, by decide, by decide, by decide⟩

/-! ## The stage timer with the bridge -/

/-- With the bridge, `playTrack` does not throw, and it touches only the music store and
the log. -/
theorem playTrack_bridge (trackId : String) (app : App) (hb : app.bridge = true) :
    (MusicStore.playTrack trackId app).2 = false ∧
    (MusicStore.playTrack trackId app).1.eegPlot = app.eegPlot ∧
    (MusicStore.playTrack trackId app).1.diagnosis = app.diagnosis ∧
    (MusicStore.playTrack trackId app).1.timers = app.timers ∧
    (MusicStore.playTrack trackId app).1.timerCount = app.timerCount := by
  unfold MusicStore.playTrack
  simp only
  split
  · simp
  · simp [hb, App.send]

/-- With the bridge, `playAudioForStage(stage)` for a stage that has a file and a duration
stores the stage and schedules one timer of that duration, in place of the stage timer
that was recorded. -/
theorem playAudioForStage_bridge (stage : Nat) (app : App) (hb : app.bridge = true)
    (hen : app.eegPlot.audio.enabled = true) (hdown : app.eegPlot.shuttingDown = false)
    (audioFile : String) (hfile : app.eegPlot.audio.stageFiles.lookup stage = some audioFile)
    (hne : audioFile ≠ "") (d : Nat)
    (hd : app.eegPlot.audio.stageDurations.lookup stage = some d) (hd0 : d ≠ 0) :
    (EegActions.playAudioForStage stage app).eegPlot.audio.currentStage = stage ∧
    (EegActions.playAudioForStage stage app).eegPlot.audio.stageTimerId =
      some (app.timerCount + 1) ∧
    (EegActions.playAudioForStage stage app).timers =
      app.clearStageTimer.timers ++
        [{ id := app.timerCount + 1, delay := d, callback := TimerCallback.stageExpired stage }] ∧
    (EegActions.playAudioForStage stage app).diagnosis = app.diagnosis := by
  obtain ⟨_, _, _, _, _, _, c7, c8, _, c10, c11⟩ := clearStageTimer_fields app
  have hp := playTrack_bridge (trackIdOf audioFile) app.clearStageTimer (by rw [c10]; exact hb)
  unfold EegActions.playAudioForStage
  simp only [hen, hdown, hfile, hne, Bool.not_true, Bool.false_eq_true, if_false]
  generalize app.clearStageTimer = A at c7 c8 c10 c11 hp ⊢
  generalize MusicStore.playTrack (trackIdOf audioFile) A = played at hp ⊢
  obtain ⟨p1, p2⟩ := played
  simp only at hp
  obtain ⟨h2, he, hdg, ht, hc⟩ := hp
  subst h2
  have hd1 : p1.eegPlot.audio.stageDurations.lookup stage = some d := by
    rw [he, c7]
    exact hd
  simp only [Bool.false_eq_true, if_false, hd1, hd0, App.setTimeout, ht, hc, c11, hdg, c8]
  exact ⟨trivial, trivial, trivial, trivial⟩

/-- The stage `playAudioForStage(stage)` leaves is the stage it was called with or the
stage that was current. -/
theorem playAudioForStage_stage (stage : Nat) (app : App) :
    (EegActions.playAudioForStage stage app).eegPlot.audio.currentStage =
        app.eegPlot.audio.currentStage ∨
      (EegActions.playAudioForStage stage app).eegPlot.audio.currentStage = stage := by
  have c4 := (clearStageTimer_fields app).2.2.2.1
  unfold EegActions.playAudioForStage
  split
  · exact Or.inl rfl
  · split
    · exact Or.inl rfl
    · split
      · exact Or.inl rfl
      · split
        · exact Or.inl rfl
        · generalize app.clearStageTimer = A at c4 ⊢
          have hm : ∀ trackId, (MusicStore.playTrack trackId A).1.eegPlot = A.eegPlot := by
            intro trackId
            unfold MusicStore.playTrack
            simp only
            split
            · rfl
            · split <;> rfl
          simp only
          split
          · left
            rw [hm, c4]
          · right
            split
            · rfl
            · split <;> rfl

/-- The fields `updateDiagnosisStage(stage)` leaves for a stage of at least 1. -/
theorem updateDiagnosisStage_fields (stage : Nat) (app : App) (h1 : 1 ≤ stage) :
    (DiagnosisStore.updateDiagnosisStage stage app).1.diagnosis.currentDiagnosisStage = stage ∧
    (DiagnosisStore.updateDiagnosisStage stage app).1.eegPlot = app.eegPlot ∧
    (DiagnosisStore.updateDiagnosisStage stage app).1.timers = app.timers ∧
    (DiagnosisStore.updateDiagnosisStage stage app).1.timerCount = app.timerCount ∧
    (DiagnosisStore.updateDiagnosisStage stage app).1.bridge = app.bridge := by
  unfold DiagnosisStore.updateDiagnosisStage
  rw [if_neg (by omega)]
  simp only
  split <;> simp [App.send]

/-- Stage linearity with the bridge: with audio enabled and outside a shutdown, when the
next stage has a file and a duration, `progressToNextStage` moves `audio.currentStage` and
the diagnosis stage to the next stage and schedules one timer of the duration of that
stage, in place of the stage timer that was recorded. -/
theorem progressToNextStage_bridge (app : App) (hb : app.bridge = true)
    (hen : app.eegPlot.audio.enabled = true) (hdown : app.eegPlot.shuttingDown = false)
    (audioFile : String)
    (hfile : app.eegPlot.audio.stageFiles.lookup (app.eegPlot.audio.currentStage + 1) =
      some audioFile)
    (hne : audioFile ≠ "") (d : Nat)
    (hd : app.eegPlot.audio.stageDurations.lookup (app.eegPlot.audio.currentStage + 1) = some d)
    (hd0 : d ≠ 0) :
    (EegActions.progressToNextStage app).eegPlot.audio.currentStage =
      app.eegPlot.audio.currentStage + 1 ∧
    (EegActions.progressToNextStage app).diagnosis.currentDiagnosisStage =
      app.eegPlot.audio.currentStage + 1 ∧
    (EegActions.progressToNextStage app).eegPlot.audio.stageTimerId =
      some (app.timerCount + 1) ∧
    (EegActions.progressToNextStage app).timers =
      app.clearStageTimer.timers ++
        [{ id := app.timerCount + 1, delay := d,
           callback := TimerCallback.stageExpired (app.eegPlot.audio.currentStage + 1) }] := by
  have key : ∀ app1 : App, app1.eegPlot.audio.stageFiles = app.eegPlot.audio.stageFiles →
      app1.bridge = true →
      (match app1.eegPlot.audio.stageFiles.lookup (app.eegPlot.audio.currentStage + 1) with
        | none => EegActions.stopEEGVisualization app1
        | some audioFile =>
          if audioFile = "" then EegActions.stopEEGVisualization app1
          else
            EegActions.playAudioForStage (app.eegPlot.audio.currentStage + 1)
              (DiagnosisStore.updateDiagnosisStage (app.eegPlot.audio.currentStage + 1)
                (if app1.bridge then
                  app1.send (BackendCall.sensor SensorAction.stage app1.diagnosisId
                    (app.eegPlot.audio.currentStage + 1))
                else app1)).1) =
        EegActions.playAudioForStage (app.eegPlot.audio.currentStage + 1)
          (DiagnosisStore.updateDiagnosisStage (app.eegPlot.audio.currentStage + 1)
            (app1.send (BackendCall.sensor SensorAction.stage app1.diagnosisId
              (app.eegPlot.audio.currentStage + 1)))).1 := by
    intro app1 h1 hb1
    rw [h1]
    simp [hfile, hne, hb1]
  have e : ∃ app1 : App, app1.eegPlot = app.eegPlot ∧ app1.timers = app.timers ∧
      app1.timerCount = app.timerCount ∧ app1.bridge = true ∧
      EegActions.progressToNextStage app =
        EegActions.playAudioForStage (app.eegPlot.audio.currentStage + 1)
          (DiagnosisStore.updateDiagnosisStage (app.eegPlot.audio.currentStage + 1)
            (app1.send (BackendCall.sensor SensorAction.stage app1.diagnosisId
              (app.eegPlot.audio.currentStage + 1)))).1 := by
    by_cases h3 : app.eegPlot.audio.currentStage = 3 ∧ app.eegPlot.audio.currentStage + 1 = 4
    · refine ⟨app.send (BackendCall.sensor SensorAction.evaluate app.diagnosisId 3),
        rfl, rfl, rfl, hb, ?_⟩
      unfold EegActions.progressToNextStage
      rw [if_neg (by simp [hdown])]
      simp only [h3, and_self, if_true, hb]
      have := key (app.send (BackendCall.sensor SensorAction.evaluate app.diagnosisId 3)) rfl hb
      simp only [h3.1] at this
      exact this
    · refine ⟨app, rfl, rfl, rfl, hb, ?_⟩
      unfold EegActions.progressToNextStage
      rw [if_neg (by simp [hdown])]
      simp only [h3, if_false]
      exact key app rfl hb
  obtain ⟨app1, he, ht, hc, hb1, e⟩ := e
  obtain ⟨u1, u2, u3, u4, u5⟩ := updateDiagnosisStage_fields
    (app.eegPlot.audio.currentStage + 1)
    (app1.send (BackendCall.sensor SensorAction.stage app1.diagnosisId
      (app.eegPlot.audio.currentStage + 1))) (by omega)
  have hs : (app1.send (BackendCall.sensor SensorAction.stage app1.diagnosisId
      (app.eegPlot.audio.currentStage + 1))).eegPlot = app.eegPlot := he
  rw [e]
  generalize (DiagnosisStore.updateDiagnosisStage (app.eegPlot.audio.currentStage + 1)
    (app1.send (BackendCall.sensor SensorAction.stage app1.diagnosisId
      (app.eegPlot.audio.currentStage + 1)))).1 = B at u1 u2 u3 u4 u5 ⊢
  rw [hs] at u2
  have u3' : B.timers = app.timers := by rw [u3]; exact ht
  have u4' : B.timerCount = app.timerCount := by rw [u4]; exact hc
  have u5' : B.bridge = true := by rw [u5]; exact hb1
  obtain ⟨q1, q2, q3, q4⟩ := playAudioForStage_bridge (app.eegPlot.audio.currentStage + 1) B
    u5' (by rw [u2]; exact hen) (by rw [u2]; exact hdown) audioFile (by rw [u2]; exact hfile)
    hne d (by rw [u2]; exact hd) hd0
  have hclear : B.clearStageTimer.timers = app.clearStageTimer.timers := by
    unfold App.clearStageTimer
    rw [u2]
    cases app.eegPlot.audio.stageTimerId with
    | none => exact u3'
    | some id =>
      simp only
      split
      · exact u3'
      · simp only [App.clearTimeout, u3']
  exact ⟨q1, by rw [q4]; exact u1, by rw [q2, u4'], by rw [q3, hclear, u4']⟩

/-- No skipped stage: `progressToNextStage` leaves `audio.currentStage` where it was or
one stage further. -/
theorem progressToNextStage_stage (app : App) :
    (EegActions.progressToNextStage app).eegPlot.audio.currentStage =
        app.eegPlot.audio.currentStage ∨
      (EegActions.progressToNextStage app).eegPlot.audio.currentStage =
        app.eegPlot.audio.currentStage + 1 := by
  have hstop : ∀ app1 : App,
      (EegActions.stopEEGVisualization app1).eegPlot.audio.currentStage =
        app1.eegPlot.audio.currentStage := by
    intro app1
    by_cases hactive : app1.eegPlot.active = true
    · have hc := clearStageTimer_fields
        { app1 with eegPlot := { app1.eegPlot with active := false, shuttingDown := true } }
      rw [stopEEGVisualization_eq app1 hactive]
      generalize App.clearStageTimer
        { app1 with eegPlot := { app1.eegPlot with active := false, shuttingDown := true } } = A
        at hc ⊢
      have c4 := hc.2.2.2.1
      simp only at c4
      have m2 := (stopMusic_fields
        (if A.bridge then
          A.send (BackendCall.sensor SensorAction.stop A.diagnosisId
            A.diagnosis.currentDiagnosisStage)
        else A)).2.1
      simp only [App.setTimeout, m2]
      split <;> simpa [App.send] using c4
    · rw [stopEEGVisualization_inactive app1 (by simpa using hactive)]
  have key : ∀ (app1 : App) (cur : Nat), app1.eegPlot = app.eegPlot →
      app.eegPlot.audio.currentStage = cur →
      (match app1.eegPlot.audio.stageFiles.lookup (cur + 1) with
        | none => EegActions.stopEEGVisualization app1
        | some audioFile =>
          if audioFile = "" then EegActions.stopEEGVisualization app1
          else
            EegActions.playAudioForStage (cur + 1)
              (DiagnosisStore.updateDiagnosisStage (cur + 1)
                (if app1.bridge then
                  app1.send (BackendCall.sensor SensorAction.stage app1.diagnosisId (cur + 1))
                else app1)).1).eegPlot.audio.currentStage = cur ∨
      (match app1.eegPlot.audio.stageFiles.lookup (cur + 1) with
        | none => EegActions.stopEEGVisualization app1
        | some audioFile =>
          if audioFile = "" then EegActions.stopEEGVisualization app1
          else
            EegActions.playAudioForStage (cur + 1)
              (DiagnosisStore.updateDiagnosisStage (cur + 1)
                (if app1.bridge then
                  app1.send (BackendCall.sensor SensorAction.stage app1.diagnosisId (cur + 1))
                else app1)).1).eegPlot.audio.currentStage = cur + 1 := by
    intro app1 cur he hcur
    have hu : (DiagnosisStore.updateDiagnosisStage (cur + 1)
        (if app1.bridge then
          app1.send (BackendCall.sensor SensorAction.stage app1.diagnosisId (cur + 1))
        else app1)).1.eegPlot = app.eegPlot := by
      rw [(updateDiagnosisStage_fields _ _ (by omega)).2.1]
      split
      · exact he
      · exact he
    split
    · left
      rw [hstop, he, hcur]
    · split
      · left
        rw [hstop, he, hcur]
      · rcases playAudioForStage_stage (cur + 1)
          (DiagnosisStore.updateDiagnosisStage (cur + 1)
            (if app1.bridge then
              app1.send (BackendCall.sensor SensorAction.stage app1.diagnosisId (cur + 1))
            else app1)).1 with h | h
        · left
          rw [h, hu, hcur]
        · right
          exact h
  unfold EegActions.progressToNextStage
  by_cases hdown : app.eegPlot.shuttingDown = true
  · rw [if_pos hdown]
    exact Or.inl rfl
  · rw [if_neg hdown]
    by_cases h3 : app.eegPlot.audio.currentStage = 3 ∧ app.eegPlot.audio.currentStage + 1 = 4
    · cases hb : app.bridge
      · simp only [h3, and_self, if_true, hb, Bool.false_eq_true, if_false]
        have := key app 3 rfl h3.1
        simp only [hb, Bool.false_eq_true, if_false] at this
        exact this
      · simp only [h3, and_self, if_true, hb]
        exact key (app.send (BackendCall.sensor SensorAction.evaluate app.diagnosisId 3)) 3
          rfl h3.1
    · simp only [h3, if_false]
      exact key app _ rfl rfl

/-! ## The session actions leave the buffers alone -/

theorem playTrack_store (trackId : String) (app : App) :
    (MusicStore.playTrack trackId app).1.store = app.store := by
  unfold MusicStore.playTrack
  simp only
  split
  · rfl
  · split <;> rfl

theorem updateDiagnosisStage_store (stage : Nat) (app : App) :
    (DiagnosisStore.updateDiagnosisStage stage app).1.store = app.store := by
  unfold DiagnosisStore.updateDiagnosisStage
  split
  · rfl
  · simp only
    split <;> rfl

theorem playAudioForStage_store (stage : Nat) (app : App) :
    (EegActions.playAudioForStage stage app).store = app.store := by
  have hplay : ∀ id, (MusicStore.playTrack id app.clearStageTimer).1.store = app.store := by
    intro id
    rw [playTrack_store, (clearStageTimer_fields app).1]
  unfold EegActions.playAudioForStage
  split
  · rfl
  · split
    · rfl
    · split
      · rfl
      · split
        · rfl
        · simp only
          split
          · exact hplay _
          · split
            · exact hplay _
            · split
              · exact hplay _
              · exact hplay _

/-- What every stop leaves as it was: the buffers, the diagnosis store, the stage and
the bridge. -/
theorem stopEEGVisualization_frame (app : App) :
    (EegActions.stopEEGVisualization app).store = app.store ∧
    (EegActions.stopEEGVisualization app).diagnosis = app.diagnosis ∧
    (EegActions.stopEEGVisualization app).eegPlot.audio.currentStage =
      app.eegPlot.audio.currentStage ∧
    (EegActions.stopEEGVisualization app).bridge = app.bridge := by
  by_cases hactive : app.eegPlot.active = true
  · have hc := clearStageTimer_fields
      { app with eegPlot := { app.eegPlot with active := false, shuttingDown := true } }
    rw [stopEEGVisualization_eq app hactive]
    generalize App.clearStageTimer
      { app with eegPlot := { app.eegPlot with active := false, shuttingDown := true } } = A
      at hc ⊢
    obtain ⟨c1, _, _, c4, _, _, _, c8, _, c10, _⟩ := hc
    simp only at c1 c4 c8 c10
    obtain ⟨m1, m2, m3, m4, _, _⟩ := stopMusic_fields
      (if A.bridge then
        A.send (BackendCall.sensor SensorAction.stop A.diagnosisId
          A.diagnosis.currentDiagnosisStage)
      else A)
    simp only [App.setTimeout, m1, m2, m3, m4]
    split <;> simp [App.send, c1, c4, c8, c10]
  · rw [stopEEGVisualization_inactive app (by simpa using hactive)]
    exact ⟨rfl, rfl, rfl, rfl⟩

theorem progressToNextStage_store (app : App) :
    (EegActions.progressToNextStage app).store = app.store := by
  have key : ∀ (app1 : App) (nextStage : Nat), app1.store = app.store →
      (match app1.eegPlot.audio.stageFiles.lookup nextStage with
        | none => EegActions.stopEEGVisualization app1
        | some audioFile =>
          if audioFile = "" then EegActions.stopEEGVisualization app1
          else
            EegActions.playAudioForStage nextStage
              (DiagnosisStore.updateDiagnosisStage nextStage
                (if app1.bridge then
                  app1.send (BackendCall.sensor SensorAction.stage app1.diagnosisId nextStage)
                else app1)).1).store = app.store := by
    intro app1 nextStage h1
    split
    · rw [(stopEEGVisualization_frame app1).1, h1]
    · split
      · rw [(stopEEGVisualization_frame app1).1, h1]
      · rw [playAudioForStage_store, updateDiagnosisStage_store]
        split
        · exact h1
        · exact h1
  unfold EegActions.progressToNextStage
  by_cases hdown : app.eegPlot.shuttingDown = true
  · rw [if_pos hdown]
  · rw [if_neg hdown]
    simp only
    exact key _ _ (by split <;> [split <;> rfl; rfl])

theorem timerCallback_run_store (callback : TimerCallback) (app : App) :
    (callback.run app).store = app.store := by
  cases callback with
  | stageExpired stage =>
    by_cases h4 : stage = 4
    · simp only [TimerCallback.run, h4, if_true]
      exact (stopEEGVisualization_frame _).1
    · simp only [TimerCallback.run, h4, if_false]
      exact progressToNextStage_store _
  | graceElapsed => rfl

theorem fireTimer_store (id : Nat) (app : App) : (fireTimer id app).store = app.store := by
  unfold fireTimer
  split
  · rfl
  · exact timerCallback_run_store _ _

/-- A start from a session that is not active leaves the store `clearData` makes. -/
theorem startEEGVisualization_store (options : Options) (app : App)
    (hactive : app.eegPlot.active = false) :
    (EegActions.startEEGVisualization options app).store = clearData app.store := by
  have h1 : (if options.diagnosis_stage.getD 0 ≠ 0 then
        (DiagnosisStore.updateDiagnosisStage (options.diagnosis_stage.getD 0)
          { app with
            eegPlot := { app.eegPlot with active := true }
            store := clearData app.store }).1
      else
        { app with
          eegPlot := { app.eegPlot with active := true }
          store := clearData app.store }).store = clearData app.store := by
    split
    · rw [updateDiagnosisStage_store]
    · rfl
  have tail : ∀ (app2 : App) (diagnosis_id : Nat),
      (EegActions.playAudioForStage app2.diagnosis.currentDiagnosisStage
        (if app2.bridge then
          App.send
            { app2 with
              eegPlot :=
                { app2.eegPlot with
                  audio :=
                    { app2.eegPlot.audio with
                      currentStage := app2.diagnosis.currentDiagnosisStage } } }
            (BackendCall.sensor SensorAction.start diagnosis_id
              app2.diagnosis.currentDiagnosisStage)
        else
          { app2 with
            eegPlot :=
              { app2.eegPlot with
                audio :=
                  { app2.eegPlot.audio with
                    currentStage := app2.diagnosis.currentDiagnosisStage } } })).store =
        app2.store := by
    intro app2 diagnosis_id
    rw [playAudioForStage_store]
    split <;> rfl
  unfold EegActions.startEEGVisualization
  rw [if_neg (by simp [hactive])]
  exact (tail _ _).trans h1

/-! ## The shutdown window -/

/-- C21 (shutdown suppresses ingestion): for every payload, `EegActions.updateEEGData`
called while `shuttingDown` is true returns false and leaves the store (pending queues,
ring buffers, write indexes, `sensorData`), `eegPlot` (so the session is not started),
the diagnosis store and the timers as they were; with the bridge it appends one `'stop'`
message to the log, without it nothing.  So whatever timer fires next, the flush after it
works on the store as it was before the call. -/
theorem shutdown_suppresses_ingestion (data : Option Payload) (now : Nat) (app : App)
    (hdown : app.eegPlot.shuttingDown = true) :
    (EegActions.updateEEGData data now app).2 = false ∧
    (EegActions.updateEEGData data now app).1.store = app.store ∧
    (EegActions.updateEEGData data now app).1.eegPlot = app.eegPlot ∧
    (EegActions.updateEEGData data now app).1.diagnosis = app.diagnosis ∧
    (EegActions.updateEEGData data now app).1.timers = app.timers ∧
    (EegActions.updateEEGData data now app).1.calls =
      app.calls ++
        (if app.bridge then
          [BackendCall.sensor SensorAction.stop app.diagnosisId
            app.diagnosis.currentDiagnosisStage]
        else []) ∧
    ∀ id, (fireTimer id (EegActions.updateEEGData data now app).1).flush.store =
      (processIncomingBuffer app.store).1 := by
  have hflush : ∀ (id : Nat) (a : App), a.store = app.store →
      (fireTimer id a).flush.store = (processIncomingBuffer app.store).1 := by
    intro id a h
    show (processIncomingBuffer (fireTimer id a).store).1 = _
    rw [fireTimer_store, h]
  unfold EegActions.updateEEGData
  rw [if_pos hdown]
  cases app.bridge
  · exact ⟨rfl, rfl, rfl, rfl, rfl, by simp, fun id => hflush id app rfl⟩
  · exact ⟨rfl, rfl, rfl, rfl, rfl, rfl, fun id => hflush id _ rfl⟩

/-- The test payload arriving inside the grace window after a stop of the recording in
stage 1: it is refused, and the flush after the grace timer (identifier 2) works on the
store the stop left. -/
theorem shutdown_suppresses_ingestion_witness :
    shutdownApp.eegPlot.shuttingDown = true ∧
    (EegActions.updateEEGData (some testPayload) 0 shutdownApp).2 = false ∧
    (EegActions.updateEEGData (some testPayload) 0 shutdownApp).1.store = shutdownApp.store ∧
    (fireTimer 2 (EegActions.updateEEGData (some testPayload) 0 shutdownApp).1).flush.store =
      (processIncomingBuffer shutdownApp.store).1 :=
  ⟨by decide,
    (shutdown_suppresses_ingestion (some testPayload) 0 shutdownApp (by decide)).1,
    (shutdown_suppresses_ingestion (some testPayload) 0 shutdownApp (by decide)).2.1,
    (shutdown_suppresses_ingestion (some testPayload) 0 shutdownApp (by decide)).2.2.2.2.2.2 2⟩

/-- C22 (shutdown suppresses stage progression): while `shuttingDown` is true,
`progressToNextStage` and `playAudioForStage` return the application unchanged (stage,
diagnosis stage, call log and timers included), so a stage timer of a stage below 4 that
fires in the window only leaves the timer table. -/
theorem shutdown_suppresses_progression (app : App)
    (hdown : app.eegPlot.shuttingDown = true) :
    EegActions.progressToNextStage app = app ∧
    (∀ stage, EegActions.playAudioForStage stage app = app) ∧
    ∀ (id stage : Nat) (t : Timer), app.timers.find? (fun t => t.id = id) = some t →
      t.callback = TimerCallback.stageExpired stage → stage ≠ 4 →
      fireTimer id app = app.clearTimeout id := by
  refine ⟨?_, ?_, ?_⟩
  · unfold EegActions.progressToNextStage
    rw [if_pos hdown]
  · intro stage
    by_cases hen : app.eegPlot.audio.enabled = true <;>
      simp [EegActions.playAudioForStage, hen, hdown]
  · intro id stage t hfind hcb h4
    rw [fireTimer_eq id app t hfind, hcb]
    simp only [TimerCallback.run, h4, if_false]
    unfold EegActions.progressToNextStage
    rw [if_pos (show (app.clearTimeout id).eegPlot.shuttingDown = true from hdown)]

/-- The recording stopped in stage 1: stage progression and audio do nothing inside the
grace window. -/
theorem shutdown_suppresses_progression_witness :
    shutdownApp.eegPlot.shuttingDown = true ∧
    EegActions.progressToNextStage shutdownApp = shutdownApp ∧
    EegActions.playAudioForStage 2 shutdownApp = shutdownApp :=
  ⟨by decide, (shutdown_suppresses_progression shutdownApp (by decide)).1,
    (shutdown_suppresses_progression shutdownApp (by decide)).2.1 2⟩

/-! ## Starting a session -/

/-- C24 (start while already active is a no-op): `startEEGVisualization` called when
`eegPlot.active` is true returns the application unchanged: buffers, pending queues,
stage, timers and call log. -/
theorem start_while_active_noop (options : Options) (app : App)
    (hactive : app.eegPlot.active = true) :
    EegActions.startEEGVisualization options app = app := by
  unfold EegActions.startEEGVisualization
  rw [if_pos hactive]

/-- The recording in stage 1 is active: a second start, with or without options, changes
nothing. -/
theorem start_while_active_noop_witness :
    stage1App.eegPlot.active = true ∧
    EegActions.startEEGVisualization { diagnosis_id := none, diagnosis_stage := none }
      stage1App = stage1App ∧
    EegActions.startEEGVisualization { diagnosis_id := some 7, diagnosis_stage := some 2 }
      stage1App = stage1App :=
  ⟨by decide, start_while_active_noop _ stage1App (by decide),
    start_while_active_noop _ stage1App (by decide)⟩

/-! ## The `'stage'` messages of a transition -/

theorem updateDiagnosisStage_calls (stage : Nat) (app : App) (h1 : 1 ≤ stage) :
    (DiagnosisStore.updateDiagnosisStage stage app).1.calls =
      app.calls ++
        (if app.diagnosisId ≠ 0 ∧ app.bridge = true then
          [BackendCall.sensor SensorAction.stage app.diagnosisId stage]
        else []) := by
  unfold DiagnosisStore.updateDiagnosisStage
  rw [if_neg (by omega)]
  by_cases hid : app.diagnosisId = 0 <;> cases hbr : app.bridge <;>
    simp_all [App.send, App.diagnosisId]

/-- Outside a shutdown, with the bridge and a file for the next stage,
`progressToNextStage` is: the evaluation message when leaving stage 3, the `'stage'`
message, `updateDiagnosisStage` and `playAudioForStage`. -/
theorem progressToNextStage_play (app : App) (hb : app.bridge = true)
    (hdown : app.eegPlot.shuttingDown = false) (audioFile : String)
    (hfile : app.eegPlot.audio.stageFiles.lookup (app.eegPlot.audio.currentStage + 1) =
      some audioFile)
    (hne : audioFile ≠ "") :
    ∃ app1 : App,
      (app1 = app ∨
        app1 = app.send (BackendCall.sensor SensorAction.evaluate app.diagnosisId 3)) ∧
      EegActions.progressToNextStage app =
        EegActions.playAudioForStage (app.eegPlot.audio.currentStage + 1)
          (DiagnosisStore.updateDiagnosisStage (app.eegPlot.audio.currentStage + 1)
            (app1.send (BackendCall.sensor SensorAction.stage app1.diagnosisId
              (app.eegPlot.audio.currentStage + 1)))).1 := by
  have key : ∀ app1 : App, app1.eegPlot.audio.stageFiles = app.eegPlot.audio.stageFiles →
      app1.bridge = true →
      (match app1.eegPlot.audio.stageFiles.lookup (app.eegPlot.audio.currentStage + 1) with
        | none => EegActions.stopEEGVisualization app1
        | some audioFile =>
          if audioFile = "" then EegActions.stopEEGVisualization app1
          else
            EegActions.playAudioForStage (app.eegPlot.audio.currentStage + 1)
              (DiagnosisStore.updateDiagnosisStage (app.eegPlot.audio.currentStage + 1)
                (if app1.bridge then
                  app1.send (BackendCall.sensor SensorAction.stage app1.diagnosisId
                    (app.eegPlot.audio.currentStage + 1))
                else app1)).1) =
        EegActions.playAudioForStage (app.eegPlot.audio.currentStage + 1)
          (DiagnosisStore.updateDiagnosisStage (app.eegPlot.audio.currentStage + 1)
            (app1.send (BackendCall.sensor SensorAction.stage app1.diagnosisId
              (app.eegPlot.audio.currentStage + 1)))).1 := by
    intro app1 h1 hb1
    rw [h1]
    simp [hfile, hne, hb1]
  by_cases h3 : app.eegPlot.audio.currentStage = 3 ∧ app.eegPlot.audio.currentStage + 1 = 4
  · refine ⟨app.send (BackendCall.sensor SensorAction.evaluate app.diagnosisId 3),
      Or.inr rfl, ?_⟩
    unfold EegActions.progressToNextStage
    rw [if_neg (by simp [hdown])]
    simp only [h3, and_self, if_true, hb]
    have := key (app.send (BackendCall.sensor SensorAction.evaluate app.diagnosisId 3)) rfl hb
    simp only [h3.1] at this
    exact this
  · refine ⟨app, Or.inl rfl, ?_⟩
    unfold EegActions.progressToNextStage
    rw [if_neg (by simp [hdown])]
    simp only [h3, if_false]
    exact key app rfl hb

/-- C29 (the `'stage'` messages of a transition): with the bridge available and outside a
shutdown, when the next stage has a file, the calls one `progressToNextStage` appends to
the log hold exactly one `'stage'` message, carrying the next stage, when no diagnosis
with an id is selected (the id sent is 0), and exactly two of them, equal, when one is
selected: the one of `progressToNextStage` and the one of `updateDiagnosisStage`. -/
theorem stage_notifications_per_transition (app : App) (hb : app.bridge = true)
    (hdown : app.eegPlot.shuttingDown = false) (audioFile : String)
    (hfile : app.eegPlot.audio.stageFiles.lookup (app.eegPlot.audio.currentStage + 1) =
      some audioFile)
    (hne : audioFile ≠ "") :
    ∃ suffix, (EegActions.progressToNextStage app).calls = app.calls ++ suffix ∧
      suffix.filter BackendCall.isStage =
        if app.diagnosisId = 0 then
          [BackendCall.sensor SensorAction.stage 0 (app.eegPlot.audio.currentStage + 1)]
        else
          [BackendCall.sensor SensorAction.stage app.diagnosisId
              (app.eegPlot.audio.currentStage + 1),
            BackendCall.sensor SensorAction.stage app.diagnosisId
              (app.eegPlot.audio.currentStage + 1)] := by
  obtain ⟨app1, h1, e⟩ := progressToNextStage_play app hb hdown audioFile hfile hne
  have hid : app1.diagnosisId = app.diagnosisId := by
    rcases h1 with h | h
    · rw [h]
    · rw [h]
      rfl
  have hb1 : app1.bridge = true := by
    rcases h1 with h | h <;> rw [h] <;> exact hb
  have hpre : ∃ pre, app1.calls = app.calls ++ pre ∧ pre.filter BackendCall.isStage = [] := by
    rcases h1 with h | h
    · exact ⟨[], by rw [h]; simp, rfl⟩
    · exact ⟨[BackendCall.sensor SensorAction.evaluate app.diagnosisId 3], by rw [h]; rfl, rfl⟩
  obtain ⟨pre, epre, fpre⟩ := hpre
  obtain ⟨post, epost, fpost⟩ := playAudioForStage_appends (fun c => c.isStage = false)
    (fun _ _ => rfl) (app.eegPlot.audio.currentStage + 1)
    (DiagnosisStore.updateDiagnosisStage (app.eegPlot.audio.currentStage + 1)
      (app1.send (BackendCall.sensor SensorAction.stage app1.diagnosisId
        (app.eegPlot.audio.currentStage + 1)))).1
  have fpost' : post.filter BackendCall.isStage = [] := by
    rw [List.filter_eq_nil_iff]
    intro c hc
    rw [fpost c hc]
    simp
  rw [updateDiagnosisStage_calls _ _ (by omega)] at epost
  have hsend : (app1.send (BackendCall.sensor SensorAction.stage app1.diagnosisId
      (app.eegPlot.audio.currentStage + 1))).calls =
      app.calls ++ pre ++ [BackendCall.sensor SensorAction.stage app.diagnosisId
        (app.eegPlot.audio.currentStage + 1)] := by
    rw [← hid, ← epre]
    rfl
  have hid2 : (app1.send (BackendCall.sensor SensorAction.stage app1.diagnosisId
      (app.eegPlot.audio.currentStage + 1))).diagnosisId = app.diagnosisId := hid
  have hb2 : (app1.send (BackendCall.sensor SensorAction.stage app1.diagnosisId
      (app.eegPlot.audio.currentStage + 1))).bridge = true := hb1
  rw [hsend, hid2, hb2] at epost
  rw [e, epost]
  by_cases h0 : app.diagnosisId = 0
  · refine ⟨pre ++ [BackendCall.sensor SensorAction.stage app.diagnosisId
      (app.eegPlot.audio.currentStage + 1)] ++ post, by simp [h0], ?_⟩
    simp [List.filter_append, fpre, fpost', h0, BackendCall.isStage]
  · refine ⟨pre ++ [BackendCall.sensor SensorAction.stage app.diagnosisId
      (app.eegPlot.audio.currentStage + 1)] ++
      [BackendCall.sensor SensorAction.stage app.diagnosisId
        (app.eegPlot.audio.currentStage + 1)] ++ post, by simp [h0], ?_⟩
    simp [List.filter_append, fpre, fpost', h0, BackendCall.isStage]

/-- The step from stage 1 to stage 2 of the default protocol: one `'stage'` message when
no diagnosis is selected, two when diagnosis 7 is. -/
theorem stage_notifications_per_transition_witness :
    (∃ suffix, (EegActions.progressToNextStage stage1App).calls = stage1App.calls ++ suffix ∧
      suffix.filter BackendCall.isStage =
        if stage1App.diagnosisId = 0 then
          [BackendCall.sensor SensorAction.stage 0 (stage1App.eegPlot.audio.currentStage + 1)]
        else
          [BackendCall.sensor SensorAction.stage stage1App.diagnosisId
              (stage1App.eegPlot.audio.currentStage + 1),
            BackendCall.sensor SensorAction.stage stage1App.diagnosisId
              (stage1App.eegPlot.audio.currentStage + 1)]) ∧
    (EegActions.progressToNextStage stage1App).calls =
      stage1App.calls ++
        [BackendCall.sensor SensorAction.stage 0 2, BackendCall.music "play" (some "bp2.ogg")] ∧
    (EegActions.progressToNextStage diagnosisStage1App).calls =
      diagnosisStage1App.calls ++
        [BackendCall.sensor SensorAction.stage 7 2, BackendCall.sensor SensorAction.stage 7 2,
          BackendCall.music "play" (some "bp2.ogg")] :=
  ⟨stage_notifications_per_transition stage1App (by decide) (by decide) "bp2.ogg" (by decide)
      (by decide),
    by decide, by decide⟩

/-! ## A failed enqueue -/

theorem enqueueLoop_channels (d : EegData) (names : List String) (st : Store) :
    (enqueueLoop d names st).1.sensorData.channels = st.sensorData.channels := by
  induction names generalizing st with
  | nil => rfl
  | cons name rest ih =>
    unfold enqueueLoop
    split
    · split
      · exact ih _
      · exact ih _
    · split
      · exact ih _
      · split
        · rfl
        · exact ih _

/-- A loop that completes on a first part of the list goes on with the rest. -/
theorem enqueueLoop_append (d : EegData) (names rest : List String) (st : Store)
    (h : (enqueueLoop d names st).2 = true) :
    enqueueLoop d (names ++ rest) st = enqueueLoop d rest (enqueueLoop d names st).1 := by
  induction names generalizing st with
  | nil => rfl
  | cons name more ih =>
    by_cases hs : name = "snr"
    · subst hs
      rw [List.cons_append, enqueueLoop_snr, enqueueLoop_snr] at *
      exact ih _ h
    · cases hser : d.series name with
      | none =>
        rw [List.cons_append, enqueueLoop_notArray _ _ _ _ hs hser]
        rw [enqueueLoop_notArray _ _ _ _ hs hser] at h ⊢
        exact ih _ h
      | some samples =>
        cases hch : Chan.ofName name with
        | none =>
          rw [enqueueLoop_throw _ _ _ _ hs samples hser hch] at h
          simp at h
        | some ch =>
          rw [List.cons_append, enqueueLoop_push _ _ _ _ samples hser ch hch]
          rw [enqueueLoop_push _ _ _ _ samples hser ch hch] at h ⊢
          exact ih _ h

/-- After known channels, none named twice, an unknown channel with array data ends the
loop with `false` in the store the known channels left. -/
theorem enqueueLoop_known_then_unknown (d : EegData) (known rest : List String)
    (unknown : String) (samples : List ℚ) (st : Store)
    (hknown : ∀ name ∈ known, name = "snr" ∨ ∃ ch, Chan.ofName name = some ch)
    (hnodup : known.Nodup) (hne : unknown ≠ "snr") (hch : Chan.ofName unknown = none)
    (hser : d.series unknown = some samples) :
    enqueueLoop d (known ++ unknown :: rest) st = ((enqueueLoop d known st).1, false) := by
  rw [enqueueLoop_append d known _ st (enqueueLoop_known d known st hknown hnodup).1,
    enqueueLoop_throw _ _ _ _ hne samples hser hch]

/-- C30 (enqueue is not atomic on failure): for a payload whose channel list is known
channels, none named twice, followed by an unknown channel that carries array data,
`updateEEGData` returns false, yet `sensorData.channels` is the payload's list, unknown
channel included, and the pending queue of every known channel listed before the unknown
one has been extended with its samples; the other pending queues, and so the samples of
the channels listed after the unknown one, are as before. -/
theorem enqueue_not_atomic (st : Store) (m : EegMessage) (d : EegData)
    (known rest : List String) (unknown : String) (samples : List ℚ)
    (hdata : m.data = some d) (hchannels : m.channels = some (known ++ unknown :: rest))
    (hknown : ∀ name ∈ known, name = "snr" ∨ (Chan.ofName name).isSome = true)
    (hnodup : known.Nodup) (hne : unknown ≠ "snr") (hch : Chan.ofName unknown = none)
    (hser : d.series unknown = some samples) :
    (updateEEGData (some { eeg := some m }) st).2 = false ∧
    (updateEEGData (some { eeg := some m }) st).1.sensorData.channels =
      known ++ unknown :: rest ∧
    (∀ ch, Listed known ch →
      (updateEEGData (some { eeg := some m }) st).1.buffer.incoming.get ch =
        st.buffer.incoming.get ch ++ (d.series ch.name).getD []) ∧
    ∀ ch, ¬ Listed known ch →
      (updateEEGData (some { eeg := some m }) st).1.buffer.incoming.get ch =
        st.buffer.incoming.get ch := by
  have hknown' : ∀ name ∈ known, name = "snr" ∨ ∃ ch, Chan.ofName name = some ch :=
    fun name hmem => (hknown name hmem).imp id Option.isSome_iff_exists.mp
  rw [updateEEGData_data st m d hdata, hchannels]
  simp only [Option.getD_some]
  rw [enqueueLoop_known_then_unknown d known rest unknown samples _ hknown' hnodup hne hch hser]
  refine ⟨rfl, ?_, fun ch hl => ?_, fun ch hl => ?_⟩
  · rw [enqueueLoop_channels]
  · rw [(enqueueLoop_known d known _ hknown' hnodup).2 ch hl]
  · rw [enqueueLoop_unlisted d known _ ch hl]

/-- The payload that lists `fp1` and then the unknown channel `o1`, with array data for
both, on the initial store: the call returns false, the channel list is replaced and the
sample of `fp1` is pending. -/
theorem enqueue_not_atomic_witness :
    (updateEEGData (some unknownChannelPayload) initialStore).2 = false ∧
    (updateEEGData (some unknownChannelPayload) initialStore).1.sensorData.channels =
      ["fp1", "o1"] ∧
    (updateEEGData (some unknownChannelPayload) initialStore).1.buffer.incoming.get Chan.fp1 =
      [1] :=
  ⟨(enqueue_not_atomic initialStore
      { sensor := none
        channels := some ["fp1", "o1"]
        data := some
          { series := fun channel =>
              if channel = "fp1" then some [1]
              else if channel = "o1" then some [2]
              else none
            snr := none } }
      { series := fun channel =>
          if channel = "fp1" then some [1]
          else if channel = "o1" then some [2]
          else none
        snr := none }
      ["fp1"] [] "o1" [2] rfl rfl (by decide) (by decide) (by decide) (by decide) rfl).1,
    (enqueue_not_atomic initialStore
      { sensor := none
        channels := some ["fp1", "o1"]
        data := some
          { series := fun channel =>
              if channel = "fp1" then some [1]
              else if channel = "o1" then some [2]
              else none
            snr := none } }
      { series := fun channel =>
          if channel = "fp1" then some [1]
          else if channel = "o1" then some [2]
          else none
        snr := none }
      ["fp1"] [] "o1" [2] rfl rfl (by decide) (by decide) (by decide) (by decide) rfl).2.1,
    (enqueue_not_atomic initialStore
      { sensor := none
        channels := some ["fp1", "o1"]
        data := some
          { series := fun channel =>
              if channel = "fp1" then some [1]
              else if channel = "o1" then some [2]
              else none
            snr := none } }
      { series := fun channel =>
          if channel = "fp1" then some [1]
          else if channel = "o1" then some [2]
          else none
        snr := none }
      ["fp1"] [] "o1" [2] rfl rfl (by decide) (by decide) (by decide) (by decide) rfl).2.2.1
      Chan.fp1 ⟨"fp1", by decide, by decide⟩⟩

/-! ## What a start resets -/

/-- With every pending queue empty, the channel loop of the flush does nothing. -/
theorem processChannelsLoop_idle (names : List String) (st : Store) (flag : Bool)
    (h : ∀ ch, st.buffer.incoming.get ch = []) :
    processChannelsLoop names st flag = (st, flag) := by
  induction names with
  | nil => rfl
  | cons name rest ih =>
    cases hch : Chan.ofName name with
    | none =>
      rw [processChannelsLoop_skip _ _ _ _ hch]
      exact ih
    | some ch =>
      rw [processChannelsLoop_empty _ _ _ _ _ hch (h ch)]
      exact ih

/-- With every pending queue empty, a flush leaves the store as it is. -/
theorem processIncomingBuffer_idle (st : Store) (h : ∀ ch, st.buffer.incoming.get ch = []) :
    (processIncomingBuffer st).1 = st := by
  rw [processIncomingBuffer_small st (fun ch _ x hx => by
    rw [h ch] at hx
    exact absurd hx (List.not_mem_nil _))]
  unfold processChannels
  rw [processChannelsLoop_idle _ _ _ h]

/-- C25 (start resets the buffers): after `startEEGVisualization` from a session that is
not active, whatever the store held, each of `fp1`, `fpz`, `fp2` has a ring buffer of
`maxPoints` zeros, write index 0, an empty pending queue and an empty `sensorData.data`
array, the snr values are 0 and `hasNewData` is false: the store is the one `clearData`
makes.  The `initializeCircularBuffers` of `initializeVisualization` and the flush of the
first animation frame, which the start may run, leave that store as it is. -/
theorem start_resets_buffers (options : Options) (app : App)
    (hactive : app.eegPlot.active = false) :
    (EegActions.startEEGVisualization options app).store = clearData app.store ∧
    (∀ ch : Chan,
      (EegActions.startEEGVisualization options app).store.buffer.circular.get ch =
        List.replicate app.store.buffer.maxPoints (some 0) ∧
      (EegActions.startEEGVisualization options app).store.buffer.writeIndex.get ch = 0 ∧
      (EegActions.startEEGVisualization options app).store.buffer.incoming.get ch = [] ∧
      (EegActions.startEEGVisualization options app).store.sensorData.data.get ch = [] ∧
      (EegActions.startEEGVisualization options app).store.sensorData.snr.get ch = 0) ∧
    (EegActions.startEEGVisualization options app).store.buffer.hasNewData = false ∧
    (EegActions.startEEGVisualization options app).store.buffer.maxPoints =
      app.store.buffer.maxPoints ∧
    initializeCircularBuffers (EegActions.startEEGVisualization options app).store =
      (EegActions.startEEGVisualization options app).store ∧
    (processIncomingBuffer (EegActions.startEEGVisualization options app).store).1 =
      (EegActions.startEEGVisualization options app).store := by
  rw [startEEGVisualization_store options app hactive]
  refine ⟨rfl, fun ch => ?_, rfl, rfl, rfl, ?_⟩
  · cases ch <;> exact ⟨rfl, rfl, rfl, rfl, rfl⟩
  · apply processIncomingBuffer_idle
    intro ch
    cases ch <;> rfl

/-- A start on a store with pending samples and a grown `fp1` array: the initial
application whose store is the overgrown store after the test payload was enqueued. -/
theorem start_resets_buffers_witness :
    (EegActions.startEEGVisualization { diagnosis_id := none, diagnosis_stage := none }
      { initialApp true with
        store := (updateEEGData (some testPayload) overgrownStore).1 }).store.buffer.circular.get
        Chan.fp1 = [some 0, some 0, some 0] ∧
    (EegActions.startEEGVisualization { diagnosis_id := none, diagnosis_stage := none }
      { initialApp true with
        store := (updateEEGData (some testPayload) overgrownStore).1 }).store.buffer.incoming.get
        Chan.fp1 = [] ∧
    (updateEEGData (some testPayload) overgrownStore).1.buffer.incoming.get Chan.fp1 =
      [10, 11, 12, 13, 14] :=
  ⟨((start_resets_buffers { diagnosis_id := none, diagnosis_stage := none }
      { initialApp true with
        store := (updateEEGData (some testPayload) overgrownStore).1 } rfl).2.1 Chan.fp1).1,
    ((start_resets_buffers { diagnosis_id := none, diagnosis_stage := none }
      { initialApp true with
        store := (updateEEGData (some testPayload) overgrownStore).1 } rfl).2.1 Chan.fp1).2.2.1,
    by decide⟩

/-! ## The stage a start enters -/

theorem playTrack_eegPlot (trackId : String) (app : App) :
    (MusicStore.playTrack trackId app).1.eegPlot = app.eegPlot := by
  unfold MusicStore.playTrack
  simp only
  split
  · rfl
  · split <;> rfl

/-- The flags `active` and `shuttingDown` are not touched by `playAudioForStage`. -/
theorem playAudioForStage_flags (stage : Nat) (app : App) :
    (EegActions.playAudioForStage stage app).eegPlot.active = app.eegPlot.active ∧
    (EegActions.playAudioForStage stage app).eegPlot.shuttingDown =
      app.eegPlot.shuttingDown := by
  have hplay : ∀ id,
      (MusicStore.playTrack id app.clearStageTimer).1.eegPlot.active = app.eegPlot.active ∧
      (MusicStore.playTrack id app.clearStageTimer).1.eegPlot.shuttingDown =
        app.eegPlot.shuttingDown := by
    intro id
    rw [playTrack_eegPlot]
    exact ⟨(clearStageTimer_fields app).2.1, (clearStageTimer_fields app).2.2.1⟩
  unfold EegActions.playAudioForStage
  split
  · exact ⟨rfl, rfl⟩
  · split
    · exact ⟨rfl, rfl⟩
    · split
      · exact ⟨rfl, rfl⟩
      · split
        · exact ⟨rfl, rfl⟩
        · simp only
          split
          · exact hplay _
          · split
            · exact hplay _
            · split
              · exact hplay _
              · exact hplay _

/-- The statement that clears the stage timer reads the recorded identifier and the
timer table only. -/
theorem clearStageTimer_timers_congr (a b : App)
    (hid : a.eegPlot.audio.stageTimerId = b.eegPlot.audio.stageTimerId)
    (ht : a.timers = b.timers) : a.clearStageTimer.timers = b.clearStageTimer.timers := by
  unfold App.clearStageTimer
  rw [hid]
  cases b.eegPlot.audio.stageTimerId with
  | none => exact ht
  | some id =>
    simp only
    split
    · exact ht
    · simp only [App.clearTimeout, ht]

/-- A start from a session that is not active, with the stage option handled first. -/
theorem startEEGVisualization_eq (options : Options) (app : App)
    (hactive : app.eegPlot.active = false) :
    ∀ A : App,
      A = (if options.diagnosis_stage.getD 0 ≠ 0 then
          (DiagnosisStore.updateDiagnosisStage (options.diagnosis_stage.getD 0)
            { app with
              eegPlot := { app.eegPlot with active := true }
              store := clearData app.store }).1
        else
          { app with
            eegPlot := { app.eegPlot with active := true }
            store := clearData app.store }) →
      EegActions.startEEGVisualization options app =
        EegActions.playAudioForStage A.diagnosis.currentDiagnosisStage
          (if A.bridge then
            App.send
              { A with
                eegPlot :=
                  { A.eegPlot with
                    audio :=
                      { A.eegPlot.audio with
                        currentStage := A.diagnosis.currentDiagnosisStage } } }
              (BackendCall.sensor SensorAction.start
                (if options.diagnosis_id.getD 0 ≠ 0 then options.diagnosis_id.getD 0
                  else app.diagnosisId)
                A.diagnosis.currentDiagnosisStage)
          else
            { A with
              eegPlot :=
                { A.eegPlot with
                  audio :=
                    { A.eegPlot.audio with
                      currentStage := A.diagnosis.currentDiagnosisStage } } }) := by
  intro A hA
  subst hA
  unfold EegActions.startEEGVisualization
  rw [if_neg (by simp [hactive])]
  rfl

/-- C26 as amended (the stage a start enters): from an idle session (not active, not
shutting down) with the bridge and audio enabled, `startEEGVisualization` enters the stage
of its `diagnosis_stage` option when one is given, and the stage the diagnosis store
holds otherwise: when that stage has a file and a duration, the session is active,
`audio.currentStage` and the diagnosis stage are that stage, exactly one `'start'` message
is appended to the log and it carries that stage, and the timer of that stage is
scheduled and recorded. -/
theorem start_enters_selected_stage (options : Options) (app : App)
    (hactive : app.eegPlot.active = false) (hdown : app.eegPlot.shuttingDown = false)
    (hb : app.bridge = true) (hen : app.eegPlot.audio.enabled = true) (stage : Nat)
    (hstage : stage =
      if options.diagnosis_stage.getD 0 ≠ 0 then options.diagnosis_stage.getD 0
      else app.diagnosis.currentDiagnosisStage)
    (audioFile : String) (hfile : app.eegPlot.audio.stageFiles.lookup stage = some audioFile)
    (hne : audioFile ≠ "") (d : Nat)
    (hd : app.eegPlot.audio.stageDurations.lookup stage = some d) (hd0 : d ≠ 0) :
    (EegActions.startEEGVisualization options app).eegPlot.active = true ∧
    (EegActions.startEEGVisualization options app).eegPlot.audio.currentStage = stage ∧
    (EegActions.startEEGVisualization options app).diagnosis.currentDiagnosisStage = stage ∧
    (∃ pre post, (EegActions.startEEGVisualization options app).calls =
        app.calls ++ pre ++
          BackendCall.sensor SensorAction.start
            (if options.diagnosis_id.getD 0 ≠ 0 then options.diagnosis_id.getD 0
              else app.diagnosisId) stage :: post ∧
      (∀ c ∈ pre, c.isStart = false) ∧ ∀ c ∈ post, c.isStart = false) ∧
    (EegActions.startEEGVisualization options app).eegPlot.audio.stageTimerId =
      some (app.timerCount + 1) ∧
    (EegActions.startEEGVisualization options app).timers =
      app.clearStageTimer.timers ++
        [{ id := app.timerCount + 1, delay := d,
           callback := TimerCallback.stageExpired stage }] := by
  have hA : ∀ A : App,
      A = (if options.diagnosis_stage.getD 0 ≠ 0 then
          (DiagnosisStore.updateDiagnosisStage (options.diagnosis_stage.getD 0)
            { app with
              eegPlot := { app.eegPlot with active := true }
              store := clearData app.store }).1
        else
          { app with
            eegPlot := { app.eegPlot with active := true }
            store := clearData app.store }) →
      A.eegPlot = { app.eegPlot with active := true } ∧ A.timers = app.timers ∧
      A.timerCount = app.timerCount ∧ A.bridge = true ∧
      A.diagnosis.currentDiagnosisStage = stage ∧
      Appends (fun c => c.isStart = false) app A := by
    intro A e
    by_cases hopt : options.diagnosis_stage.getD 0 ≠ 0
    · rw [if_pos hopt] at e hstage
      obtain ⟨u1, u2, u3, u4, u5⟩ := updateDiagnosisStage_fields
        (options.diagnosis_stage.getD 0)
        { app with
          eegPlot := { app.eegPlot with active := true }
          store := clearData app.store } (by omega)
      have ua := updateDiagnosisStage_appends (fun c => c.isStart = false) (fun _ _ => rfl)
        (options.diagnosis_stage.getD 0)
        { app with
          eegPlot := { app.eegPlot with active := true }
          store := clearData app.store }
      rw [← e] at u1 u2 u3 u4 u5 ua
      exact ⟨u2, u3, u4, u5.trans hb, u1.trans hstage.symm,
        Appends.trans (Appends.of_calls_eq _ rfl) ua⟩
    · rw [if_neg hopt] at e hstage
      rw [e]
      exact ⟨rfl, rfl, rfl, hb, hstage.symm, Appends.of_calls_eq _ rfl⟩
  have e := startEEGVisualization_eq options app hactive _ rfl
  obtain ⟨a1, a2, a3, a4, a5, a6⟩ := hA _ rfl
  generalize (if options.diagnosis_stage.getD 0 ≠ 0 then
      (DiagnosisStore.updateDiagnosisStage (options.diagnosis_stage.getD 0)
        { app with
          eegPlot := { app.eegPlot with active := true }
          store := clearData app.store }).1
    else
      { app with
        eegPlot := { app.eegPlot with active := true }
        store := clearData app.store }) = A at e a1 a2 a3 a4 a5 a6
  rw [if_pos a4, a5] at e
  obtain ⟨f1, f2⟩ := playAudioForStage_flags stage
    (App.send
      { A with
        eegPlot := { A.eegPlot with audio := { A.eegPlot.audio with currentStage := stage } } }
      (BackendCall.sensor SensorAction.start
        (if options.diagnosis_id.getD 0 ≠ 0 then options.diagnosis_id.getD 0
          else app.diagnosisId) stage))
  obtain ⟨post, epost, ppost⟩ := playAudioForStage_appends (fun c => c.isStart = false)
    (fun _ _ => rfl) stage
    (App.send
      { A with
        eegPlot := { A.eegPlot with audio := { A.eegPlot.audio with currentStage := stage } } }
      (BackendCall.sensor SensorAction.start
        (if options.diagnosis_id.getD 0 ≠ 0 then options.diagnosis_id.getD 0
          else app.diagnosisId) stage))
  obtain ⟨q1, q2, q3, q4⟩ := playAudioForStage_bridge stage
    (App.send
      { A with
        eegPlot := { A.eegPlot with audio := { A.eegPlot.audio with currentStage := stage } } }
      (BackendCall.sensor SensorAction.start
        (if options.diagnosis_id.getD 0 ≠ 0 then options.diagnosis_id.getD 0
          else app.diagnosisId) stage))
    a4 (by simp only [App.send, a1]; exact hen) (by simp only [App.send, a1]; exact hdown)
    audioFile (by simp only [App.send, a1]; exact hfile) hne d
    (by simp only [App.send, a1]; exact hd) hd0
  have hclear : (App.send
      { A with
        eegPlot := { A.eegPlot with audio := { A.eegPlot.audio with currentStage := stage } } }
      (BackendCall.sensor SensorAction.start
        (if options.diagnosis_id.getD 0 ≠ 0 then options.diagnosis_id.getD 0
          else app.diagnosisId) stage)).clearStageTimer.timers = app.clearStageTimer.timers :=
    clearStageTimer_timers_congr _ _ (by simp only [App.send, a1]) a2
  obtain ⟨pre, epre, ppre⟩ := a6
  rw [e]
  refine ⟨?_, q1, ?_, ⟨pre, post, ?_, ppre, ppost⟩, ?_, ?_⟩
  · rw [f1]
    simp only [App.send, a1]
  · rw [q4]
    exact a5
  · rw [epost]
    simp only [App.send, epre, List.append_assoc, List.singleton_append]
  · rw [q2]
    simp only [App.send, a3]
  · rw [q3, hclear]
    simp only [App.send, a3]

/-- The first start, and a start with the stage option 1 after a whole recording: both
enter stage 1. -/
theorem start_enters_selected_stage_witness :
    (EegActions.startEEGVisualization { diagnosis_id := none, diagnosis_stage := none }
      (initialApp true)).eegPlot.audio.currentStage = 1 ∧
    (EegActions.startEEGVisualization { diagnosis_id := none, diagnosis_stage := none }
      (initialApp true)).timers =
      [{ id := 1, delay := 10000, callback := TimerCallback.stageExpired 1 }] ∧
    (EegActions.startEEGVisualization { diagnosis_id := none, diagnosis_stage := some 1 }
      finishedApp).eegPlot.audio.currentStage = 1 :=
  ⟨(start_enters_selected_stage { diagnosis_id := none, diagnosis_stage := none }
      (initialApp true) (by decide) (by decide) (by decide) (by decide) 1 (by decide)
      "bp1.ogg" (by decide) (by decide) 10000 (by decide) (by decide)).2.1,
    (start_enters_selected_stage { diagnosis_id := none, diagnosis_stage := none }
      (initialApp true) (by decide) (by decide) (by decide) (by decide) 1 (by decide)
      "bp1.ogg" (by decide) (by decide) 10000 (by decide) (by decide)).2.2.2.2.2,
    (start_enters_selected_stage { diagnosis_id := none, diagnosis_stage := some 1 }
      finishedApp (by decide) (by decide) (by decide) (by decide) 1 (by decide)
      "bp1.ogg" (by decide) (by decide) 10000 (by decide) (by decide)).2.1⟩

/-- C26, the claim as stated fails: after a whole recording of the default protocol the
session is idle with the diagnosis stage left at 4, and `startEEGVisualization()` without
a stage option enters stage 4: `audio.currentStage` is 4, the `'start'` message carries
stage 4 and the timer scheduled is the one of stage 4. -/
theorem start_after_finished_run :
    finishedApp.eegPlot.active = false ∧ finishedApp.eegPlot.shuttingDown = false ∧
    finishedApp.timers = [] ∧ finishedApp.diagnosis.currentDiagnosisStage = 4 ∧
    (EegActions.startEEGVisualization { diagnosis_id := none, diagnosis_stage := none }
      finishedApp).eegPlot.audio.currentStage = 4 ∧
    (EegActions.startEEGVisualization { diagnosis_id := none, diagnosis_stage := none }
      finishedApp).calls =
      finishedApp.calls ++
        [BackendCall.sensor SensorAction.start 0 4, BackendCall.music "play" (some "bp4.ogg")] ∧
    (EegActions.startEEGVisualization { diagnosis_id := none, diagnosis_stage := none }
      finishedApp).timers =
      [{ id := 6, delay := 10000, callback := TimerCallback.stageExpired 4 }] :=
  ⟨by decide, by decide, by decide, by decide, by decide, by decide, by decide⟩

/-! ## The amplitude of what is written -/

/-- A slot after the write loop holds what it held before or one of the samples
written. -/
theorem writeLoop_slot (M : Nat) (xs : List ℚ) (circ : JsArray) (w i : Nat) :
    jsGet (writeLoop M circ w xs).1 i = jsGet circ i ∨
      ∃ v ∈ xs, jsGet (writeLoop M circ w xs).1 i = some v := by
  induction xs generalizing circ w with
  | nil => exact Or.inl rfl
  | cons x rest ih =>
    rw [writeLoop_cons]
    rcases ih (arraySet circ w x) ((w + 1) % M) with h | ⟨v, hv, h⟩
    · by_cases hi : i = w
      · right
        exact ⟨x, List.mem_cons_self _ _, by rw [h, hi, jsGet_arraySet_same]⟩
      · left
        rw [h, jsGet_arraySet_other _ _ _ _ hi]
    · right
      exact ⟨v, List.mem_cons_of_mem _ hv, h⟩

/-- Scaling by a factor between 0 and 1, any number of times, keeps a bound. -/
theorem scaleChannels_le (f : ℚ) (hf0 : 0 ≤ f) (hf1 : f ≤ 1) (names : List String)
    (incoming : PerChannel (List ℚ)) (ch : Chan) (B : ℚ)
    (h : ∀ x ∈ incoming.get ch, |x| ≤ B) :
    ∀ v ∈ (scaleChannels f names incoming).get ch, |v| ≤ B := by
  induction names generalizing incoming with
  | nil => exact h
  | cons name rest ih =>
    cases hch : Chan.ofName name with
    | none =>
      rw [scaleChannels_skip _ _ _ _ hch]
      exact ih incoming h
    | some ch' =>
      by_cases he : incoming.get ch' = []
      · rw [scaleChannels_empty _ _ _ _ _ hch he]
        exact ih incoming h
      · rw [scaleChannels_step _ _ _ _ _ hch he]
        apply ih
        by_cases hc : ch = ch'
        · subst hc
          rw [PerChannel.get_set_same]
          intro x hx
          obtain ⟨y, hy, rfl⟩ := List.mem_map.mp hx
          rw [abs_mul, abs_of_nonneg hf0]
          calc |y| * f ≤ |y| * 1 := mul_le_mul_of_nonneg_left hf1 (abs_nonneg y)
            _ = |y| := mul_one _
            _ ≤ B := h y hy
        · rw [PerChannel.get_set_other _ _ _ _ hc]
          exact h

/-- A configured channel is scaled at least once. -/
theorem scaleChannels_listed_le (f : ℚ) (hf0 : 0 ≤ f) (hf1 : f ≤ 1) (names : List String)
    (incoming : PerChannel (List ℚ)) (ch : Chan) (A : ℚ)
    (h : ∀ x ∈ incoming.get ch, |x| ≤ A) (hl : Listed names ch) :
    ∀ v ∈ (scaleChannels f names incoming).get ch, |v| ≤ A * f := by
  induction names generalizing incoming with
  | nil =>
    obtain ⟨n, hmem, _⟩ := hl
    exact absurd hmem (List.not_mem_nil _)
  | cons name rest ih =>
    cases hch : Chan.ofName name with
    | none =>
      rw [scaleChannels_skip _ _ _ _ hch]
      exact ih incoming h ((listed_cons_of_none hch).mp hl)
    | some ch' =>
      by_cases hc : ch' = ch
      · subst hc
        by_cases he : incoming.get ch' = []
        · intro v hv
          have hlen := scaleChannels_length f (name :: rest) incoming ch'
          rw [he] at hlen
          rw [List.length_eq_zero.mp hlen] at hv
          exact absurd hv (List.not_mem_nil _)
        · rw [scaleChannels_step _ _ _ _ _ hch he]
          apply scaleChannels_le f hf0 hf1
          rw [PerChannel.get_set_same]
          intro x hx
          obtain ⟨y, hy, rfl⟩ := List.mem_map.mp hx
          rw [abs_mul, abs_of_nonneg hf0]
          exact mul_le_mul_of_nonneg_right (h y hy) hf0
      · have hrest : Listed rest ch := (listed_cons_of_ne hch hc).mp hl
        by_cases he : incoming.get ch' = []
        · rw [scaleChannels_empty _ _ _ _ _ hch he]
          exact ih incoming h hrest
        · rw [scaleChannels_step _ _ _ _ _ hch he]
          apply ih _ _ hrest
          rw [PerChannel.get_set_other _ _ _ _ (Ne.symm hc)]
          exact h

/-- After `normalizeIncomingData` no pending sample of a configured channel exceeds 100
in absolute value, and none exceeds 50 when the queues were scaled. -/
theorem normalizeIncomingData_bounded (st : Store) (ch : Chan)
    (hl : Listed st.sensorData.channels ch) :
    (∀ v ∈ (normalizeIncomingData st).buffer.incoming.get ch, |v| ≤ 100) ∧
    ((∃ c, Listed st.sensorData.channels c ∧ ∃ x ∈ st.buffer.incoming.get c, 100 < |x|) →
      ∀ v ∈ (normalizeIncomingData st).buffer.incoming.get ch, |v| ≤ 50) := by
  have hfilter : ∀ c, Listed (st.sensorData.channels.filter fun n => n ≠ "snr") c ↔
      Listed st.sensorData.channels c :=
    fun c => ⟨listed_of_filter, listed_filter_of_listed⟩
  have scaled : (∃ c, Listed st.sensorData.channels c ∧
      ∃ x ∈ st.buffer.incoming.get c, 100 < |x|) →
      ∀ v ∈ (normalizeIncomingData st).buffer.incoming.get ch, |v| ≤ 50 := by
    intro hbig
    obtain ⟨A, hscan2⟩ : ∃ A, (scanAmplitude st.buffer.incoming
        (st.sensorData.channels.filter fun n => n ≠ "snr") (false, 0)).2 = A := ⟨_, rfl⟩
    have hub : ∀ c, Listed st.sensorData.channels c → ∀ x ∈ st.buffer.incoming.get c,
        |x| ≤ A := by
      intro c hc x hx
      rw [← hscan2]
      exact scanAmplitude_ge _ _ _ c ((hfilter c).mpr hc) x hx
    have hAbig : 100 < A := by
      obtain ⟨c, hc, x, hx, hxbig⟩ := hbig
      exact lt_of_lt_of_le hxbig (hub c hc x hx)
    have hApos : 0 < A := lt_trans (by norm_num) hAbig
    have hscan1 : (scanAmplitude st.buffer.incoming
        (st.sensorData.channels.filter fun n => n ≠ "snr") (false, 0)).1 = true := by
      apply scanAmplitude_flag_of_big
      obtain ⟨c, hc, hx⟩ := hbig
      exact ⟨c, (hfilter c).mpr hc, hx⟩
    have hne : (st.sensorData.channels.filter fun n => n ≠ "snr").length ≠ 0 := by
      obtain ⟨name, hmem, _⟩ := (hfilter ch).mpr hl
      exact fun e => List.not_mem_nil _ (List.length_eq_zero.mp e ▸ hmem)
    have hf0 : (0 : ℚ) ≤ 50 / A := div_nonneg (by norm_num) (le_of_lt hApos)
    have hf1 : (50 : ℚ) / A ≤ 1 := by
      rw [div_le_one hApos]
      exact le_of_lt (lt_trans (by norm_num) hAbig)
    have hmul : A * (50 / A) = 50 := by
      field_simp
    unfold normalizeIncomingData
    simp only [hne, if_false, hscan1, hscan2, hApos, decide_True, Bool.and_self, if_true]
    intro v hv
    rw [← hmul]
    exact scaleChannels_listed_le (50 / A) hf0 hf1 _ _ ch A (hub ch hl) ((hfilter ch).mpr hl)
      v hv
  refine ⟨?_, scaled⟩
  by_cases hbig : ∃ c, Listed st.sensorData.channels c ∧
      ∃ x ∈ st.buffer.incoming.get c, 100 < |x|
  · intro v hv
    exact le_trans (scaled hbig v hv) (by norm_num)
  · have hsmall : ∀ c, Listed st.sensorData.channels c →
        ∀ x ∈ st.buffer.incoming.get c, |x| ≤ 100 := by
      intro c hc x hx
      by_contra hcon
      exact hbig ⟨c, hc, x, hx, not_le.mp hcon⟩
    rw [normalizeIncomingData_small st hsmall]
    exact hsmall ch hl

/-- C27 (bounded written amplitude): for every state of the pending queues, the samples
one `processIncomingBuffer` call writes into the ring buffer of a configured channel are
the normalised pending queue of the channel, and each of them has absolute value at most
100, and at most 50 when the batch was scaled; so every slot of the ring buffer holds
after the call what it held before or a value of absolute value at most 100. -/
theorem written_amplitude_bounded (st : Store) (ch : Chan)
    (hl : Listed st.sensorData.channels ch) :
    ((processIncomingBuffer st).1.buffer.circular.get ch,
      (processIncomingBuffer st).1.buffer.writeIndex.get ch) =
      writeLoop st.buffer.maxPoints (st.buffer.circular.get ch) (st.buffer.writeIndex.get ch)
        ((normalizeIncomingData st).buffer.incoming.get ch) ∧
    (∀ v ∈ (normalizeIncomingData st).buffer.incoming.get ch, |v| ≤ 100) ∧
    ((∃ c, Listed st.sensorData.channels c ∧ ∃ x ∈ st.buffer.incoming.get c, 100 < |x|) →
      ∀ v ∈ (normalizeIncomingData st).buffer.incoming.get ch, |v| ≤ 50) ∧
    ∀ i : Nat,
      jsGet ((processIncomingBuffer st).1.buffer.circular.get ch) i =
          jsGet (st.buffer.circular.get ch) i ∨
        ∃ v, jsGet ((processIncomingBuffer st).1.buffer.circular.get ch) i = some v ∧
          |v| ≤ 100 := by
  obtain ⟨hb1, hb2⟩ := normalizeIncomingData_bounded st ch hl
  obtain ⟨hs, hc, hw, hmax⟩ := normalizeIncomingData_frame st
  have hl' : Listed (normalizeIncomingData st).sensorData.channels ch := by
    rw [hs]
    exact hl
  obtain ⟨h1, h2, _⟩ := processChannelsLoop_listed _ (normalizeIncomingData st) false ch hl'
  have hwritten : ((processIncomingBuffer st).1.buffer.circular.get ch,
      (processIncomingBuffer st).1.buffer.writeIndex.get ch) =
      writeLoop st.buffer.maxPoints (st.buffer.circular.get ch) (st.buffer.writeIndex.get ch)
        ((normalizeIncomingData st).buffer.incoming.get ch) := by
    simp only [processIncomingBuffer, processChannels]
    rw [h1, h2, hmax, hc, hw]
  refine ⟨hwritten, hb1, hb2, fun i => ?_⟩
  have hcirc : (processIncomingBuffer st).1.buffer.circular.get ch =
      (writeLoop st.buffer.maxPoints (st.buffer.circular.get ch) (st.buffer.writeIndex.get ch)
        ((normalizeIncomingData st).buffer.incoming.get ch)).1 :=
    congrArg Prod.fst hwritten
  rw [hcirc]
  rcases writeLoop_slot st.buffer.maxPoints
    ((normalizeIncomingData st).buffer.incoming.get ch) (st.buffer.circular.get ch)
    (st.buffer.writeIndex.get ch) i with h | ⟨v, hv, h⟩
  · exact Or.inl h
  · exact Or.inr ⟨v, h, hb1 v hv⟩

/-- Pending samples `fp1 = [200, -100]`, `fpz = [50]` on fresh buffers of capacity 3: the
batch is scaled by 50 / 200, and the slots of `fp1` hold 50, -25 and the old 0. -/
theorem written_amplitude_bounded_witness :
    (∀ v ∈ (normalizeIncomingData loudStore).buffer.incoming.get Chan.fp1, |v| ≤ 100) ∧
    (∀ i : Nat,
      jsGet ((processIncomingBuffer loudStore).1.buffer.circular.get Chan.fp1) i =
          jsGet (loudStore.buffer.circular.get Chan.fp1) i ∨
        ∃ v, jsGet ((processIncomingBuffer loudStore).1.buffer.circular.get Chan.fp1) i =
          some v ∧ |v| ≤ 100) ∧
    (normalizeIncomingData loudStore).buffer.incoming.get Chan.fp1 = [50, -25] :=
  ⟨(written_amplitude_bounded loudStore Chan.fp1 ⟨"fp1", by decide, by decide⟩).2.1,
    (written_amplitude_bounded loudStore Chan.fp1 ⟨"fp1", by decide, by decide⟩).2.2.2,
    by
      simp [normalizeIncomingData, loudStore, withIncoming, initializeCircularBuffers, testStore,
        initialStore, scanAmplitude, scaleChannels, Chan.ofName, PerChannel.get, PerChannel.set,
        channelMax]
      norm_num⟩

/-! ## The linear mirror -/

theorem listed_iff_any (names : List String) (ch : Chan) :
    Listed names ch ↔ (names.any fun name => Chan.ofName name == some ch) = true := by
  simp [Listed, List.any_eq_true]

theorem enqueueLoop_mirror (d : EegData) (names : List String) (st : Store) :
    (enqueueLoop d names st).1.sensorData.data = st.sensorData.data := by
  induction names generalizing st with
  | nil => rfl
  | cons name rest ih =>
    unfold enqueueLoop
    split
    · split
      · exact ih _
      · exact ih _
    · split
      · exact ih _
      · split
        · rfl
        · exact ih _

theorem updateEEGData_mirror (data : Option Payload) (st : Store) :
    (updateEEGData data st).1.sensorData.data = st.sensorData.data := by
  unfold updateEEGData
  split
  · rfl
  · split
    · rfl
    · split
      · rfl
      · exact enqueueLoop_mirror _ _ _

theorem sliceLast_eq_drop (n : Nat) (xs : List ℚ) (hn : 0 < n) :
    sliceLast n xs = xs.drop (xs.length - n) := by
  unfold sliceLast
  rw [if_neg (by omega)]

/-- The mirror after a channel was flushed: the last `maxPoints` entries of the old mirror
followed by the pending samples. -/
theorem flushChannel_mirror (st : Store) (ch : Chan) (hM : 0 < st.buffer.maxPoints) :
    (flushChannel st ch).sensorData.data.get ch =
      (st.sensorData.data.get ch ++ st.buffer.incoming.get ch).drop
        ((st.sensorData.data.get ch ++ st.buffer.incoming.get ch).length -
          st.buffer.maxPoints) := by
  simp only [flushChannel, PerChannel.get_set_same]
  by_cases h : (st.sensorData.data.get ch ++ st.buffer.incoming.get ch).length >
      st.buffer.maxPoints
  · rw [if_pos h]
    exact sliceLast_eq_drop _ _ hM
  · rw [if_neg h, Nat.sub_eq_zero_of_le (by omega), List.drop_zero]

/-- The mirror of a configured channel after the channel loop. -/
theorem processChannelsLoop_mirror (names : List String) (st : Store) (flag : Bool) (ch : Chan)
    (hM : 0 < st.buffer.maxPoints)
    (hlen : (st.sensorData.data.get ch).length ≤ st.buffer.maxPoints)
    (hl : Listed names ch) :
    (processChannelsLoop names st flag).1.sensorData.data.get ch =
      (st.sensorData.data.get ch ++ st.buffer.incoming.get ch).drop
        ((st.sensorData.data.get ch ++ st.buffer.incoming.get ch).length -
          st.buffer.maxPoints) := by
  induction names generalizing st flag with
  | nil =>
    obtain ⟨name, hmem, _⟩ := hl
    exact absurd hmem (List.not_mem_nil _)
  | cons name rest ih =>
    cases h : Chan.ofName name with
    | none =>
      rw [processChannelsLoop_skip _ _ _ _ h]
      exact ih st flag hM hlen ((listed_cons_of_none h).mp hl)
    | some ch' =>
      by_cases hc : ch' = ch
      · subst hc
        by_cases he : st.buffer.incoming.get ch' = []
        · rw [processChannelsLoop_empty _ _ _ _ _ h he]
          by_cases hr : Listed rest ch'
          · exact ih st flag hM hlen hr
          · rw [(processChannelsLoop_unlisted rest st flag ch' hr).2.2.2, he, List.append_nil,
              Nat.sub_eq_zero_of_le hlen, List.drop_zero]
        · rw [processChannelsLoop_flush _ _ _ _ _ h he]
          have hm := flushChannel_mirror st ch' hM
          have hinc : (flushChannel st ch').buffer.incoming.get ch' = [] := by
            simp [flushChannel]
          have hmax : (flushChannel st ch').buffer.maxPoints = st.buffer.maxPoints := rfl
          have hlen' : ((flushChannel st ch').sensorData.data.get ch').length ≤
              st.buffer.maxPoints := by
            rw [hm, List.length_drop]
            omega
          by_cases hr : Listed rest ch'
          · rw [ih (flushChannel st ch') true hM hlen' hr, hinc, List.append_nil, hmax,
              Nat.sub_eq_zero_of_le hlen', List.drop_zero, hm]
          · rw [(processChannelsLoop_unlisted rest _ true ch' hr).2.2.2, hm]
      · have hrest : Listed rest ch := (listed_cons_of_ne h hc).mp hl
        by_cases he : st.buffer.incoming.get ch' = []
        · rw [processChannelsLoop_empty _ _ _ _ _ h he]
          exact ih st flag hM hlen hrest
        · rw [processChannelsLoop_flush _ _ _ _ _ h he]
          have hd : (flushChannel st ch').sensorData.data.get ch =
              st.sensorData.data.get ch := by
            simp [flushChannel, PerChannel.get_set_other _ _ _ _ (Ne.symm hc)]
          have hi : (flushChannel st ch').buffer.incoming.get ch =
              st.buffer.incoming.get ch := by
            simp [flushChannel, PerChannel.get_set_other _ _ _ _ (Ne.symm hc)]
          have hmax : (flushChannel st ch').buffer.maxPoints = st.buffer.maxPoints := rfl
          rw [ih (flushChannel st ch') true hM (by rw [hd]; exact hlen) hrest, hd, hi, hmax]

/-- Keeping the last `M` entries before and after appending is keeping them after. -/
theorem drop_last_append (M : Nat) (s q : List ℚ) :
    (s.drop (s.length - M) ++ q).drop ((s.drop (s.length - M) ++ q).length - M) =
      (s ++ q).drop ((s ++ q).length - M) := by
  by_cases h : s.length ≤ M
  · rw [Nat.sub_eq_zero_of_le h, List.drop_zero]
  · have hlen : (s.drop (s.length - M) ++ q).length - M = q.length := by
      rw [List.length_append, List.length_drop]
      omega
    have hlen2 : (s ++ q).length - M = (s.length - M) + q.length := by
      rw [List.length_append]
      omega
    have e : (s ++ q).drop (s.length - M) = s.drop (s.length - M) ++ q :=
      List.drop_append_of_le_length (by omega)
    rw [hlen, hlen2, ← List.drop_drop, e]

/-- Dropping from the zero-filled stream, one batch after the other. -/
theorem drop_stream_append (M : Nat) (s q : List ℚ) :
    ((List.replicate M (some (0 : ℚ)) ++ s.map some).drop s.length ++ q.map some).drop q.length =
      (List.replicate M (some (0 : ℚ)) ++ (s ++ q).map some).drop (s ++ q).length := by
  have e : ((List.replicate M (some (0 : ℚ)) ++ s.map some) ++ q.map some).drop s.length =
      (List.replicate M (some (0 : ℚ)) ++ s.map some).drop s.length ++ q.map some :=
    List.drop_append_of_le_length (by simp)
  rw [List.map_append, List.length_append, ← List.append_assoc, ← List.drop_drop, e]

/-- What a flush hands to the write loop of a configured channel. -/
theorem processIncomingBuffer_listed (st : Store) (ch : Chan)
    (hl : Listed st.sensorData.channels ch) :
    (processIncomingBuffer st).1.buffer.circular.get ch =
      (writeLoop st.buffer.maxPoints (st.buffer.circular.get ch) (st.buffer.writeIndex.get ch)
        ((normalizeIncomingData st).buffer.incoming.get ch)).1 ∧
    (processIncomingBuffer st).1.buffer.writeIndex.get ch =
      (writeLoop st.buffer.maxPoints (st.buffer.circular.get ch) (st.buffer.writeIndex.get ch)
        ((normalizeIncomingData st).buffer.incoming.get ch)).2 := by
  obtain ⟨hs, hc, hw, hmax⟩ := normalizeIncomingData_frame st
  have hl' : Listed (normalizeIncomingData st).sensorData.channels ch := by
    rw [hs]
    exact hl
  obtain ⟨h1, h2, _⟩ := processChannelsLoop_listed _ (normalizeIncomingData st) false ch hl'
  simp only [processIncomingBuffer, processChannels]
  rw [h1, h2, hmax, hc, hw]
  exact ⟨rfl, rfl⟩

theorem holdsStream_clearData (st0 : Store) (ch : Chan) (hM : 0 < st0.buffer.maxPoints) :
    HoldsStream (clearData st0) ch [] := by
  refine ⟨hM, ?_, ?_, ?_⟩
  · intro c
    cases c <;> exact ⟨by simp [clearData, initializeCircularBuffers, PerChannel.get,
      PerChannel.const], hM⟩
  · cases ch <;> simp [clearData, initializeCircularBuffers, PerChannel.get, PerChannel.const]
  · have h1 : (clearData st0).buffer.circular.get ch =
        List.replicate st0.buffer.maxPoints (some 0) := by
      cases ch <;> rfl
    have h2 : (clearData st0).buffer.writeIndex.get ch = 0 := by
      cases ch <;> rfl
    have h3 : (clearData st0).buffer.maxPoints = st0.buffer.maxPoints := rfl
    rw [h1, h2, h3, ringView_replicate]
    simp

theorem holdsStream_enqueue (data : Option Payload) (st : Store) (ch : Chan) (s : List ℚ)
    (h : HoldsStream st ch s) : HoldsStream (updateEEGData data st).1 ch s := by
  obtain ⟨hM, hwf, hd, hr⟩ := h
  obtain ⟨h1, h2, h3⟩ := updateEEGData_buffer data st
  refine ⟨by rw [h3]; exact hM, ?_, ?_, ?_⟩
  · intro c
    rw [h1, h2, h3]
    exact hwf c
  · rw [updateEEGData_mirror, h3]
    exact hd
  · rw [h1, h2, h3]
    exact hr

theorem holdsStream_flush (st : Store) (ch : Chan) (s : List ℚ) (h : HoldsStream st ch s) :
    HoldsStream (processIncomingBuffer st).1 ch (s ++ Ingest.samples ch Ingest.flush st) := by
  obtain ⟨hM, hwf, hd, hr⟩ := h
  obtain ⟨hs, hc, hw, hmax⟩ := normalizeIncomingData_frame st
  have hmax' : (processIncomingBuffer st).1.buffer.maxPoints = st.buffer.maxPoints := by
    simp only [processIncomingBuffer]
    rw [(processChannels_frame _).2, hmax]
  have hlen : (st.sensorData.data.get ch).length ≤ st.buffer.maxPoints := by
    rw [hd, List.length_drop]
    omega
  refine ⟨by rw [hmax']; exact hM, wellFormed_processIncomingBuffer st hwf, ?_, ?_⟩
  · rw [hmax']
    by_cases hl : Listed st.sensorData.channels ch
    · have hmirror := processChannelsLoop_mirror (normalizeIncomingData st).sensorData.channels
        (normalizeIncomingData st) false ch (by rw [hmax]; exact hM)
        (by rw [hs, hmax]; exact hlen) (by rw [hs]; exact hl)
      rw [hs, hmax] at hmirror
      simp only [Ingest.samples, (listed_iff_any _ _).mp hl, if_true]
      simp only [processIncomingBuffer, processChannels]
      rw [hs, hmirror, hd]
      exact drop_last_append _ _ _
    · have hnot : ¬ (st.sensorData.channels.any fun name => Chan.ofName name == some ch) =
          true := fun e => hl ((listed_iff_any _ _).mpr e)
      simp only [Ingest.samples, hnot, Bool.false_eq_true, if_false, List.append_nil]
      simp only [processIncomingBuffer, processChannels]
      rw [(processChannelsLoop_unlisted (normalizeIncomingData st).sensorData.channels
        (normalizeIncomingData st) false ch (by rw [hs]; exact hl)).2.2.2, hs]
      exact hd
  · rw [hmax']
    by_cases hl : Listed st.sensorData.channels ch
    · obtain ⟨p1, p2⟩ := processIncomingBuffer_listed st ch hl
      simp only [Ingest.samples, (listed_iff_any _ _).mp hl, if_true]
      rw [p1, p2, ringView_writeLoop _ _ _ _ (hwf ch).2, hr]
      exact drop_stream_append _ _ _
    · have hnot : ¬ (st.sensorData.channels.any fun name => Chan.ofName name == some ch) =
          true := fun e => hl ((listed_iff_any _ _).mpr e)
      simp only [Ingest.samples, hnot, Bool.false_eq_true, if_false, List.append_nil]
      simp only [processIncomingBuffer, processChannels]
      obtain ⟨u1, u2, _, _⟩ := processChannelsLoop_unlisted
        (normalizeIncomingData st).sensorData.channels (normalizeIncomingData st) false ch
        (by rw [hs]; exact hl)
      rw [u1, u2, hc, hw]
      exact hr

theorem holdsStream_runIngest (steps : List Ingest) (st : Store) (ch : Chan) (s : List ℚ)
    (h : HoldsStream st ch s) :
    HoldsStream (runIngest steps st) ch (s ++ writtenStream ch steps st) := by
  induction steps generalizing st s with
  | nil => simpa [runIngest, writtenStream] using h
  | cons step rest ih =>
    have hstep : HoldsStream (step.run st) ch (s ++ step.samples ch st) := by
      cases step with
      | enqueue data =>
        simp only [Ingest.samples, List.append_nil]
        exact holdsStream_enqueue data st ch s h
      | flush => exact holdsStream_flush st ch s h
    have := ih (step.run st) (s ++ step.samples ch st) hstep
    simp only [runIngest, List.foldl_cons, writtenStream] at this ⊢
    rw [← List.append_assoc]
    exact this

theorem runIngest_maxPoints (steps : List Ingest) (st : Store) :
    (runIngest steps st).buffer.maxPoints = st.buffer.maxPoints := by
  induction steps generalizing st with
  | nil => rfl
  | cons step rest ih =>
    simp only [runIngest, List.foldl_cons] at ih ⊢
    rw [ih]
    cases step with
    | enqueue data => exact (updateEEGData_buffer data st).2.2
    | flush =>
      simp only [Ingest.run, processIncomingBuffer]
      rw [(processChannels_frame _).2, (normalizeIncomingData_frame st).2.2.2]

/-- What a store that holds a stream shows: the length of the mirror, the window of the
ring buffer, and the two latest values. -/
theorem holdsStream_reads (st : Store) (ch : Chan) (s : List ℚ) (h : HoldsStream st ch s) :
    (st.sensorData.data.get ch).length = min s.length st.buffer.maxPoints ∧
    (st.sensorData.data.get ch).map some =
      channelWindow st ch (min s.length st.buffer.maxPoints) ∧
    (0 < s.length → getLatestValue st ch.name = some (latestValue st ch.name)) := by
  obtain ⟨hM, hwf, hd, hr⟩ := h
  have hlen : (st.sensorData.data.get ch).length = min s.length st.buffer.maxPoints := by
    rw [hd, List.length_drop]
    omega
  have hwin : (st.sensorData.data.get ch).map some =
      channelWindow st ch (min s.length st.buffer.maxPoints) := by
    unfold channelWindow
    rw [window_eq_drop _ _ _ _ hM (hwf ch).1 (Nat.min_le_right _ _), hr, List.drop_drop, hd,
      List.map_drop]
    have hk : s.length + (st.buffer.maxPoints - min s.length st.buffer.maxPoints) =
        (List.replicate st.buffer.maxPoints (some (0 : ℚ))).length +
          (s.length - st.buffer.maxPoints) := by
      rw [List.length_replicate]
      omega
    rw [hk, List.drop_append]
  refine ⟨hlen, hwin, fun hpos => ?_⟩
  have hn : 0 < (st.sensorData.data.get ch).length := by
    rw [hlen]
    omega
  have hlast : some (getLatestValue st ch.name) =
      (ringView (st.buffer.circular.get ch) (st.buffer.writeIndex.get ch)
        st.buffer.maxPoints)[st.buffer.maxPoints - 1]? :=
    getLatestValue_eq_ringView st ch.name ch (Chan.ofName_name ch) hM
  have hdrop : (ringView (st.buffer.circular.get ch) (st.buffer.writeIndex.get ch)
      st.buffer.maxPoints).drop (st.buffer.maxPoints - min s.length st.buffer.maxPoints) =
      (st.sensorData.data.get ch).map some := by
    rw [hwin]
    unfold channelWindow
    rw [window_eq_drop _ _ _ _ hM (hwf ch).1 (Nat.min_le_right _ _)]
  have hidx : (ringView (st.buffer.circular.get ch) (st.buffer.writeIndex.get ch)
      st.buffer.maxPoints)[st.buffer.maxPoints - 1]? =
      ((st.sensorData.data.get ch).map some)[(st.sensorData.data.get ch).length - 1]? := by
    rw [← hdrop, List.getElem?_drop]
    congr 1
    rw [hlen]
    omega
  rw [hidx, List.getElem?_map] at hlast
  simp only [latestValue, Chan.ofName_name, hn, if_true, List.getD_eq_getElem?_getD]
  have hex : ∃ v, (st.sensorData.data.get ch)[(st.sensorData.data.get ch).length - 1]? = some v :=
    ⟨_, List.getElem?_eq_getElem (by omega)⟩
  obtain ⟨v, hv⟩ := hex
  rw [hv] at hlast ⊢
  simpa using hlast

/-- C28 (the linear mirror and the ring buffer agree): after `clearData` followed by any
sequence of `updateEEGData` and `processIncomingBuffer` calls, with `maxPoints ≥ 1`, for
every channel and the stream of the `T` samples the flushes wrote to its ring buffer:
`sensorData.data[channel]` has length `min(T, maxPoints)`, it is the last that many
samples of the stream, and it equals the window of that many most recent samples of the
ring buffer, oldest first; when `T > 0` the value of the getter `latestValues` for the
channel and `getLatestValue` agree. -/
theorem mirror_agrees_with_ring (st0 : Store) (hM : 0 < st0.buffer.maxPoints)
    (steps : List Ingest) (ch : Chan) :
    ((runIngest steps (clearData st0)).sensorData.data.get ch).length =
      min (writtenStream ch steps (clearData st0)).length st0.buffer.maxPoints ∧
    (runIngest steps (clearData st0)).sensorData.data.get ch =
      (writtenStream ch steps (clearData st0)).drop
        ((writtenStream ch steps (clearData st0)).length - st0.buffer.maxPoints) ∧
    ((runIngest steps (clearData st0)).sensorData.data.get ch).map some =
      channelWindow (runIngest steps (clearData st0)) ch
        (min (writtenStream ch steps (clearData st0)).length st0.buffer.maxPoints) ∧
    (0 < (writtenStream ch steps (clearData st0)).length →
      getLatestValue (runIngest steps (clearData st0)) ch.name =
        some (latestValue (runIngest steps (clearData st0)) ch.name)) := by
  have h := holdsStream_runIngest steps (clearData st0) ch [] (holdsStream_clearData st0 ch hM)
  rw [List.nil_append] at h
  have hmax : (runIngest steps (clearData st0)).buffer.maxPoints = st0.buffer.maxPoints :=
    runIngest_maxPoints steps (clearData st0)
  obtain ⟨r1, r2, r3⟩ := holdsStream_reads _ ch _ h
  rw [hmax] at r1 r2
  refine ⟨r1, ?_, r2, r3⟩
  rw [h.2.2.1, hmax]

/-- The test payload enqueued and flushed on a cleared store of capacity 3: five samples
were written to `fp1`, the mirror holds the last three, which are the window of the ring
buffer, and the two latest values agree. -/
theorem mirror_agrees_with_ring_witness :
    writtenStream Chan.fp1 [Ingest.enqueue (some testPayload), Ingest.flush]
      (clearData (testStore 3 [])) = [10, 11, 12, 13, 14] ∧
    (runIngest [Ingest.enqueue (some testPayload), Ingest.flush]
      (clearData (testStore 3 []))).sensorData.data.get Chan.fp1 = [12, 13, 14] ∧
    ((runIngest [Ingest.enqueue (some testPayload), Ingest.flush]
      (clearData (testStore 3 []))).sensorData.data.get Chan.fp1).map some =
      channelWindow (runIngest [Ingest.enqueue (some testPayload), Ingest.flush]
        (clearData (testStore 3 []))) Chan.fp1
        (min (writtenStream Chan.fp1 [Ingest.enqueue (some testPayload), Ingest.flush]
          (clearData (testStore 3 []))).length (testStore 3 []).buffer.maxPoints) ∧
    (0 < (writtenStream Chan.fp1 [Ingest.enqueue (some testPayload), Ingest.flush]
        (clearData (testStore 3 []))).length →
      getLatestValue (runIngest [Ingest.enqueue (some testPayload), Ingest.flush]
        (clearData (testStore 3 []))) Chan.fp1.name =
        some (latestValue (runIngest [Ingest.enqueue (some testPayload), Ingest.flush]
          (clearData (testStore 3 []))) Chan.fp1.name)) :=
  ⟨by decide, by decide,
    (mirror_agrees_with_ring (testStore 3 []) (by decide)
      [Ingest.enqueue (some testPayload), Ingest.flush] Chan.fp1).2.2.1,
    (mirror_agrees_with_ring (testStore 3 []) (by decide)
      [Ingest.enqueue (some testPayload), Ingest.flush] Chan.fp1).2.2.2⟩

/-! ## At most one stage timer -/

theorem TimerInv.of_same {a b : App} (h : SameTimers a b) (ha : TimerInv a) : TimerInv b := by
  obtain ⟨h1, h2, h3⟩ := h
  obtain ⟨⟨a1, a2⟩, a3, a4⟩ := ha
  refine ⟨⟨?_, ?_⟩, ?_, ?_⟩
  · intro t ht
    rw [h1] at ht
    rw [h2]
    exact a1 t ht
  · intro id hid
    rw [h3] at hid
    rw [h2]
    exact a2 id hid
  · intro t ht hs
    rw [h1] at ht
    rw [h3]
    exact a3 t ht hs
  · rw [h1]
    exact a4

/-- Stage timers that all carry the recorded identifier, in a table without a repeated
identifier, are at most one. -/
theorem stage_timers_le_one (l : List Timer) (x : Option Nat)
    (hnodup : (l.map Timer.id).Nodup) (hrec : ∀ t ∈ l, t.isStage = true → x = some t.id) :
    (l.filter Timer.isStage).length ≤ 1 := by
  induction l with
  | nil => simp
  | cons a rest ih =>
    rw [List.map_cons, List.nodup_cons] at hnodup
    obtain ⟨hnotin, hrest⟩ := hnodup
    have ih' := ih hrest (fun t ht hs => hrec t (List.mem_cons_of_mem _ ht) hs)
    cases ha : a.isStage with
    | false =>
      rw [List.filter_cons_of_neg (by simp [ha])]
      exact ih'
    | true =>
      have hnil : rest.filter Timer.isStage = [] := by
        rw [List.filter_eq_nil_iff]
        intro t ht hs
        have e1 := hrec a (List.mem_cons_self _ _) ha
        have e2 := hrec t (List.mem_cons_of_mem _ ht) hs
        rw [e1] at e2
        have e3 : a.id = t.id := Option.some.inj e2
        exact hnotin (e3 ▸ List.mem_map_of_mem Timer.id ht)
      rw [List.filter_cons_of_pos ha, hnil]
      simp

theorem timerInv_count (app : App) (h : TimerInv app) :
    (app.timers.filter Timer.isStage).length ≤ 1 :=
  stage_timers_le_one app.timers app.eegPlot.audio.stageTimerId h.2.2 h.2.1

/-- Clearing the recorded stage timer leaves a well-formed table without a stage
timer. -/
theorem timerInv_clearStageTimer (app : App) (h : TimerInv app) :
    TimerInv app.clearStageTimer ∧
    app.clearStageTimer.eegPlot.audio.stageTimerId = none ∧
    (∀ t ∈ app.clearStageTimer.timers, t.isStage = false) ∧
    app.clearStageTimer.timerCount = app.timerCount := by
  obtain ⟨⟨a1, a2⟩, a3, a4⟩ := h
  have h0 : app.eegPlot.audio.stageTimerId ≠ some 0 := by
    intro e
    have := (a2 0 e).1
    omega
  obtain ⟨t1, t2⟩ := clearStageTimer_timer app h0
  have hcount : app.clearStageTimer.timerCount = app.timerCount :=
    (clearStageTimer_fields app).2.2.2.2.2.2.2.2.2.2
  have hnone : ∀ t ∈ app.clearStageTimer.timers, t.isStage = false := by
    intro t ht
    rw [t2] at ht
    obtain ⟨hmem, hne⟩ := List.mem_filter.mp ht
    cases hs : t.isStage with
    | false => rfl
    | true =>
      have := a3 t hmem hs
      simp [this] at hne
  refine ⟨⟨⟨?_, ?_⟩, ?_, ?_⟩, t1, hnone, hcount⟩
  · intro t ht
    rw [t2] at ht
    rw [hcount]
    exact a1 t (List.mem_filter.mp ht).1
  · intro id hid
    rw [t1] at hid
    exact Option.noConfusion hid
  · intro t ht hs
    rw [hnone t ht] at hs
    exact Bool.noConfusion hs
  · rw [t2]
    exact a4.sublist (List.filter_sublist _ |>.map Timer.id)

/-- Scheduling one timer under the next identifier, on a table without a stage timer. -/
theorem timerInv_schedule (base app : App) (t : Timer) (h : TimerInv base)
    (hnone : ∀ u ∈ base.timers, u.isStage = false)
    (ht : app.timers = base.timers ++ [t]) (hid : t.id = base.timerCount + 1)
    (hcount : app.timerCount = base.timerCount + 1)
    (hrec : app.eegPlot.audio.stageTimerId = some t.id ∨
      (app.eegPlot.audio.stageTimerId = none ∧ t.isStage = false)) :
    TimerInv app := by
  obtain ⟨⟨a1, _⟩, _, a4⟩ := h
  refine ⟨⟨?_, ?_⟩, ?_, ?_⟩
  · intro u hu
    rw [ht] at hu
    rw [hcount]
    rcases List.mem_append.mp hu with hu | hu
    · have := a1 u hu
      omega
    · rw [List.mem_singleton.mp hu, hid]
      omega
  · intro id e
    rw [hcount]
    rcases hrec with hr | hr
    · rw [hr] at e
      have : t.id = id := Option.some.inj e
      omega
    · rw [hr.1] at e
      exact Option.noConfusion e
  · intro u hu hs
    rw [ht] at hu
    rcases List.mem_append.mp hu with hu | hu
    · rw [hnone u hu] at hs
      exact Bool.noConfusion hs
    · rw [List.mem_singleton.mp hu] at hs ⊢
      rcases hrec with hr | hr
      · exact hr
      · rw [hr.2] at hs
        exact Bool.noConfusion hs
  · rw [ht, List.map_append, List.map_singleton]
    apply List.Nodup.append a4 (List.nodup_singleton _)
    intro x hx1 hx2
    rw [List.mem_singleton] at hx2
    obtain ⟨u, hu, e⟩ := List.mem_map.mp hx1
    have := (a1 u hu).2
    omega

theorem playTrack_sameTimers (trackId : String) (app : App) :
    SameTimers app (MusicStore.playTrack trackId app).1 := by
  unfold MusicStore.playTrack
  simp only
  split
  · exact ⟨rfl, rfl, rfl⟩
  · split <;> exact ⟨rfl, rfl, rfl⟩

theorem updateDiagnosisStage_sameTimers (stage : Nat) (app : App) :
    SameTimers app (DiagnosisStore.updateDiagnosisStage stage app).1 := by
  unfold DiagnosisStore.updateDiagnosisStage
  split
  · exact ⟨rfl, rfl, rfl⟩
  · simp only
    split <;> exact ⟨rfl, rfl, rfl⟩

/-- What `playAudioForStage` does to the timers: nothing, or it clears the recorded stage
timer, or it clears it and schedules and records one timer for the stage. -/
theorem playAudioForStage_timers (stage : Nat) (app : App) :
    SameTimers app (EegActions.playAudioForStage stage app) ∨
    SameTimers app.clearStageTimer (EegActions.playAudioForStage stage app) ∨
    ∃ d, (EegActions.playAudioForStage stage app).timers =
        app.clearStageTimer.timers ++
          [{ id := app.clearStageTimer.timerCount + 1, delay := d,
             callback := TimerCallback.stageExpired stage }] ∧
      (EegActions.playAudioForStage stage app).timerCount =
        app.clearStageTimer.timerCount + 1 ∧
      (EegActions.playAudioForStage stage app).eegPlot.audio.stageTimerId =
        some (app.clearStageTimer.timerCount + 1) := by
  unfold EegActions.playAudioForStage
  split
  · exact Or.inl ⟨rfl, rfl, rfl⟩
  · split
    · exact Or.inl ⟨rfl, rfl, rfl⟩
    · split
      · exact Or.inl ⟨rfl, rfl, rfl⟩
      · rename_i audioFile _
        split
        · exact Or.inl ⟨rfl, rfl, rfl⟩
        · right
          generalize app.clearStageTimer = A
          have hm := playTrack_sameTimers (trackIdOf audioFile) A
          simp only
          generalize MusicStore.playTrack (trackIdOf audioFile) A = played at hm ⊢
          obtain ⟨p1, p2⟩ := played
          obtain ⟨m1, m2, m3⟩ := hm
          simp only at m1 m2 m3 ⊢
          split
          · exact Or.inl ⟨m1, m2, m3⟩
          · split
            · exact Or.inl ⟨m1, m2, m3⟩
            · rename_i d _
              split
              · exact Or.inl ⟨m1, m2, m3⟩
              · right
                refine ⟨d, ?_, ?_, ?_⟩
                · simp only [App.setTimeout, m1, m2]
                · simp only [App.setTimeout, m2]
                · simp only [App.setTimeout, m2]

theorem timerInv_playAudioForStage (stage : Nat) (app : App) (h : TimerInv app) :
    TimerInv (EegActions.playAudioForStage stage app) := by
  obtain ⟨c1, c2, c3, c4⟩ := timerInv_clearStageTimer app h
  rcases playAudioForStage_timers stage app with hs | hs | ⟨d, e1, e2, e3⟩
  · exact TimerInv.of_same hs h
  · exact TimerInv.of_same hs c1
  · exact timerInv_schedule app.clearStageTimer _ _ c1 c3 e1 rfl e2 (Or.inl e3)

theorem timerInv_stopEEGVisualization (app : App) (h : TimerInv app) :
    TimerInv (EegActions.stopEEGVisualization app) := by
  by_cases hactive : app.eegPlot.active = true
  · have h0 : app.eegPlot.audio.stageTimerId ≠ some 0 := by
      intro e
      have := (h.1.2 0 e).1
      omega
    obtain ⟨_, _, f3, f4, f5, _⟩ := stopEEGVisualization_fields app hactive h0
    obtain ⟨c1, _, c3, c4⟩ := timerInv_clearStageTimer app h
    obtain ⟨_, t2⟩ := clearStageTimer_timer app h0
    refine timerInv_schedule app.clearStageTimer _
      { id := app.timerCount + 1, delay := 1000, callback := TimerCallback.graceElapsed }
      c1 c3 ?_ ?_ ?_ (Or.inr ⟨f3, rfl⟩)
    · rw [f4, t2]
    · rw [c4]
    · rw [f5, c4]
  · rw [stopEEGVisualization_inactive app (by simpa using hactive)]
    exact h

theorem timerInv_progressToNextStage (app : App) (h : TimerInv app) :
    TimerInv (EegActions.progressToNextStage app) := by
  have key : ∀ (app1 : App) (cur : Nat), TimerInv app1 →
      TimerInv
        (match app1.eegPlot.audio.stageFiles.lookup (cur + 1) with
          | none => EegActions.stopEEGVisualization app1
          | some audioFile =>
            if audioFile = "" then EegActions.stopEEGVisualization app1
            else
              EegActions.playAudioForStage (cur + 1)
                (DiagnosisStore.updateDiagnosisStage (cur + 1)
                  (if app1.bridge then
                    app1.send (BackendCall.sensor SensorAction.stage app1.diagnosisId (cur + 1))
                  else app1)).1) := by
    intro app1 cur h1
    split
    · exact timerInv_stopEEGVisualization app1 h1
    · split
      · exact timerInv_stopEEGVisualization app1 h1
      · apply timerInv_playAudioForStage
        apply TimerInv.of_same (updateDiagnosisStage_sameTimers _ _)
        split
        · exact TimerInv.of_same ⟨rfl, rfl, rfl⟩ h1
        · exact h1
  have hsend : TimerInv (app.send (BackendCall.sensor SensorAction.evaluate app.diagnosisId 3)) :=
    TimerInv.of_same ⟨rfl, rfl, rfl⟩ h
  unfold EegActions.progressToNextStage
  by_cases hdown : app.eegPlot.shuttingDown = true
  · rw [if_pos hdown]
    exact h
  · rw [if_neg hdown]
    by_cases h3 : app.eegPlot.audio.currentStage = 3 ∧ app.eegPlot.audio.currentStage + 1 = 4
    · cases hb : app.bridge
      · simp only [h3, and_self, if_true, hb, Bool.false_eq_true, if_false]
        have := key app 3 h
        simp only [hb, Bool.false_eq_true, if_false] at this
        exact this
      · simp only [h3, and_self, if_true, hb]
        exact key (app.send (BackendCall.sensor SensorAction.evaluate app.diagnosisId 3)) 3
          hsend
    · simp only [h3, if_false]
      exact key app _ h

theorem timerInv_startEEGVisualization (options : Options) (app : App) (h : TimerInv app) :
    TimerInv (EegActions.startEEGVisualization options app) := by
  by_cases hactive : app.eegPlot.active = true
  · unfold EegActions.startEEGVisualization
    rw [if_pos hactive]
    exact h
  · rw [startEEGVisualization_eq options app (by simpa using hactive) _ rfl]
    apply timerInv_playAudioForStage
    have hA : TimerInv
        (if options.diagnosis_stage.getD 0 ≠ 0 then
          (DiagnosisStore.updateDiagnosisStage (options.diagnosis_stage.getD 0)
            { app with
              eegPlot := { app.eegPlot with active := true }
              store := clearData app.store }).1
        else
          { app with
            eegPlot := { app.eegPlot with active := true }
            store := clearData app.store }) := by
      split
      · exact TimerInv.of_same (updateDiagnosisStage_sameTimers _ _)
          (TimerInv.of_same ⟨rfl, rfl, rfl⟩ h)
      · exact TimerInv.of_same ⟨rfl, rfl, rfl⟩ h
    generalize (if options.diagnosis_stage.getD 0 ≠ 0 then
        (DiagnosisStore.updateDiagnosisStage (options.diagnosis_stage.getD 0)
          { app with
            eegPlot := { app.eegPlot with active := true }
            store := clearData app.store }).1
      else
        { app with
          eegPlot := { app.eegPlot with active := true }
          store := clearData app.store }) = A at hA ⊢
    split
    · exact TimerInv.of_same ⟨rfl, rfl, rfl⟩ hA
    · exact TimerInv.of_same ⟨rfl, rfl, rfl⟩ hA

theorem timerInv_updateEEGData (data : Option Payload) (now : Nat) (app : App)
    (h : TimerInv app) : TimerInv (EegActions.updateEEGData data now app).1 := by
  unfold EegActions.updateEEGData
  split
  · split
    · exact TimerInv.of_same ⟨rfl, rfl, rfl⟩ h
    · exact h
  · simp only
    split
    · exact timerInv_startEEGVisualization _ _ (TimerInv.of_same ⟨rfl, rfl, rfl⟩ h)
    · exact TimerInv.of_same ⟨rfl, rfl, rfl⟩ h

theorem timerInv_clearTimeout (id : Nat) (app : App) (h : TimerInv app) :
    TimerInv (app.clearTimeout id) :=
  ⟨timersAllocated_clearTimeout app id h.1, stageTimerRecorded_clearTimeout app id h.2.1,
    h.2.2.sublist (List.filter_sublist _ |>.map Timer.id)⟩

theorem timerInv_fireTimer (id : Nat) (app : App) (h : TimerInv app) :
    TimerInv (fireTimer id app) := by
  unfold fireTimer
  split
  · exact h
  · rename_i t _
    have hc := timerInv_clearTimeout id app h
    cases hcb : t.callback with
    | stageExpired stage =>
      by_cases h4 : stage = 4
      · simp only [TimerCallback.run, h4, if_true]
        exact timerInv_stopEEGVisualization _ hc
      · simp only [TimerCallback.run, h4, if_false]
        exact timerInv_progressToNextStage _ hc
    | graceElapsed => exact TimerInv.of_same ⟨rfl, rfl, rfl⟩ hc

theorem timerInv_run (step : SessionStep) (app : App) (h : TimerInv app) :
    TimerInv (step.run app) := by
  cases step with
  | start options => exact timerInv_startEEGVisualization options app h
  | playAudio stage => exact timerInv_playAudioForStage stage app h
  | progress => exact timerInv_progressToNextStage app h
  | stop => exact timerInv_stopEEGVisualization app h
  | update data now => exact timerInv_updateEEGData data now app h
  | fire id => exact timerInv_fireTimer id app h
  | bridge available => exact TimerInv.of_same ⟨rfl, rfl, rfl⟩ h

theorem timerInv_runSession (steps : List SessionStep) (app : App) (h : TimerInv app) :
    TimerInv (runSession steps app) := by
  induction steps generalizing app with
  | nil => exact h
  | cons step rest ih => exact ih (step.run app) (timerInv_run step app h)

/-- C23 (at most one stage timer): from an application whose timer table is well formed,
such as the initial one, every sequence of `startEEGVisualization`, `playAudioForStage`,
`progressToNextStage`, `stopEEGVisualization` and `updateEEGData` calls, fired timers and
changes of the bridge leaves at most one stage timer outstanding, and that one is the
timer `stageTimerId` records; the table stays well formed. -/
theorem at_most_one_stage_timer (app : App) (hinv : TimerInv app) (steps : List SessionStep) :
    ((runSession steps app).timers.filter Timer.isStage).length ≤ 1 ∧
    (∀ t ∈ (runSession steps app).timers, t.isStage = true →
      (runSession steps app).eegPlot.audio.stageTimerId = some t.id) ∧
    TimerInv (runSession steps app) :=
  ⟨timerInv_count _ (timerInv_runSession steps app hinv),
    (timerInv_runSession steps app hinv).2.1, timerInv_runSession steps app hinv⟩

/-- From the initial application: after a start, a second `playAudioForStage(1)`, the
timer of stage 1 fired and a direct `progressToNextStage()`, the one stage timer
outstanding is the timer of stage 3. -/
theorem at_most_one_stage_timer_witness :
    ((runSession
      [SessionStep.start { diagnosis_id := none, diagnosis_stage := none },
        SessionStep.playAudio 1, SessionStep.fire 2, SessionStep.progress]
      (initialApp true)).timers.filter Timer.isStage).length ≤ 1 ∧
    (runSession
      [SessionStep.start { diagnosis_id := none, diagnosis_stage := none },
        SessionStep.playAudio 1, SessionStep.fire 2, SessionStep.progress]
      (initialApp true)).timers =
      [{ id := 4, delay := 70000, callback := TimerCallback.stageExpired 3 }] :=
  ⟨(at_most_one_stage_timer (initialApp true)
      ⟨⟨fun t ht => absurd ht (List.not_mem_nil _), fun id hid => Option.noConfusion hid⟩,
        fun t ht => absurd ht (List.not_mem_nil _), List.nodup_nil⟩
      [SessionStep.start { diagnosis_id := none, diagnosis_stage := none },
        SessionStep.playAudio 1, SessionStep.fire 2, SessionStep.progress]).1,
    by decide⟩

/-! ## Stage linearity -/

theorem timerInv_initialApp (bridge : Bool) : TimerInv (initialApp bridge) :=
  ⟨⟨fun _ ht => absurd ht (List.not_mem_nil _), fun _ hid => Option.noConfusion hid⟩,
    fun _ ht => absurd ht (List.not_mem_nil _), List.nodup_nil⟩

/-- On a well-formed timer table the timer `progressToNextStage` schedules is the one
stage timer outstanding afterwards. -/
theorem progressToNextStage_stage_timers (app : App) (hinv : TimerInv app)
    (hb : app.bridge = true) (hen : app.eegPlot.audio.enabled = true)
    (hdown : app.eegPlot.shuttingDown = false) (audioFile : String)
    (hfile : app.eegPlot.audio.stageFiles.lookup (app.eegPlot.audio.currentStage + 1) =
      some audioFile)
    (hne : audioFile ≠ "") (d : Nat)
    (hd : app.eegPlot.audio.stageDurations.lookup (app.eegPlot.audio.currentStage + 1) = some d)
    (hd0 : d ≠ 0) :
    (EegActions.progressToNextStage app).timers.filter Timer.isStage =
      [{ id := app.timerCount + 1, delay := d,
         callback := TimerCallback.stageExpired (app.eegPlot.audio.currentStage + 1) }] := by
  obtain ⟨_, _, _, q4⟩ := progressToNextStage_bridge app hb hen hdown audioFile hfile hne d hd hd0
  obtain ⟨_, _, c3, _⟩ := timerInv_clearStageTimer app hinv
  have hnil : app.clearStageTimer.timers.filter Timer.isStage = [] := by
    rw [List.filter_eq_nil_iff]
    intro t ht
    rw [c3 t ht]
    simp
  rw [q4, List.filter_append, hnil]
  rfl

/-- The step a stage timer of a stage below 4 makes when it fires. -/
theorem fireTimer_next_stage (app : App) (id stage : Nat) (t : Timer) (hinv : TimerInv app)
    (hfind : app.timers.find? (fun t => t.id = id) = some t)
    (hcb : t.callback = TimerCallback.stageExpired stage) (h4 : stage ≠ 4)
    (hb : app.bridge = true) (hen : app.eegPlot.audio.enabled = true)
    (hdown : app.eegPlot.shuttingDown = false) (audioFile : String)
    (hfile : app.eegPlot.audio.stageFiles.lookup (app.eegPlot.audio.currentStage + 1) =
      some audioFile)
    (hne : audioFile ≠ "") (d : Nat)
    (hd : app.eegPlot.audio.stageDurations.lookup (app.eegPlot.audio.currentStage + 1) = some d)
    (hd0 : d ≠ 0) :
    (fireTimer id app).eegPlot.audio.currentStage = app.eegPlot.audio.currentStage + 1 ∧
    (fireTimer id app).diagnosis.currentDiagnosisStage = app.eegPlot.audio.currentStage + 1 ∧
    (fireTimer id app).eegPlot.audio.stageTimerId = some (app.timerCount + 1) ∧
    (fireTimer id app).timers.filter Timer.isStage =
      [{ id := app.timerCount + 1, delay := d,
         callback := TimerCallback.stageExpired (app.eegPlot.audio.currentStage + 1) }] := by
  rw [fireTimer_eq id app t hfind, hcb]
  simp only [TimerCallback.run, h4, if_false]
  obtain ⟨q1, q2, q3, _⟩ := progressToNextStage_bridge (app.clearTimeout id) hb hen hdown
    audioFile hfile hne d hd hd0
  exact ⟨q1, q2, q3,
    progressToNextStage_stage_timers (app.clearTimeout id) (timerInv_clearTimeout id app hinv)
      hb hen hdown audioFile hfile hne d hd hd0⟩

/-- No timer skips a stage: a timer that fires leaves `audio.currentStage` where it was or
one stage further. -/
theorem fireTimer_stage (id : Nat) (app : App) :
    (fireTimer id app).eegPlot.audio.currentStage = app.eegPlot.audio.currentStage ∨
      (fireTimer id app).eegPlot.audio.currentStage = app.eegPlot.audio.currentStage + 1 := by
  unfold fireTimer
  split
  · exact Or.inl rfl
  · rename_i t _
    cases t.callback with
    | stageExpired stage =>
      by_cases h4 : stage = 4
      · simp only [TimerCallback.run, h4, if_true]
        exact Or.inl (stopEEGVisualization_frame (app.clearTimeout id)).2.2.1
      · simp only [TimerCallback.run, h4, if_false]
        exact progressToNextStage_stage (app.clearTimeout id)
    | graceElapsed => exact Or.inl rfl

/-- C17 (stage linearity): over the application state with its explicit timer table, the
bridge object installed (as it is in every state of the program; what the backend
answers is not read), audio enabled and no shutdown: when the next stage has a file and a
duration, `progressToNextStage`, and so the expiry of the timer of a stage below 4, moves
`audio.currentStage` and the diagnosis stage to exactly the next stage and schedules and
records one timer of the duration of that stage, which on a well-formed timer table is
then the only stage timer outstanding.  The default durations are 10 s, 10 s, 70 s and
10 s.  In every state, `progressToNextStage` and every timer that fires leave
`audio.currentStage` where it was (the stop of the session included) or one stage
further. -/
theorem stage_linearity :
    (∀ (app : App) (audioFile : String) (d : Nat), TimerInv app → app.bridge = true →
      app.eegPlot.audio.enabled = true → app.eegPlot.shuttingDown = false →
      app.eegPlot.audio.stageFiles.lookup (app.eegPlot.audio.currentStage + 1) =
        some audioFile →
      audioFile ≠ "" →
      app.eegPlot.audio.stageDurations.lookup (app.eegPlot.audio.currentStage + 1) = some d →
      d ≠ 0 →
      (EegActions.progressToNextStage app).eegPlot.audio.currentStage =
        app.eegPlot.audio.currentStage + 1 ∧
      (EegActions.progressToNextStage app).diagnosis.currentDiagnosisStage =
        app.eegPlot.audio.currentStage + 1 ∧
      (EegActions.progressToNextStage app).eegPlot.audio.stageTimerId =
        some (app.timerCount + 1) ∧
      (EegActions.progressToNextStage app).timers.filter Timer.isStage =
        [{ id := app.timerCount + 1, delay := d,
           callback := TimerCallback.stageExpired (app.eegPlot.audio.currentStage + 1) }]) ∧
    (∀ (app : App) (id stage : Nat) (t : Timer) (audioFile : String) (d : Nat),
      TimerInv app → app.timers.find? (fun t => t.id = id) = some t →
      t.callback = TimerCallback.stageExpired stage → stage ≠ 4 → app.bridge = true →
      app.eegPlot.audio.enabled = true → app.eegPlot.shuttingDown = false →
      app.eegPlot.audio.stageFiles.lookup (app.eegPlot.audio.currentStage + 1) =
        some audioFile →
      audioFile ≠ "" →
      app.eegPlot.audio.stageDurations.lookup (app.eegPlot.audio.currentStage + 1) = some d →
      d ≠ 0 →
      (fireTimer id app).eegPlot.audio.currentStage = app.eegPlot.audio.currentStage + 1 ∧
      (fireTimer id app).diagnosis.currentDiagnosisStage =
        app.eegPlot.audio.currentStage + 1 ∧
      (fireTimer id app).eegPlot.audio.stageTimerId = some (app.timerCount + 1) ∧
      (fireTimer id app).timers.filter Timer.isStage =
        [{ id := app.timerCount + 1, delay := d,
           callback := TimerCallback.stageExpired (app.eegPlot.audio.currentStage + 1) }]) ∧
    (∀ bridge : Bool,
      (initialApp bridge).eegPlot.audio.stageDurations =
        [(1, 10000), (2, 10000), (3, 70000), (4, 10000)]) ∧
    (∀ app : App,
      (EegActions.progressToNextStage app).eegPlot.audio.currentStage =
          app.eegPlot.audio.currentStage ∨
        (EegActions.progressToNextStage app).eegPlot.audio.currentStage =
          app.eegPlot.audio.currentStage + 1) ∧
    (∀ (id : Nat) (app : App),
      (fireTimer id app).eegPlot.audio.currentStage = app.eegPlot.audio.currentStage ∨
        (fireTimer id app).eegPlot.audio.currentStage = app.eegPlot.audio.currentStage + 1) := by
  refine ⟨?_, ?_, fun _ => rfl, progressToNextStage_stage, fireTimer_stage⟩
  · intro app audioFile d hinv hb hen hdown hfile hne hd hd0
    obtain ⟨q1, q2, q3, _⟩ := progressToNextStage_bridge app hb hen hdown audioFile hfile hne d
      hd hd0
    exact ⟨q1, q2, q3,
      progressToNextStage_stage_timers app hinv hb hen hdown audioFile hfile hne d hd hd0⟩
  · intro app id stage t audioFile d hinv hfind hcb h4 hb hen hdown hfile hne hd hd0
    exact fireTimer_next_stage app id stage t hinv hfind hcb h4 hb hen hdown audioFile hfile hne
      d hd hd0

/-- The default protocol: the timer of stage 1 (identifier 1) fires in the recording in
stage 1 and leaves stage 2 with one timer of 10 s; the timers of stages 2 and 3 leave
stage 3 with one timer of 70 s and stage 4 with one timer of 10 s. -/
theorem stage_linearity_witness :
    ((fireTimer 1 stage1App).eegPlot.audio.currentStage =
        stage1App.eegPlot.audio.currentStage + 1 ∧
      (fireTimer 1 stage1App).diagnosis.currentDiagnosisStage =
        stage1App.eegPlot.audio.currentStage + 1 ∧
      (fireTimer 1 stage1App).eegPlot.audio.stageTimerId = some (stage1App.timerCount + 1) ∧
      (fireTimer 1 stage1App).timers.filter Timer.isStage =
        [{ id := stage1App.timerCount + 1, delay := 10000,
           callback := TimerCallback.stageExpired (stage1App.eegPlot.audio.currentStage + 1) }]) ∧
    (fireTimer 1 stage1App).timers =
      [{ id := 2, delay := 10000, callback := TimerCallback.stageExpired 2 }] ∧
    stage3App.timers = [{ id := 3, delay := 70000, callback := TimerCallback.stageExpired 3 }] ∧
    stage3App.eegPlot.audio.currentStage = 3 ∧
    stage4App.timers = [{ id := 4, delay := 10000, callback := TimerCallback.stageExpired 4 }] ∧
    stage4App.eegPlot.audio.currentStage = 4 ∧
    stage4App.diagnosis.currentDiagnosisStage = 4 :=
  ⟨stage_linearity.2.1 stage1App 1 1
      { id := 1, delay := 10000, callback := TimerCallback.stageExpired 1 } "bp2.ogg" 10000
      (timerInv_startEEGVisualization _ _ (timerInv_initialApp true)) (by decide) rfl
      (by decide) (by decide) (by decide) (by decide) (by decide) (by decide) (by decide)
      (by decide),
    by decide, by decide, by decide, by decide, by decide, by decide⟩

end Valen
